import Mathlib

/-! venus-messager: the per-sender selection and signing pipeline.

A shallow embedding of `service/message_selector.go`.  Calls to the collaborators
(chain node, wallet, repositories) are answered by an environment record, and every
call made is appended to a trace so that statements of the form "without calling X"
can be expressed.  Unsigned 64-bit integers are natural numbers with the reduction
modulo `2^64` written out at every arithmetic operation of the source.
-/

set_option linter.dupNamespace false

namespace Messager

/-! ## Machine integers -/

/-- The number of values of a Go `uint64`. -/
def uint64Size : Nat := 18446744073709551616

/-- Go `a - b` on `uint64`. -/
def subU64 (a b : Nat) : Nat := (a + uint64Size - b % uint64Size) % uint64Size

/-- Go `a + 1` (`a++`) on `uint64`. -/
def incU64 (a : Nat) : Nat := (a + 1) % uint64Size

/-- Go `a * b` on `uint64`. -/
def mulU64 (a b : Nat) : Nat := (a * b) % uint64Size

/-! ## Data model -/

/-- The type `address.Address`: a comparable key. -/
abbrev AddrKey := String

/-- A Go `float64`, kept as its IEEE-754 bit pattern.  The selector only copies such values
and compares them with zero. -/
structure Float64 where
  bits : Nat := 0
deriving DecidableEq, Repr

/-- Go `f == 0`: true for `+0` and `-0` only. -/
def Float64.isZero (f : Float64) : Bool :=
  f.bits == 0 || f.bits == 9223372036854775808

/-- The type `big.Int`: a possibly nil arbitrary-precision integer. -/
abbrev BigInt := Option Int

/-- The method `big.Int.NilOrZero`. -/
def BigInt.NilOrZero (b : BigInt) : Bool :=
  match b with
  | none => true
  | some v => v == 0

/-- The type `crypto.Signature`. -/
structure Signature where
  SigType : Nat := 1
  Data : List Nat := []
deriving DecidableEq, Repr

/-- The constant `crypto.SigTypeBLS`. -/
def SigTypeBLS : Nat := 2

/-- The chain message `venusTypes.Message`. -/
structure ChainMessage where
  Version : Nat := 0
  To : AddrKey := ""
  From : AddrKey := ""
  Nonce : Nat := 0
  Value : BigInt := some 0
  GasLimit : Int := 0
  GasFeeCap : BigInt := some 0
  GasPremium : BigInt := some 0
  Method : Nat := 0
  Params : List Nat := []
deriving DecidableEq, Repr

/-- The type `venusTypes.SignedMessage`. -/
structure SignedMessage where
  Message : ChainMessage
  Signature : Signature
deriving DecidableEq, Repr

/-- A content address.  The hash is idealised as the hashed content itself. -/
inductive Cid where
  | ofMessage (m : ChainMessage)
  | ofSigned (m : ChainMessage) (sig : Signature)
deriving DecidableEq, Repr

/-- The method `venusTypes.Message.Cid`. -/
def ChainMessage.Cid (m : ChainMessage) : Cid := Cid.ofMessage m

/-- The method `venusTypes.SignedMessage.Cid`: a BLS-signed message is addressed by its
unsigned content. -/
def SignedMessage.Cid (sm : SignedMessage) : Cid :=
  if sm.Signature.SigType = SigTypeBLS then sm.Message.Cid else Cid.ofSigned sm.Message sm.Signature

/-- The enumeration `types.MessageState`. -/
inductive MessageState where
  | UnKnown
  | UnFillMsg
  | FillMsg
  | OnChainMsg
  | FailedMsg
  | NonceConflictMsg
  | NoWalletMsg
deriving DecidableEq, Repr

/-- The type `types.SendSpec`: the per-message policy. -/
structure SendSpec where
  GasOverEstimation : Float64 := {}
  MaxFee : BigInt := none
  GasOverPremium : Float64 := {}
deriving DecidableEq, Repr

/-- The type `venusTypes.MessageReceipt`. -/
structure MessageReceipt where
  ExitCode : Int := 0
  Return : List Nat := []
  GasUsed : Int := 0
deriving DecidableEq, Repr

/-- The type `venusTypes.TipSetKey`: the cids of the blocks of a tipset. -/
structure TipSetKey where
  cids : List Cid := []
deriving DecidableEq, Repr

/-- The method `TipSetKey.IsEmpty`. -/
def TipSetKey.IsEmpty (k : TipSetKey) : Bool := k.cids.isEmpty

/-- The messager message `types.Message`; the embedded chain message is the field `Message`,
so Go `msg.Nonce` is `msg.Message.Nonce` here. -/
structure Message where
  ID : String := ""
  Message : ChainMessage := {}
  Signature : Option Signature := none
  UnsignedCid : Option Cid := none
  SignedCid : Option Cid := none
  Height : Int := 0
  Meta : SendSpec := {}
  State : MessageState := MessageState.UnFillMsg
  ErrorMsg : String := ""
  Receipt : Option MessageReceipt := none
  TipSetKey : TipSetKey := {}
  WalletName : String := ""
  CreatedAt : Nat := 0
  UpdatedAt : Nat := 0
deriving DecidableEq, Repr

/-- The enumeration `types.AddressState`. -/
inductive AddressState where
  | Alive
  | Forbiden
  | Notfound
deriving DecidableEq, Repr

/-- The messager address record `types.Address`, with the fields the selector and the
address service read. -/
structure Address where
  Addr : AddrKey := ""
  Nonce : Nat := 0
  SelMsgNum : Nat := 0
  GasOverEstimation : Float64 := {}
  GasOverPremium : Float64 := {}
  MaxFee : BigInt := none
  GasFeeCap : BigInt := none
  BaseFee : BigInt := none
  UpdatedAt : Nat := 0
  WalletID : Nat := 0
  State : AddressState := AddressState.Alive
deriving DecidableEq, Repr

/-- The type `types.SharedSpec`: the global policy. -/
structure SharedSpec where
  GasOverEstimation : Float64 := {}
  MaxFee : BigInt := none
  GasFeeCap : BigInt := none
  BaseFee : BigInt := none
  GasOverPremium : Float64 := {}
  SelMsgNum : Nat := 0
deriving DecidableEq, Repr

/-- A tipset, with what the selector reads of it: its key, its height and the parent base
fee of its first block. -/
structure TipSet where
  Key : Nat := 0
  Height : Int := 0
  ParentBaseFee : Int := 0
deriving DecidableEq, Repr

/-! ## Go maps keyed by address -/

/-- A Go `map[address.Address]uint64`. -/
abbrev NumMap := AddrKey → Option Nat

/-- The empty map. -/
def NumMap.empty : NumMap := fun _ => none

/-- Go `m[k] = v`. -/
def NumMap.set (m : NumMap) (k : AddrKey) (v : Nat) : NumMap :=
  fun a => if a = k then some v else m a

/-- Modelled from the spec: `utils.NonceMap` is not among the sources; it is the
applied-nonce map, a finite map from sender address to nonce with `Get` and `Add`. -/
abbrev NonceMap := NumMap

/-- The constructor `utils.NewNonceMap`. -/
def NewNonceMap : NonceMap := NumMap.empty

/-- The method `NonceMap.Get`, returning the value when present. -/
def NonceMap.Get (m : NonceMap) (k : AddrKey) : Option Nat := m k

/-- The method `NonceMap.Add`. -/
def NonceMap.Add (m : NonceMap) (k : AddrKey) (v : Nat) : NonceMap := NumMap.set m k v

/-! ## Applied nonces of a tipset -/

/-- The closure `selectMsg` of `getNonceInTipset`, as a step on the applied map. -/
def getNonceInTipset.selectMsg (applied : NonceMap) (m : ChainMessage) : NonceMap :=
  let applied1 : NonceMap :=
    match NonceMap.Get applied m.From with
    | none => NonceMap.Add applied m.From m.Nonce
    | some _ => applied
  let val := (NonceMap.Get applied1 m.From).getD 0
  if val ≠ m.Nonce then applied1
  else NonceMap.Add applied1 m.From (incU64 val)

/-- The loop of `getNonceInTipset` over the messages returned by the node. -/
def getNonceInTipset.loop (msgs : List ChainMessage) : NonceMap :=
  msgs.foldl getNonceInTipset.selectMsg NewNonceMap

/-- The function `MsgSelectMgr.getNonceInTipset`; `chainGetMessagesInTipset` is the answer of
the node to `ChainGetMessagesInTipset`. -/
def getNonceInTipset (chainGetMessagesInTipset : Except String (List ChainMessage)) :
    Except String NonceMap :=
  match chainGetMessagesInTipset with
  | Except.error e => Except.error ("failed to get message in tipset " ++ e)
  | Except.ok msgs => Except.ok (getNonceInTipset.loop msgs)

/-! ## Per-address cap -/

/-- One iteration of the loop of `addrSelectMsgNum`. -/
def addrSelectMsgNum.step (defSelMsgNum : Nat) (selMsgNum : NumMap) (addr : Address) : NumMap :=
  match selMsgNum addr.Addr with
  | some num =>
    if addr.SelMsgNum > 0 ∧ num < addr.SelMsgNum then NumMap.set selMsgNum addr.Addr addr.SelMsgNum
    else selMsgNum
  | none =>
    if addr.SelMsgNum = 0 then NumMap.set selMsgNum addr.Addr defSelMsgNum
    else NumMap.set selMsgNum addr.Addr addr.SelMsgNum

/-- The function `addrSelectMsgNum`. -/
def addrSelectMsgNum (addrList : List Address) (defSelMsgNum : Nat) : NumMap :=
  addrList.foldl (addrSelectMsgNum.step defSelMsgNum) NumMap.empty

/-! ## Errors -/

/-- A Go error value: its text and, when it was built with the verb `%w`, the error it
wraps. -/
inductive GoError where
  | plain (text : String)
  | wrap (text : String) (inner : GoError)
deriving DecidableEq, Repr

/-- The method `Error`. -/
def GoError.Error : GoError → String
  | GoError.plain t => t
  | GoError.wrap t _ => t

/-- The function `errors.Unwrap`. -/
def GoError.Unwrap : GoError → Option GoError
  | GoError.plain _ => none
  | GoError.wrap _ inner => some inner

/-- The function `errors.Is`. -/
def GoError.Is : GoError → GoError → Bool
  | GoError.plain t, target => GoError.plain t == target
  | GoError.wrap t inner, target => GoError.wrap t inner == target || GoError.Is inner target

/-- The verb `%v` applied to a possibly nil error. -/
def fmtV : Option GoError → String
  | none => "<nil>"
  | some e => e.Error

/-- How a call can fail to produce its value: a returned error, or a run-time panic. -/
inductive Fault where
  | error (e : GoError)
  | panic (what : String)
deriving DecidableEq, Repr

/-- The constant `gasEstimate`. -/
def gasEstimate : String := "gas estimate: "

/-- The constant `signMsg`. -/
def signMsg : String := "sign msg: "

/-- The variable `errSingMessage`. -/
def errSingMessage : GoError := GoError.plain "sign message faield"

/-! ## Collaborators -/

/-- The type `venusTypes.MessageSendSpec`. -/
structure MessageSendSpec where
  MaxFee : BigInt := none
  GasOverEstimation : Float64 := {}
  GasOverPremium : Float64 := {}
deriving DecidableEq, Repr

/-- The type `venusTypes.EstimateMessage`. -/
structure EstimateMessage where
  Msg : ChainMessage
  Spec : MessageSendSpec
deriving DecidableEq, Repr

/-- The type `venusTypes.EstimateResult`: `Msg` is a pointer and may be nil. -/
structure EstimateResult where
  Msg : Option ChainMessage := none
  Err : String := ""
deriving DecidableEq, Repr

/-- The answers of the collaborators of one worker during one selection: the address
service, the chain node, the repositories, the wallet and the clock.  A time-out of a call
is one of its error answers. -/
structure Env where
  GetAccountsOfSigner : AddrKey → Except GoError (List String)
  StateGetActor : AddrKey → Nat → Except GoError Nat
  UpdateNonce : AddrKey → Nat → Option GoError
  ListFilledMessageByAddress : AddrKey → Except GoError (List Message)
  ListUnChainMessageByAddress : AddrKey → Int → Except GoError (List Message)
  GasBatchEstimateMessageGas : List EstimateMessage → Nat → Nat → Except GoError (List EstimateResult)
  ToStorageBlock : ChainMessage → Except GoError (List Nat)
  WalletSign : AddrKey → List String → Cid → List Nat → Except GoError Signature
  Now : Nat

/-- A call made to a collaborator, with its arguments. -/
inductive Call where
  | GetAccountsOfSigner (addr : AddrKey)
  | StateGetActor (addr : AddrKey) (tsk : Nat)
  | UpdateNonce (addr : AddrKey) (nonce : Nat)
  | ListFilledMessageByAddress (addr : AddrKey)
  | ListUnChainMessageByAddress (addr : AddrKey) (topN : Int)
  | GasBatchEstimateMessageGas (msgs : List EstimateMessage) (nonce : Nat) (tsk : Nat)
  | WalletSign (addr : AddrKey) (accounts : List String) (msg : ChainMessage)
deriving DecidableEq, Repr

/-- The type `msgErrInfo`. -/
structure msgErrInfo where
  id : String
  err : String
deriving DecidableEq, Repr

/-- The type `MsgSelectResult`. -/
structure MsgSelectResult where
  Address : Address
  SelectMsg : List Message := []
  ToPushMsg : List SignedMessage := []
  ErrMsg : List msgErrInfo := []
deriving DecidableEq, Repr

/-- The type `work`: the address, the identity of the allocation, whether `ctx` is cancelled,
and the channel `controlChan` of capacity 1 (the number of items it holds and whether it is
closed). -/
structure work where
  addr : AddrKey
  ptr : Nat := 0
  ctxDone : Bool := false
  controlChan : Nat := 0
  controlClosed : Bool := false
deriving DecidableEq, Repr

/-- The type `GasSpec`. -/
structure GasSpec where
  GasOverEstimation : Float64 := {}
  MaxFee : BigInt := none
  GasOverPremium : Float64 := {}
  GasFeeCap : BigInt := none
  BaseFee : BigInt := none
deriving DecidableEq, Repr

/-! ## Gas policy -/

/-- The function `mergeMsgSpec`.  The global spec is a pointer and may be nil; the branch for
`GasOverPremium` reads it without a nil check. -/
def mergeMsgSpec (globalSpec : Option SharedSpec) (sendSpec : SendSpec) (addrInfo : Address)
    (msg : Message) : Except Fault GasSpec :=
  let m0 : GasSpec :=
    { GasOverEstimation := sendSpec.GasOverEstimation
      GasOverPremium := sendSpec.GasOverPremium
      MaxFee := sendSpec.MaxFee }
  let m1 : GasSpec :=
    if sendSpec.GasOverEstimation.isZero then
      if !addrInfo.GasOverEstimation.isZero then
        { m0 with GasOverEstimation := addrInfo.GasOverEstimation }
      else
        match globalSpec with
        | some g => { m0 with GasOverEstimation := g.GasOverEstimation }
        | none => m0
    else m0
  let m2 : GasSpec :=
    if BigInt.NilOrZero sendSpec.MaxFee then
      if !BigInt.NilOrZero addrInfo.MaxFee then { m1 with MaxFee := addrInfo.MaxFee }
      else
        match globalSpec with
        | some g => { m1 with MaxFee := g.MaxFee }
        | none => m1
    else m1
  let m3 : GasSpec :=
    if BigInt.NilOrZero msg.Message.GasFeeCap then
      if !BigInt.NilOrZero addrInfo.GasFeeCap then { m2 with GasFeeCap := addrInfo.GasFeeCap }
      else
        match globalSpec with
        | some g => { m2 with GasFeeCap := g.GasFeeCap }
        | none => m2
    else m2
  let m4 : Except Fault GasSpec :=
    if sendSpec.GasOverPremium.isZero then
      if !addrInfo.GasOverPremium.isZero then
        Except.ok { m3 with GasOverPremium := addrInfo.GasOverPremium }
      else
        match globalSpec with
        | none => Except.error (Fault.panic "nil pointer dereference")
        | some g =>
          if !g.GasOverPremium.isZero then
            Except.ok { m3 with GasOverPremium := g.GasOverPremium }
          else Except.ok m3
    else Except.ok m3
  match m4 with
  | Except.error f => Except.error f
  | Except.ok m =>
    if !BigInt.NilOrZero addrInfo.BaseFee then Except.ok { m with BaseFee := addrInfo.BaseFee }
    else
      match globalSpec with
      | some g => Except.ok { m with BaseFee := g.BaseFee }
      | none => Except.ok m

/-! ## The worker pipeline -/

/-- The function `work.getNonce`: the nonce in the latest tipset and the actor nonce. -/
def work.getNonce (env : Env) (w : work) (ts : TipSet) (appliedNonce : NonceMap) :
    Except GoError (Nat × Nat) :=
  match env.StateGetActor w.addr ts.Key with
  | Except.error e => Except.error e
  | Except.ok actorNonce =>
    match NonceMap.Get appliedNonce w.addr with
    | some nonceInTs => Except.ok (nonceInTs, actorNonce)
    | none => Except.ok (actorNonce, actorNonce)

/-- The loop of `work.getFilledMessage`; `none` is the nil dereference of `*msg.Signature`. -/
def getFilledMessage.loop (nonceInLatestTs : Nat) : List Message → Option (List SignedMessage)
  | [] => some []
  | msg :: rest =>
    if nonceInLatestTs > msg.Message.Nonce then getFilledMessage.loop nonceInLatestTs rest
    else
      match msg.Signature with
      | none => none
      | some sig =>
        (getFilledMessage.loop nonceInLatestTs rest).map
          (fun msgs => { Message := msg.Message, Signature := sig } :: msgs)

/-- The function `work.getFilledMessage`: a failed listing is logged and leaves the list
empty. -/
def work.getFilledMessage (env : Env) (w : work) (nonceInLatestTs : Nat) :
    Except Fault (List SignedMessage) :=
  let filledMessage : List Message :=
    match env.ListFilledMessageByAddress w.addr with
    | Except.error _ => []
    | Except.ok l => l
  match getFilledMessage.loop nonceInLatestTs filledMessage with
  | none => Except.error (Fault.panic "nil pointer dereference")
  | some msgs => Except.ok msgs

/-- Go `!x.NilOrZero() && baseFee.GreaterThan(x)`. -/
def baseFeeTooHigh (baseFee : Int) (x : BigInt) : Bool :=
  match x with
  | none => false
  | some v => v != 0 && baseFee > v

/-- The loop of `work.estimateMessage`: the candidates kept, as left in memory, and the
batch to estimate. -/
def estimateMessage.loop (sharedParams : Option SharedSpec) (addrInfo : Address) (ts : TipSet) :
    List Message → Except Fault (List Message × List EstimateMessage)
  | [] => Except.ok ([], [])
  | msg :: rest =>
    match mergeMsgSpec sharedParams msg.Meta addrInfo msg with
    | Except.error f => Except.error f
    | Except.ok newMsgMeta =>
      let msg1 : Message :=
        if BigInt.NilOrZero msg.Message.GasFeeCap && !BigInt.NilOrZero newMsgMeta.GasFeeCap then
          { msg with Message := { msg.Message with GasFeeCap := newMsgMeta.GasFeeCap } }
        else msg
      if baseFeeTooHigh ts.ParentBaseFee newMsgMeta.BaseFee then
        estimateMessage.loop sharedParams addrInfo ts rest
      else
        match estimateMessage.loop sharedParams addrInfo ts rest with
        | Except.error f => Except.error f
        | Except.ok (candidateMessages, estimateMesssages) =>
          Except.ok (msg1 :: candidateMessages,
            { Msg := msg1.Message
              Spec := { MaxFee := newMsgMeta.MaxFee
                        GasOverEstimation := newMsgMeta.GasOverEstimation
                        GasOverPremium := newMsgMeta.GasOverPremium } } :: estimateMesssages)

/-- The function `work.estimateMessage`: the calls made, then the estimation results with
the candidates. -/
def work.estimateMessage (env : Env) (ts : TipSet) (msgs : List Message)
    (sharedParams : Option SharedSpec) (addrInfo : Address) :
    List Call × Except Fault (List EstimateResult × List Message) :=
  match estimateMessage.loop sharedParams addrInfo ts msgs with
  | Except.error f => ([], Except.error f)
  | Except.ok (candidateMessages, estimateMesssages) =>
    match env.GasBatchEstimateMessageGas estimateMesssages addrInfo.Nonce ts.Key with
    | Except.error e =>
      ([Call.GasBatchEstimateMessageGas estimateMesssages addrInfo.Nonce ts.Key],
        Except.error (Fault.error e))
    | Except.ok estimateResult =>
      ([Call.GasBatchEstimateMessageGas estimateMesssages addrInfo.Nonce ts.Key],
        Except.ok (estimateResult, candidateMessages))

/-- The function `work.signMessage`: the calls made, then the signature or the error. -/
def work.signMessage (env : Env) (w : work) (msg : Message) (accounts : List String) :
    List Call × Except GoError Signature :=
  match env.ToStorageBlock msg.Message with
  | Except.error e =>
    ([], Except.error (GoError.plain ("serialize message " ++ msg.ID ++ " failed " ++ e.Error)))
  | Except.ok data =>
    match env.WalletSign w.addr accounts msg.Message.Cid data with
    | Except.error e =>
      ([Call.WalletSign w.addr accounts msg.Message],
        Except.error (GoError.wrap (e.Error ++ " " ++ errSingMessage.Error) errSingMessage))
    | Except.ok sig => ([Call.WalletSign w.addr accounts msg.Message], Except.ok sig)

/-- The variables of the signing loop of `selectMessage`: `addrInfo.Nonce`, `count`,
`selectMsg`, `errMsg`, the calls made so far, the candidates the loop has reached, as it left
them in memory, and whether the loop was left by `break`. -/
structure SignState where
  Nonce : Nat
  count : Nat := 0
  selectMsg : List Message := []
  errMsg : List msgErrInfo := []
  calls : List Call := []
  visited : List Message := []
  broke : Bool := false
deriving DecidableEq, Repr

/-- The assignment block of the signing loop: nonce, gas fields of the estimation, and the
unsigned cid. -/
def selectMessage.assign (msg : Message) (nonce : Nat) (estimateMsg : ChainMessage) : Message :=
  let m : ChainMessage :=
    { msg.Message with
      Nonce := nonce
      GasFeeCap := estimateMsg.GasFeeCap
      GasPremium := estimateMsg.GasPremium
      GasLimit := estimateMsg.GasLimit }
  { msg with Message := m, UnsignedCid := some m.Cid }

/-- The block of the signing loop after a successful signature. -/
def selectMessage.fill (msg : Message) (sig : Signature) : Message :=
  { msg with
    Signature := some sig
    State := MessageState.FillMsg
    SignedCid := some (SignedMessage.Cid { Message := msg.Message, Signature := sig }) }

/-- The signing loop of `selectMessage` (`for index, msg := range candidateMessages`), with
`estimateResult[index]` read in step with the candidates. -/
def selectMessage.signLoop (env : Env) (w : work) (accounts : List String) (wantCount : Nat) :
    List Message → List EstimateResult → SignState → Except Fault SignState
  | [], _, st => Except.ok st
  | _ :: _, [], _ => Except.error (Fault.panic "index out of range")
  | msg :: rest, r :: results, st =>
    if r.Err.length ≠ 0 then
      selectMessage.signLoop env w accounts wantCount rest results
        { st with
          errMsg := st.errMsg ++ [{ id := msg.ID, err := gasEstimate ++ r.Err }]
          visited := st.visited ++ [msg] }
    else if st.count ≥ wantCount then
      Except.ok { st with visited := st.visited ++ [msg], broke := true }
    else
      match r.Msg with
      | none => Except.error (Fault.panic "nil pointer dereference")
      | some estimateMsg =>
        let msg1 := selectMessage.assign msg st.Nonce estimateMsg
        match work.signMessage env w msg1 accounts with
        | (cs, Except.error err) =>
          if GoError.Is err errSingMessage then
            Except.ok
              { st with
                errMsg := st.errMsg ++ [{ id := msg.ID, err := signMsg ++ fmtV err.Unwrap }]
                calls := st.calls ++ cs
                visited := st.visited ++ [msg1]
                broke := true }
          else
            selectMessage.signLoop env w accounts wantCount rest results
              { st with calls := st.calls ++ cs, visited := st.visited ++ [msg1] }
        | (cs, Except.ok sig) =>
          let msg2 := selectMessage.fill msg1 sig
          selectMessage.signLoop env w accounts wantCount rest results
            { Nonce := incU64 st.Nonce
              count := incU64 st.count
              selectMsg := st.selectMsg ++ [msg2]
              errMsg := st.errMsg
              calls := st.calls ++ cs
              visited := st.visited ++ [msg2]
              broke := st.broke }

/-- The reconciliation step of `selectMessage`: the stored nonce is raised to the nonce on
chain and written to the address repository. -/
def selectMessage.reconcile (env : Env) (addrInfo : Address) (nonceInLatestTs : Nat) :
    List Call × Except GoError Address :=
  if nonceInLatestTs > addrInfo.Nonce then
    let addrInfo1 : Address := { addrInfo with Nonce := nonceInLatestTs, UpdatedAt := env.Now }
    match env.UpdateNonce addrInfo1.Addr addrInfo1.Nonce with
    | some e =>
      ([Call.UpdateNonce addrInfo1.Addr addrInfo1.Nonce],
        Except.error (GoError.plain ("update nonce failed " ++ e.Error)))
    | none => ([Call.UpdateNonce addrInfo1.Addr addrInfo1.Nonce], Except.ok addrInfo1)
  else ([], Except.ok addrInfo)

/-- One run of `selectMessage`: the calls made to the collaborators, the candidates as the
signing loop left them in memory (those it reached, then those it did not), and the returned
result or failure. -/
structure Run where
  calls : List Call
  candidates : List Message := []
  result : Except Fault MsgSelectResult

/-- The part of `selectMessage` from the budget computation on, given the reconciled address,
the nonce on chain and the re-push set. -/
def selectMessage.select (env : Env) (w : work) (accounts : List String) (addrInfo : Address)
    (nonceInLatestTs : Nat) (toPushMessage : List SignedMessage) (ts : TipSet)
    (maxAllowPendingMessage : Nat) (sharedParams : Option SharedSpec) (calls : List Call) : Run :=
  let nonceGap := subU64 addrInfo.Nonce nonceInLatestTs
  if nonceGap ≥ maxAllowPendingMessage then
    { calls := calls, result := Except.ok { ToPushMsg := toPushMessage, Address := addrInfo } }
  else
    let wantCount := subU64 maxAllowPendingMessage nonceGap
    let selectCount := min (mulU64 wantCount 2) 100
    let calls1 := calls ++ [Call.ListUnChainMessageByAddress addrInfo.Addr (Int.ofNat selectCount)]
    match env.ListUnChainMessageByAddress addrInfo.Addr (Int.ofNat selectCount) with
    | Except.error e =>
      { calls := calls1
        result := Except.error
          (Fault.error (GoError.plain ("list unfill message error " ++ e.Error))) }
    | Except.ok messages =>
      if messages.length = 0 then
        { calls := calls1
          result := Except.ok { ToPushMsg := toPushMessage, Address := addrInfo } }
      else
        match work.estimateMessage env ts messages sharedParams addrInfo with
        | (cs, Except.error f) => { calls := calls1 ++ cs, result := Except.error f }
        | (cs, Except.ok (estimateResult, candidateMessages)) =>
          match selectMessage.signLoop env w accounts wantCount candidateMessages estimateResult
              { Nonce := addrInfo.Nonce, calls := calls1 ++ cs } with
          | Except.error f => { calls := calls1 ++ cs, result := Except.error f }
          | Except.ok st =>
            { calls := st.calls
              candidates := st.visited ++ candidateMessages.drop st.visited.length
              result := Except.ok
                { SelectMsg := st.selectMsg
                  ToPushMsg := toPushMessage
                  Address := { addrInfo with Nonce := st.Nonce }
                  ErrMsg := st.errMsg } }

/-- The function `work.selectMessage`. -/
def work.selectMessage (env : Env) (w : work) (appliedNonce : NonceMap) (addrInfo : Address)
    (ts : TipSet) (maxAllowPendingMessage : Nat) (sharedParams : Option SharedSpec) : Run :=
  let calls0 := [Call.GetAccountsOfSigner addrInfo.Addr]
  match env.GetAccountsOfSigner addrInfo.Addr with
  | Except.error e => { calls := calls0, result := Except.error (Fault.error e) }
  | Except.ok accounts =>
    let calls1 := calls0 ++ [Call.StateGetActor w.addr ts.Key]
    match work.getNonce env w ts appliedNonce with
    | Except.error e => { calls := calls1, result := Except.error (Fault.error e) }
    | Except.ok (nonceInLatestTs, _) =>
      match selectMessage.reconcile env addrInfo nonceInLatestTs with
      | (cs, Except.error e) => { calls := calls1 ++ cs, result := Except.error (Fault.error e) }
      | (cs, Except.ok addrInfo1) =>
        let calls2 := calls1 ++ cs ++ [Call.ListFilledMessageByAddress w.addr]
        match work.getFilledMessage env w nonceInLatestTs with
        | Except.error f => { calls := calls2, result := Except.error f }
        | Except.ok toPushMessage =>
          selectMessage.select env w accounts addrInfo1 nonceInLatestTs toPushMessage ts
            maxAllowPendingMessage sharedParams calls2

/-! ## Specification-side definitions and concrete inputs -/

/-- The applied nonce of one sender in the words of the specification: no value when the
sender has no message; otherwise start from the nonce of its first message and add one for
each of its messages, in order, whose nonce equals the running value. -/
def runningNonce (senderMsgs : List ChainMessage) : Option Nat :=
  match senderMsgs with
  | [] => none
  | first :: _ =>
    some (senderMsgs.foldl (fun v m => if m.Nonce = v then incU64 v else v) first.Nonce)

/-- The state after a candidate whose estimation failed. -/
def SignState.afterEstimateError (st : SignState) (msg : Message) (r : EstimateResult) :
    SignState :=
  { st with
    errMsg := st.errMsg ++ [{ id := msg.ID, err := gasEstimate ++ r.Err }]
    visited := st.visited ++ [msg] }

/-- The state after the loop is left because `count` has reached `wantCount`. -/
def SignState.afterFull (st : SignState) (msg : Message) : SignState :=
  { st with visited := st.visited ++ [msg], broke := true }

/-- The state after the loop is left because the wallet failed to sign. -/
def SignState.afterSignError (st : SignState) (msg msg1 : Message) (cs : List Call)
    (err : GoError) : SignState :=
  { st with
    errMsg := st.errMsg ++ [{ id := msg.ID, err := signMsg ++ fmtV err.Unwrap }]
    calls := st.calls ++ cs
    visited := st.visited ++ [msg1]
    broke := true }

/-- The state after a candidate that could not be serialised. -/
def SignState.afterSkip (st : SignState) (msg1 : Message) (cs : List Call) : SignState :=
  { st with calls := st.calls ++ cs, visited := st.visited ++ [msg1] }

/-- The state after a candidate was signed and selected. -/
def SignState.afterSelect (st : SignState) (msg2 : Message) (cs : List Call) : SignState :=
  { Nonce := incU64 st.Nonce
    count := incU64 st.count
    selectMsg := st.selectMsg ++ [msg2]
    errMsg := st.errMsg
    calls := st.calls ++ cs
    visited := st.visited ++ [msg2]
    broke := st.broke }

/-- A worker for the address `f1a`. -/
def wDemo : work := { addr := "f1a" }

/-- The first unfilled message listed by `envDemo`. -/
def candDemo1 : Message := { ID := "m1", Message := { From := "f1a" } }

/-- The second unfilled message listed by `envDemo`, with a negative gas limit. -/
def candDemo2 : Message := { ID := "m2", Message := { From := "f1a", GasLimit := -1 } }

/-- The third unfilled message listed by `envDemo`. -/
def candDemo3 : Message := { ID := "m3", Message := { From := "f1a" } }

/-- The filled messages listed by `envDemo`, with the nonces 14, 15 and 16. -/
def filledDemo : List Message :=
  [{ ID := "f14", Message := { From := "f1a", Nonce := 14 }, Signature := some {},
     State := MessageState.FillMsg },
   { ID := "f15", Message := { From := "f1a", Nonce := 15 }, Signature := some {},
     State := MessageState.FillMsg },
   { ID := "f16", Message := { From := "f1a", Nonce := 16 }, Signature := some {},
     State := MessageState.FillMsg }]

/-- Collaborators that always succeed: the actor nonce of every address is 15, the sender has
one filled message below and two at or above that nonce, three unfilled messages are listed,
the second of which has a negative gas limit, and the estimator rejects exactly the messages
with a negative gas limit. -/
def envDemo : Env :=
  { GetAccountsOfSigner := fun _ => Except.ok ["acc"]
    StateGetActor := fun _ _ => Except.ok 15
    UpdateNonce := fun _ _ => none
    ListFilledMessageByAddress := fun _ => Except.ok filledDemo
    ListUnChainMessageByAddress := fun _ _ => Except.ok [candDemo1, candDemo2, candDemo3]
    GasBatchEstimateMessageGas := fun ms _ _ =>
      Except.ok (ms.map fun m =>
        if m.Msg.GasLimit < 0 then { Err := "invalid gas limit" }
        else { Msg := some { m.Msg with GasLimit := 1000, GasFeeCap := some 7, GasPremium := some 3 } })
    ToStorageBlock := fun _ => Except.ok []
    WalletSign := fun _ _ _ _ => Except.ok {}
    Now := 1 }

/-- The address record of `f1a` with the stored nonce 10. -/
def addrDemo : Address := { Addr := "f1a", Nonce := 10 }

/-- The result of a run, or an empty result when the run failed. -/
def Run.resultD (r : Run) : MsgSelectResult :=
  match r.result with
  | Except.ok res => res
  | Except.error _ => { Address := {} }

/-- Collaborators for an address at the top of the nonce range: the actor nonce is
`2^64 - 1` and one unfilled message is listed. -/
def envTop : Env :=
  { envDemo with
    StateGetActor := fun _ _ => Except.ok 18446744073709551615
    ListFilledMessageByAddress := fun _ => Except.ok []
    ListUnChainMessageByAddress := fun _ _ => Except.ok [candDemo1] }

/-- Whether a call is a write of the nonce to the address repository. -/
def Call.isUpdateNonce : Call → Bool
  | Call.UpdateNonce _ _ => true
  | _ => false

/-- Two loop states that agree on `addrInfo.Nonce`, `count` and `selectMsg`. -/
def SignState.sameSelection (st st2 : SignState) : Prop :=
  st.Nonce = st2.Nonce ∧ st.count = st2.count ∧ st.selectMsg = st2.selectMsg

/-- The collaborators of `envDemo`, except that the wallet refuses to sign a message with
nonce 16, answering with the error `wallet is locked`. -/
def envWalletFail : Env :=
  { envDemo with
    WalletSign := fun _ _ c _ =>
      match c with
      | Cid.ofMessage m =>
        if m.Nonce = 16 then Except.error (GoError.plain "wallet is locked") else Except.ok {}
      | Cid.ofSigned _ _ => Except.ok {} }

/-- A successful estimation: gas limit 1000, fee cap 7, premium 3. -/
def estDemoOk : EstimateResult :=
  { Msg := some { From := "f1a", GasLimit := 1000, GasFeeCap := some 7, GasPremium := some 3 } }

/-- A failed estimation. -/
def estDemoErr : EstimateResult := { Err := "invalid gas limit" }

/-- The final state of a loop run, or the given state when the run panicked. -/
def signLoopD (r : Except Fault SignState) (d : SignState) : SignState :=
  match r with
  | Except.ok st => st
  | Except.error _ => d

/-! ## Gas policy: the merge in the words of the specification -/

/-- Two floats with the same value: the same bit pattern, or both a zero (Go compares `+0`
and `-0` as equal). -/
def Float64.sameValue (a b : Float64) : Prop :=
  a = b ∨ (a.isZero = true ∧ b.isZero = true)

/-- The effective base-fee cap: the value of the address if non-zero, otherwise the global
one. -/
def effectiveBaseFee (globalSpec : Option SharedSpec) (addrInfo : Address) : BigInt :=
  if !BigInt.NilOrZero addrInfo.BaseFee then addrInfo.BaseFee
  else
    match globalSpec with
    | some g => g.BaseFee
    | none => none

/-- The fee cap of a message handed to the estimator: its own if non-zero, otherwise that of
the address if non-zero, otherwise the global one if non-zero, otherwise its own nil or
zero. -/
def effectiveGasFeeCap (globalSpec : Option SharedSpec) (addrInfo : Address) (msg : Message) :
    BigInt :=
  if !BigInt.NilOrZero msg.Message.GasFeeCap then msg.Message.GasFeeCap
  else if !BigInt.NilOrZero addrInfo.GasFeeCap then addrInfo.GasFeeCap
  else
    match globalSpec with
    | some g => if !BigInt.NilOrZero g.GasFeeCap then g.GasFeeCap else msg.Message.GasFeeCap
    | none => msg.Message.GasFeeCap

/-- The first block of `mergeMsgSpec`, on `GasOverEstimation`. -/
def mergeMsgSpec.overEstimation (globalSpec : Option SharedSpec) (sendSpec : SendSpec)
    (addrInfo : Address) (m : GasSpec) : GasSpec :=
  if sendSpec.GasOverEstimation.isZero then
    if !addrInfo.GasOverEstimation.isZero then
      { m with GasOverEstimation := addrInfo.GasOverEstimation }
    else
      match globalSpec with
      | some g => { m with GasOverEstimation := g.GasOverEstimation }
      | none => m
  else m

/-- The second block of `mergeMsgSpec`, on `MaxFee`. -/
def mergeMsgSpec.maxFee (globalSpec : Option SharedSpec) (sendSpec : SendSpec)
    (addrInfo : Address) (m : GasSpec) : GasSpec :=
  if BigInt.NilOrZero sendSpec.MaxFee then
    if !BigInt.NilOrZero addrInfo.MaxFee then { m with MaxFee := addrInfo.MaxFee }
    else
      match globalSpec with
      | some g => { m with MaxFee := g.MaxFee }
      | none => m
  else m

/-- The third block of `mergeMsgSpec`, on `GasFeeCap`. -/
def mergeMsgSpec.gasFeeCap (globalSpec : Option SharedSpec) (addrInfo : Address) (msg : Message)
    (m : GasSpec) : GasSpec :=
  if BigInt.NilOrZero msg.Message.GasFeeCap then
    if !BigInt.NilOrZero addrInfo.GasFeeCap then { m with GasFeeCap := addrInfo.GasFeeCap }
    else
      match globalSpec with
      | some g => { m with GasFeeCap := g.GasFeeCap }
      | none => m
  else m

/-- The fourth block of `mergeMsgSpec`, on `GasOverPremium`. -/
def mergeMsgSpec.overPremium (globalSpec : Option SharedSpec) (sendSpec : SendSpec)
    (addrInfo : Address) (m : GasSpec) : Except Fault GasSpec :=
  if sendSpec.GasOverPremium.isZero then
    if !addrInfo.GasOverPremium.isZero then
      Except.ok { m with GasOverPremium := addrInfo.GasOverPremium }
    else
      match globalSpec with
      | none => Except.error (Fault.panic "nil pointer dereference")
      | some g =>
        if !g.GasOverPremium.isZero then Except.ok { m with GasOverPremium := g.GasOverPremium }
        else Except.ok m
  else Except.ok m

/-- The last block of `mergeMsgSpec`, on `BaseFee`. -/
def mergeMsgSpec.baseFee (globalSpec : Option SharedSpec) (addrInfo : Address) (m : GasSpec) :
    Except Fault GasSpec :=
  if !BigInt.NilOrZero addrInfo.BaseFee then Except.ok { m with BaseFee := addrInfo.BaseFee }
  else
    match globalSpec with
    | some g => Except.ok { m with BaseFee := g.BaseFee }
    | none => Except.ok m

/-- A message as `estimateMessage` hands it to the estimator: the message with the effective
fee cap. -/
def estimateMessage.prepared (globalSpec : Option SharedSpec) (addrInfo : Address)
    (msg : Message) : Message :=
  { msg with
    Message := { msg.Message with GasFeeCap := effectiveGasFeeCap globalSpec addrInfo msg } }

/-- Whether the candidates of an address are dropped at a tipset: the effective base-fee cap
is non-zero and the parent base fee of the tipset is strictly greater than it. -/
def dropsCandidate (globalSpec : Option SharedSpec) (addrInfo : Address) (ts : TipSet) : Bool :=
  match effectiveBaseFee globalSpec addrInfo with
  | none => false
  | some cap => cap != 0 && ts.ParentBaseFee > cap

/-- A tipset whose parent base fee is 101. -/
def tsDemo101 : TipSet := { ParentBaseFee := 101 }

/-- A tipset whose parent base fee is 100. -/
def tsDemo100 : TipSet := { ParentBaseFee := 100 }

/-- The address record of `f1a` with the stored nonce 10 and the base-fee cap 100. -/
def addrDemoCap : Address := { Addr := "f1a", Nonce := 10, BaseFee := some 100 }

/-- The limit of a call that lists the unfilled messages of an address. -/
def Call.listLimit : Call → Option Int
  | Call.ListUnChainMessageByAddress _ topN => some topN
  | _ => none

/-! ## The repository and the persist step -/

/-- The persisted state: the rows of the tables `messages` and `addresses`. -/
structure Store where
  messages : List Message := []
  addresses : List Address := []
deriving DecidableEq, Repr

/-- A write statement issued to the repository. -/
inductive Write where
  | UpdateMessage (msg : Message)
  | UpdateNonce (addr : AddrKey) (nonce : Nat)
  | UpdateErrMsg (id : String) (errMsg : String)
deriving DecidableEq, Repr

/-- Which write statements fail, and with which error. -/
abbrev WriteFaults := Write → Option GoError

/-- The effect of `mysqlMessageRepo.UpdateMessage` (`DB.Save`): the row with the identifier
of the message is replaced, or the message is inserted when there is none. -/
def Store.UpdateMessage (s : Store) (msg : Message) : Store :=
  if s.messages.any (fun r => r.ID == msg.ID) then
    { s with messages := s.messages.map (fun r => if r.ID = msg.ID then msg else r) }
  else { s with messages := s.messages ++ [msg] }

/-- The effect of `mysqlMessageRepo.UpdateErrMsg`: the column `error_msg` of the rows with
the identifier is set. -/
def Store.UpdateErrMsg (s : Store) (id : String) (errMsg : String) : Store :=
  { s with messages := s.messages.map (fun r => if r.ID = id then { r with ErrorMsg := errMsg } else r) }

/-- Modelled from the spec: the address repository is not among the sources; "update nonce"
sets the nonce of the row of the address. -/
def Store.UpdateNonce (s : Store) (addr : AddrKey) (nonce : Nat) : Store :=
  { s with addresses := s.addresses.map (fun a => if a.Addr = addr then { a with Nonce := nonce } else a) }

/-- The effect of a write statement. -/
def Store.apply (s : Store) : Write → Store
  | Write.UpdateMessage msg => s.UpdateMessage msg
  | Write.UpdateNonce addr nonce => s.UpdateNonce addr nonce
  | Write.UpdateErrMsg id errMsg => s.UpdateErrMsg id errMsg

/-- One write statement on a transactional handle: it fails and changes nothing, or it is
applied. -/
def TxRepo.exec (faults : WriteFaults) (s : Store) (wr : Write) : Option GoError × Store :=
  match faults wr with
  | some e => (some e, s)
  | none => (none, s.apply wr)

/-- The function `mysqlMessageRepo.BatchSaveMessage`: the messages are saved one by one, up
to the first failure. -/
def TxRepo.BatchSaveMessage (faults : WriteFaults) : Store → List Message → Option GoError × Store
  | s, [] => (none, s)
  | s, msg :: rest =>
    match TxRepo.exec faults s (Write.UpdateMessage msg) with
    | (some e, s') => (some e, s')
    | (none, s') => TxRepo.BatchSaveMessage faults s' rest

/-- Modelled from the spec: `Repo.Transaction` is not among the sources.  "`transaction(fn)`
runs `fn` against a transactional handle; on any failure inside `fn` all writes revert." -/
def Transaction (fn : Store → Option GoError × Store) (s : Store) : Option GoError × Store :=
  match fn s with
  | (none, s') => (none, s')
  | (some e, _) => (some e, s)

/-- The loop of `saveSelectedMessages` over `ErrMsg`. -/
def saveSelectedMessages.errLoop (faults : WriteFaults) : Store → List msgErrInfo →
    Option GoError × Store
  | s, [] => (none, s)
  | s, m :: rest =>
    match TxRepo.exec faults s (Write.UpdateErrMsg m.id m.err) with
    | (some e, s') => (some e, s')
    | (none, s') => saveSelectedMessages.errLoop faults s' rest

/-- The function passed to `Transaction` by `saveSelectedMessages`. -/
def saveSelectedMessages.body (faults : WriteFaults) (selectResult : MsgSelectResult)
    (txRepo : Store) : Option GoError × Store :=
  if selectResult.SelectMsg.length > 0 then
    match TxRepo.BatchSaveMessage faults txRepo selectResult.SelectMsg with
    | (some e, s) => (some e, s)
    | (none, s) =>
      match TxRepo.exec faults s
          (Write.UpdateNonce selectResult.Address.Addr selectResult.Address.Nonce) with
      | (some e, s') => (some e, s')
      | (none, s') => saveSelectedMessages.errLoop faults s' selectResult.ErrMsg
  else saveSelectedMessages.errLoop faults txRepo selectResult.ErrMsg

/-- The function `work.saveSelectedMessages`: the returned error, if any, and the store
afterwards. -/
def work.saveSelectedMessages (faults : WriteFaults) (store : Store)
    (selectResult : MsgSelectResult) : Option GoError × Store :=
  Transaction (saveSelectedMessages.body faults selectResult) store

/-- The write statements of a persist step in the words of the specification: when there are
newly filled messages, these and then the nonce of the address; then the error strings. -/
def writesOf (selectResult : MsgSelectResult) : List Write :=
  (if selectResult.SelectMsg = [] then []
   else selectResult.SelectMsg.map Write.UpdateMessage ++
     [Write.UpdateNonce selectResult.Address.Addr selectResult.Address.Nonce]) ++
  selectResult.ErrMsg.map (fun m => Write.UpdateErrMsg m.id m.err)

/-- A sequence of write statements executed up to the first failure. -/
def runWrites (faults : WriteFaults) : Store → List Write → Option GoError × Store
  | s, [] => (none, s)
  | s, wr :: rest =>
    match TxRepo.exec faults s wr with
    | (some e, s') => (some e, s')
    | (none, s') => runWrites faults s' rest

/-- The row of `f1a` and the three unfilled messages of `envDemo`, as persisted. -/
def storeDemo : Store :=
  { messages := [candDemo1, candDemo2, candDemo3], addresses := [addrDemo] }

/-- No write statement fails. -/
def noFaults : WriteFaults := fun _ => none

/-- The write of an error string for `m2` fails. -/
def faultsDemo : WriteFaults := fun wr =>
  match wr with
  | Write.UpdateErrMsg "m2" _ => some (GoError.plain "deadlock")
  | _ => none

/-! ## Dispatch of a selection tick to a worker -/

/-- The channel `publisher.MessageReceiver`: the batches it holds and its capacity.  A send
in a `select` with `default` succeeds exactly when there is room. -/
structure MessageReceiver where
  buf : List (List SignedMessage) := []
  cap : Nat := 0
deriving DecidableEq, Repr

/-- The function `work.finish`: one item is received from `controlChan`. -/
def work.finish (w : work) : work := { w with controlChan := w.controlChan - 1 }

/-- The function `work.close`: the context is cancelled and `controlChan` is closed. -/
def work.close (w : work) : work := { w with ctxDone := true, controlClosed := true }

/-- The function `newWork`; `ptr` identifies the allocation. -/
def newWork (ptr : Nat) (addr : AddrKey) : work := { addr := addr, ptr := ptr }

/-- The loop of `startSelectMessage` that turns the selected messages into signed messages;
`none` is the nil dereference of `*msg.Signature`. -/
def startSelectMessage.signed : List Message → Option (List SignedMessage)
  | [] => some []
  | msg :: rest =>
    match msg.Signature with
    | none => none
    | some sig =>
      (startSelectMessage.signed rest).map
        (fun l => { Message := msg.Message, Signature := sig } :: l)

/-- What one call of `startSelectMessage` leaves behind: the worker, the store and the
publisher channel afterwards, the calls made to the collaborators, whether the pipeline was
started, the batch offered to the publisher channel if any, whether that batch was dropped,
and the panic if there was one. -/
structure Dispatch where
  w : work
  store : Store
  msgReceiver : MessageReceiver
  calls : List Call := []
  started : Bool := false
  offered : Option (List SignedMessage) := none
  dropped : Bool := false
  fault : Option Fault := none
deriving DecidableEq, Repr

/-- The function `work.selectMessage` on a possibly nil address snapshot: a nil snapshot is
dereferenced at once. -/
def work.selectMessageOf (env : Env) (w : work) (appliedNonce : NonceMap)
    (addrInfo : Option Address) (ts : TipSet) (maxAllowPendingMessage : Nat)
    (sharedParams : Option SharedSpec) : Run :=
  match addrInfo with
  | none => { calls := [], result := Except.error (Fault.panic "nil pointer dereference") }
  | some a => work.selectMessage env w appliedNonce a ts maxAllowPendingMessage sharedParams

/-- The part of `startSelectMessage` after the persist step: the batch is built and, when it
is not empty, offered to the publisher channel without blocking; `w1` holds the item in
`controlChan`, and the deferred `finish` takes it out. -/
def startSelectMessage.emit (msgReceiver : MessageReceiver) (w1 : work) (store1 : Store)
    (calls : List Call) (selectResult : MsgSelectResult) : Dispatch :=
  match startSelectMessage.signed selectResult.SelectMsg with
  | none =>
    { w := w1.finish, store := store1, msgReceiver := msgReceiver, calls := calls
      started := true, fault := some (Fault.panic "nil pointer dereference") }
  | some signed =>
    let toPushMsg := selectResult.ToPushMsg ++ signed
    if toPushMsg.length > 0 then
      if msgReceiver.buf.length < msgReceiver.cap then
        { w := w1.finish, store := store1
          msgReceiver := { msgReceiver with buf := msgReceiver.buf ++ [toPushMsg] }
          calls := calls, started := true, offered := some toPushMsg }
      else
        { w := w1.finish, store := store1, msgReceiver := msgReceiver, calls := calls
          started := true, offered := some toPushMsg, dropped := true }
    else
      { w := w1.finish, store := store1, msgReceiver := msgReceiver, calls := calls
        started := true }

/-- The part of `startSelectMessage` after the send on `controlChan`: selection, persist
step and emission, each error path returning through the deferred `finish`. -/
def startSelectMessage.pipeline (env : Env) (faults : WriteFaults) (store : Store)
    (msgReceiver : MessageReceiver) (w1 : work) (appliedNonce : NonceMap)
    (addrInfo : Option Address) (ts : TipSet) (maxAllowPendingMessage : Nat)
    (sharedParams : Option SharedSpec) : Dispatch :=
  let run := work.selectMessageOf env w1 appliedNonce addrInfo ts maxAllowPendingMessage
    sharedParams
  match run.result with
  | Except.error (Fault.error _) =>
    { w := w1.finish, store := store, msgReceiver := msgReceiver, calls := run.calls
      started := true }
  | Except.error (Fault.panic what) =>
    { w := w1.finish, store := store, msgReceiver := msgReceiver, calls := run.calls
      started := true, fault := some (Fault.panic what) }
  | Except.ok selectResult =>
    match work.saveSelectedMessages faults store selectResult with
    | (some _, store1) =>
      { w := w1.finish, store := store1, msgReceiver := msgReceiver, calls := run.calls
        started := true }
    | (none, store1) => startSelectMessage.emit msgReceiver w1 store1 run.calls selectResult

/-- The function `work.startSelectMessage`: nothing is done for a cancelled worker or when
`controlChan` already holds an item; otherwise the item is put in and the pipeline runs. -/
def work.startSelectMessage (env : Env) (faults : WriteFaults) (store : Store)
    (msgReceiver : MessageReceiver) (w : work) (appliedNonce : NonceMap)
    (addrInfo : Option Address) (ts : TipSet) (maxAllowPendingMessage : Nat)
    (sharedParams : Option SharedSpec) : Dispatch :=
  if w.ctxDone then { w := w, store := store, msgReceiver := msgReceiver }
  else if w.controlClosed then
    { w := w, store := store, msgReceiver := msgReceiver
      fault := some (Fault.panic "send on closed channel") }
  else if w.controlChan ≥ 1 then { w := w, store := store, msgReceiver := msgReceiver }
  else
    startSelectMessage.pipeline env faults store msgReceiver
      { w with controlChan := w.controlChan + 1 } appliedNonce addrInfo ts
      maxAllowPendingMessage sharedParams

/-- The dispatches to one worker that are under way, counted by the point they have
reached: before the test of `ctx`, between that test and the send on `controlChan`, and in
the pipeline (between that send and `finish`); and whether a send hit the closed channel. -/
structure WorkerSys where
  w : work
  checking : Nat := 0
  acquiring : Nat := 0
  running : Nat := 0
  crashed : Bool := false
deriving DecidableEq, Repr

/-- The atomic steps of the goroutines that share one worker: a new dispatch
(`go w.startSelectMessage`), the test of `ctx` by one dispatch, its send on `controlChan`,
the deferred `finish` of a running pipeline, the removal attempt of `tryUpdateWorks`
(send on `controlChan`, then `close`), and the cancellation of the context of the manager,
from which the context of the worker is derived. -/
inductive WorkerEvent where
  | dispatch
  | checkCtx
  | acquire
  | finish
  | close
  | cancel
deriving DecidableEq, Repr

/-- One atomic step; an event that is not enabled leaves the state as it is. -/
def WorkerSys.step (s : WorkerSys) : WorkerEvent → WorkerSys
  | WorkerEvent.dispatch => { s with checking := s.checking + 1 }
  | WorkerEvent.checkCtx =>
    if s.checking = 0 then s
    else if s.w.ctxDone then { s with checking := s.checking - 1 }
    else { s with checking := s.checking - 1, acquiring := s.acquiring + 1 }
  | WorkerEvent.acquire =>
    if s.acquiring = 0 then s
    else if s.w.controlClosed then { s with acquiring := s.acquiring - 1, crashed := true }
    else if s.w.controlChan ≥ 1 then { s with acquiring := s.acquiring - 1 }
    else
      { s with
        acquiring := s.acquiring - 1
        running := s.running + 1
        w := { s.w with controlChan := s.w.controlChan + 1 } }
  | WorkerEvent.finish =>
    if s.running = 0 then s
    else { s with running := s.running - 1, w := s.w.finish }
  | WorkerEvent.close =>
    if s.w.controlClosed then s
    else if s.w.controlChan ≥ 1 then s
    else { s with w := work.close { s.w with controlChan := s.w.controlChan + 1 } }
  | WorkerEvent.cancel => { s with w := { s.w with ctxDone := true } }

/-- The state reached from a freshly created worker by a sequence of atomic steps. -/
def WorkerSys.run (ptr : Nat) (addr : AddrKey) (events : List WorkerEvent) : WorkerSys :=
  events.foldl WorkerSys.step { w := newWork ptr addr }

/-- The steps preserve: `controlChan` holds at most one item, and the pipelines in flight are
as many as the items it holds while it is open, and none once it is closed. -/
def WorkerSys.inv (s : WorkerSys) : Prop :=
  s.w.controlChan ≤ 1 ∧ (s.w.controlClosed = false → s.running = s.w.controlChan) ∧
    (s.w.controlClosed = true → s.running = 0 ∧ s.w.ctxDone = true)

/-- A publisher channel with room for one batch. -/
def recvDemo : MessageReceiver := { cap := 1 }

/-- A publisher channel that is full. -/
def recvFull : MessageReceiver := { buf := [[]], cap := 1 }

/-! ## The worker map -/

/-- A Go map with address keys, as the list of its entries in the order a `range` visits
them; a key occurs at most once. -/
abbrev GoMap (V : Type) := List (AddrKey × V)

/-- The lookup `m[k]`. -/
def GoMap.get {V : Type} (m : GoMap V) (k : AddrKey) : Option V := List.lookup k m

/-- The statement `delete(m, k)`. -/
def GoMap.delete {V : Type} (m : GoMap V) (k : AddrKey) : GoMap V :=
  List.filter (fun kv => kv.1 != k) m

/-- The assignment `m[k] = v`. -/
def GoMap.set {V : Type} (m : GoMap V) (k : AddrKey) (v : V) : GoMap V :=
  GoMap.delete m k ++ [(k, v)]

/-- The keys of a map. -/
def GoMap.keys {V : Type} (m : GoMap V) : List AddrKey := List.map Prod.fst m

/-- The function `addressMap`. -/
def addressMap (addrList : List Address) : GoMap Address :=
  addrList.foldl (fun addrs addr => GoMap.set addrs addr.Addr addr) []

/-- The fields of `MsgSelectMgr` that `tryUpdateWorks` uses: the worker map, and the number
of workers allocated so far, which identifies the next allocation. -/
structure MsgSelectMgr where
  works : GoMap work := []
  nextPtr : Nat := 0
deriving DecidableEq, Repr

/-- The first loop of `tryUpdateWorks`, over the values of `addrInfos`: a worker that exists
is moved from `works` to `ws`, a missing one is created. -/
def tryUpdateWorks.addLoop : List Address → MsgSelectMgr → GoMap work → MsgSelectMgr × GoMap work
  | [], m, ws => (m, ws)
  | addrInfo :: rest, m, ws =>
    match GoMap.get m.works addrInfo.Addr with
    | none =>
      tryUpdateWorks.addLoop rest { m with nextPtr := m.nextPtr + 1 }
        (GoMap.set ws addrInfo.Addr (newWork m.nextPtr addrInfo.Addr))
    | some w =>
      tryUpdateWorks.addLoop rest { m with works := GoMap.delete m.works addrInfo.Addr }
        (GoMap.set ws addrInfo.Addr w)

/-- The state of a worker after `tryUpdateWorks` has put an item into `controlChan` and
called `close`. -/
def work.removed (w : work) : work := work.close { w with controlChan := w.controlChan + 1 }

/-- The second loop of `tryUpdateWorks`, over the entries left in `works`: the send on
`controlChan` succeeds when the channel of capacity one is empty, and the worker is then
closed and deleted; otherwise the worker is put into `ws`.  `closed` collects the workers
that were closed. -/
def tryUpdateWorks.removeLoop : List (AddrKey × work) → GoMap work → GoMap work → List work →
    Except Fault (GoMap work × GoMap work × List work)
  | [], works, ws, closed => Except.ok (works, ws, closed)
  | (addr, w) :: rest, works, ws, closed =>
    match GoMap.get ws addr with
    | some _ => tryUpdateWorks.removeLoop rest works ws closed
    | none =>
      if w.controlClosed then Except.error (Fault.panic "send on closed channel")
      else if w.controlChan < 1 then
        tryUpdateWorks.removeLoop rest (GoMap.delete works addr) ws (closed ++ [w.removed])
      else tryUpdateWorks.removeLoop rest works (GoMap.set ws addr w) closed

/-- The function `MsgSelectMgr.tryUpdateWorks`; the result is the manager with the new worker
map, and the workers that were closed. -/
def MsgSelectMgr.tryUpdateWorks (msgSelectMgr : MsgSelectMgr) (addrInfos : GoMap Address) :
    Except Fault (MsgSelectMgr × List work) :=
  match tryUpdateWorks.addLoop (addrInfos.map Prod.snd) msgSelectMgr [] with
  | (m1, ws) =>
    match tryUpdateWorks.removeLoop m1.works m1.works ws [] with
    | Except.error f => Except.error f
    | Except.ok (_, ws1, closed) => Except.ok ({ m1 with works := ws1 }, closed)

/-- The worker map is well formed: a key occurs once, and no worker in it is closed. -/
def MsgSelectMgr.wf (m : MsgSelectMgr) : Prop :=
  (GoMap.keys m.works).Nodup ∧ ∀ kw ∈ m.works, kw.2.controlClosed = false

/-- A manager with an idle worker for `f1a`, a busy worker for `f1b` and an idle worker for
`f1c`. -/
def mgrDemo : MsgSelectMgr :=
  { works := [("f1a", { addr := "f1a", ptr := 0 }),
              ("f1b", { addr := "f1b", ptr := 1, controlChan := 1 }),
              ("f1c", { addr := "f1c", ptr := 2 })]
    nextPtr := 3 }

/-- The active addresses `f1a` and `f1d`. -/
def activeDemo : List Address := [{ Addr := "f1a" }, { Addr := "f1d" }]

/-! ## The address service -/

/-- The type `AddressInfo`: the cached entry of an address; the wallet client is identified
by a number. -/
structure AddressInfo where
  State : AddressState := AddressState.Alive
  WalletId : Nat := 0
  SelectMsgNum : Int := 0
  WalletClient : Nat := 0
deriving DecidableEq, Repr

/-- The answers of the collaborators of the address service during one operation: the
addresses a wallet client lists, the actor nonce on chain, which repository statements fail,
and the clock. -/
structure AddrEnv where
  WalletList : Nat → Except GoError (List AddrKey)
  StateGetActor : AddrKey → Except GoError Nat
  UpdateAddressState : AddrKey → AddressState → Option GoError
  UpdateUnFilledMessageStateByAddress : AddrKey → MessageState → Option GoError
  ListFilledMessageByAddress : AddrKey → Option GoError
  GetAddress : AddrKey → Option GoError
  DelAddress : AddrKey → Option GoError
  HasAddress : AddrKey → Option GoError
  SaveAddress : Address → Option GoError
  UpdateAddress : Address → Option GoError
  Now : Nat

/-- The state of `AddressService`: the repository, the cache `addrInfo`, and the addresses
sent to the channel `amendAddr` and not yet taken out, those whose sending goroutine still
waits included. -/
structure AddressService where
  repo : Store := {}
  addrInfo : GoMap AddressInfo := []
  amendAddr : List AddrKey := []
deriving DecidableEq, Repr

/-- Modelled from the spec: the address repository is not among the sources; an address
is "transitioned to" a state by setting the column `state` of its row. -/
def Store.UpdateAddressState (s : Store) (addr : AddrKey) (state : AddressState) : Store :=
  { s with
    addresses := s.addresses.map (fun a => if a.Addr = addr then { a with State := state } else a) }

/-- Modelled from the spec: `UpdateUnFilledMessageStateByAddress` is not among the sources;
"all their `UnFill` messages are flipped to `NoWalletMsg`". -/
def Store.UpdateUnFilledMessageStateByAddress (s : Store) (addr : AddrKey)
    (state : MessageState) : Store :=
  { s with
    messages := s.messages.map (fun m =>
      if m.Message.From = addr ∧ m.State = MessageState.UnFillMsg then { m with State := state }
      else m) }

/-- The rows `mysqlMessageRepo.ListFilledMessageByAddress` finds: those of the sender in the
state `FillMsg`. -/
def Store.ListFilledMessageByAddress (s : Store) (addr : AddrKey) : List Message :=
  s.messages.filter (fun m => m.Message.From == addr && m.State == MessageState.FillMsg)

/-- Modelled from the spec: the address repository is not among the sources; the row of
the address, "not found" when there is none. -/
def Store.GetAddress (s : Store) (addr : AddrKey) : Option Address :=
  s.addresses.find? (fun a => a.Addr == addr)

/-- Modelled from the spec: the address repository is not among the sources; "the address
row is hard-deleted". -/
def Store.DelAddress (s : Store) (addr : AddrKey) : Store :=
  { s with addresses := s.addresses.filter (fun a => a.Addr != addr) }

/-- Modelled from the spec: the address repository is not among the sources; whether the
address has a row. -/
def Store.HasAddress (s : Store) (addr : AddrKey) : Bool :=
  s.addresses.any (fun a => a.Addr == addr)

/-- Modelled from the spec: the address repository is not among the sources; "insert the
row". -/
def Store.SaveAddress (s : Store) (a : Address) : Store :=
  { s with addresses := s.addresses ++ [a] }

/-- Modelled from the spec: the address repository is not among the sources; "update the
row" of the address with the nonce, the wallet, the state and the time of the record. -/
def Store.UpdateAddress (s : Store) (ta : Address) : Store :=
  { s with
    addresses := s.addresses.map (fun a =>
      if a.Addr = ta.Addr then
        { a with Nonce := ta.Nonce, WalletID := ta.WalletID, State := ta.State
                 UpdatedAt := ta.UpdatedAt }
      else a) }

/-- The function `AddressService.SetAddressInfo`. -/
def AddressService.SetAddressInfo (svc : AddressService) (addr : AddrKey) (info : AddressInfo) :
    AddressService :=
  { svc with addrInfo := GoMap.set svc.addrInfo addr info }

/-- The function `AddressService.GetAddressInfo`. -/
def AddressService.GetAddressInfo (svc : AddressService) (addr : AddrKey) : Option AddressInfo :=
  GoMap.get svc.addrInfo addr

/-- The function `AddressService.setAddressState`: the state of a cached entry is set; an
address that is not cached gets no entry. -/
def AddressService.setAddressState (svc : AddressService) (addr : AddrKey)
    (state : AddressState) : AddressService :=
  match GoMap.get svc.addrInfo addr with
  | some info => { svc with addrInfo := GoMap.set svc.addrInfo addr { info with State := state } }
  | none => svc

/-- The function `AddressService.RemoveAddressInfo`. -/
def AddressService.RemoveAddressInfo (svc : AddressService) (addr : AddrKey) : AddressService :=
  { svc with addrInfo := GoMap.delete svc.addrInfo addr }

/-- The function `AddressService.ListOneWalletAddress`: the keys of the cached entries of
the wallet. -/
def AddressService.ListOneWalletAddress (svc : AddressService) (walletId : Nat) : List AddrKey :=
  (svc.addrInfo.filter (fun kv => kv.2.WalletId == walletId)).map Prod.fst

/-- The function `AddressService.DeleteAddress`: the returned error if any, and the service
afterwards.  A repository statement that fails changes nothing. -/
def AddressService.DeleteAddress (env : AddrEnv) (svc : AddressService) (addr : AddrKey) :
    Option GoError × AddressService :=
  match env.UpdateAddressState addr AddressState.Notfound with
  | some err => (some err, svc)
  | none =>
    let svc1 : AddressService :=
      { svc with repo := svc.repo.UpdateAddressState addr AddressState.Notfound }
    let svc2 := svc1.setAddressState addr AddressState.Notfound
    match env.UpdateUnFilledMessageStateByAddress addr MessageState.NoWalletMsg with
    | some err => (some err, svc2)
    | none =>
      (none,
        { svc2 with
          repo := svc2.repo.UpdateUnFilledMessageStateByAddress addr MessageState.NoWalletMsg
          amendAddr := svc2.amendAddr ++ [addr] })

/-- What one wallet sync tick leaves behind: the service, the addresses handed to
`DeleteAddress` in the order of the calls, and the returned error if any. -/
structure SyncRun where
  svc : AddressService
  deleted : List AddrKey := []
  err : Option GoError := none
deriving DecidableEq, Repr

/-- One round of the first loop of `ProcessWallet`, after the address was deleted from
`walletAddrs`: an address cached as `Alive` is left alone; otherwise its row is inserted or
updated with the state `Alive` and the actor nonce (zero when the node fails), and the cache
entry is replaced; a failing repository statement ends the round. -/
def ProcessWallet.syncOne (env : AddrEnv) (walletID cli : Nat) (svc : AddressService)
    (addr : AddrKey) : AddressService :=
  if (match svc.GetAddressInfo addr with
      | some addrInfo => addrInfo.State == AddressState.Alive
      | none => false) then svc
  else
    let nonce : Nat :=
      match env.StateGetActor addr with
      | Except.error _ => 0
      | Except.ok n => n
    match env.HasAddress addr with
    | some _ => svc
    | none =>
      let ta : Address :=
        { Addr := addr, Nonce := nonce, WalletID := walletID, UpdatedAt := env.Now
          State := AddressState.Alive }
      if ¬ svc.repo.HasAddress addr then
        match env.SaveAddress ta with
        | some _ => svc
        | none =>
          AddressService.SetAddressInfo { svc with repo := svc.repo.SaveAddress ta } addr
            { State := ta.State, WalletId := ta.WalletID, WalletClient := cli }
      else
        match env.UpdateAddress ta with
        | some _ => svc
        | none =>
          AddressService.SetAddressInfo { svc with repo := svc.repo.UpdateAddress ta } addr
            { State := ta.State, WalletId := ta.WalletID, WalletClient := cli }

/-- The first loop of `ProcessWallet`: the service and `walletAddrs` after it. -/
def ProcessWallet.syncLoop (env : AddrEnv) (walletID cli : Nat) :
    List AddrKey → AddressService → List AddrKey → AddressService × List AddrKey
  | [], svc, walletAddrs => (svc, walletAddrs)
  | addr :: rest, svc, walletAddrs =>
    ProcessWallet.syncLoop env walletID cli rest (ProcessWallet.syncOne env walletID cli svc addr)
      (walletAddrs.filter (fun a => a != addr))

/-- The second loop of `ProcessWallet`, over `walletAddrs`: an address that is cached and
not `Notfound` is handed to `DeleteAddress`, whose error is logged. -/
def ProcessWallet.deleteLoop (env : AddrEnv) : List AddrKey → SyncRun → SyncRun
  | [], run => run
  | addr :: rest, run =>
    match run.svc.GetAddressInfo addr with
    | none => ProcessWallet.deleteLoop env rest run
    | some addrInfo =>
      if addrInfo.State = AddressState.Notfound then ProcessWallet.deleteLoop env rest run
      else
        ProcessWallet.deleteLoop env rest
          { run with
            svc := (AddressService.DeleteAddress env run.svc addr).2
            deleted := run.deleted ++ [addr] }

/-- The function `AddressService.ProcessWallet`. -/
def AddressService.ProcessWallet (env : AddrEnv) (svc : AddressService) (walletID cli : Nat) :
    SyncRun :=
  match env.WalletList cli with
  | Except.error err =>
    { svc := svc, err := some (GoError.plain ("get wallet list failed error: " ++ err.Error)) }
  | Except.ok addrs =>
    match ProcessWallet.syncLoop env walletID cli addrs svc (svc.ListOneWalletAddress walletID) with
    | (svc1, walletAddrs) => ProcessWallet.deleteLoop env walletAddrs { svc := svc1 }

/-- What one round of the amendment loop leaves behind: the service, the flag `isDeleted`,
and whether the round started the goroutine that sleeps 60 seconds and then sends the loop
variable `addr` to `amendAddr` (`if !isDeleted { go func() { ... }() }`). -/
structure AmendRun where
  svc : AddressService
  isDeleted : Bool := false
  resend : Bool := false
deriving DecidableEq, Repr

/-- The body of the amendment loop of `checkAddressState` for an address taken out of
`amendAddr`, up to the start of the delayed sender. -/
def checkAddressState.amend (env : AddrEnv) (svc : AddressService) (addr : AddrKey) : AmendRun :=
  let step : AddressService × Bool :=
    match env.ListFilledMessageByAddress addr with
    | some _ => (svc, false)
    | none =>
      if (svc.repo.ListFilledMessageByAddress addr).length = 0 then
        if (match env.GetAddress addr, svc.repo.GetAddress addr with
            | none, some addrInfo => addrInfo.State == AddressState.Alive
            | _, _ => false) then (svc, true)
        else
          match env.DelAddress addr with
          | some _ => (svc, false)
          | none =>
            (AddressService.RemoveAddressInfo { svc with repo := svc.repo.DelAddress addr } addr,
              true)
      else (svc, false)
  { svc := step.1, isDeleted := step.2, resend := !step.2 }

/-- The amendment goroutine of `checkAddressState`: the service with the channel
`amendAddr`; the loop variable `addr` of `for addr := range addressService.amendAddr`, one
variable for all rounds (the range loop of Go before version 1.22), which the closure of the
delayed sender captures and reads when it wakes (`address.Undef` before the first round);
and the number of delayed senders that still sleep. -/
structure AmendLoop where
  svc : AddressService
  addr : AddrKey := ""
  sleeping : Nat := 0
deriving DecidableEq, Repr

/-- What happens next in the amendment goroutine and its delayed senders: the loop receives
the next address and runs the body on it, or a delayed sender wakes after its 60 seconds. -/
inductive AmendEvent where
  | receive
  | wake
deriving DecidableEq, Repr

/-- One event of the amendment goroutine. `receive`: the loop takes the next address out of
`amendAddr` into the loop variable and runs the body (nothing happens while the channel is
empty); `wake`: a delayed sender runs `addressService.amendAddr <- addr`, which sends what
the loop variable holds at that moment. -/
def checkAddressState.step (env : AddrEnv) (l : AmendLoop) : AmendEvent → AmendLoop
  | AmendEvent.receive =>
    match l.svc.amendAddr with
    | [] => l
    | addr :: rest =>
      let r := checkAddressState.amend env { l.svc with amendAddr := rest } addr
      { svc := r.svc, addr := addr, sleeping := if r.resend then l.sleeping + 1 else l.sleeping }
  | AmendEvent.wake =>
    if l.sleeping = 0 then l
    else
      { l with
        svc := { l.svc with amendAddr := l.svc.amendAddr ++ [l.addr] }
        sleeping := l.sleeping - 1 }

/-- A sequence of events of the amendment goroutine. -/
def checkAddressState.run (env : AddrEnv) (l : AmendLoop) (events : List AmendEvent) :
    AmendLoop :=
  events.foldl (checkAddressState.step env) l

/-- No repository statement fails; the wallet client lists `f1a`; the actor nonce is 7. -/
def addrEnvDemo : AddrEnv :=
  { WalletList := fun _ => Except.ok ["f1a"]
    StateGetActor := fun _ => Except.ok 7
    UpdateAddressState := fun _ _ => none
    UpdateUnFilledMessageStateByAddress := fun _ _ => none
    ListFilledMessageByAddress := fun _ => none
    GetAddress := fun _ => none
    DelAddress := fun _ => none
    HasAddress := fun _ => none
    SaveAddress := fun _ => none
    UpdateAddress := fun _ => none
    Now := 1 }

/-- A service that caches `f1a`, `f1b` and `f1c` for the wallet 1, `f1c` being `Notfound`
already; `f1b` has an unfilled and a filled message. -/
def svcDemo : AddressService :=
  { repo :=
      { messages :=
          [{ ID := "u1", Message := { From := "f1b" } },
           { ID := "s1", Message := { From := "f1b", Nonce := 3 }, State := MessageState.FillMsg },
           { ID := "u2", Message := { From := "f1a" } }]
        addresses :=
          [{ Addr := "f1a", WalletID := 1 }, { Addr := "f1b", WalletID := 1 },
           { Addr := "f1c", WalletID := 1, State := AddressState.Notfound }] }
    addrInfo :=
      [("f1a", { WalletId := 1 }), ("f1b", { WalletId := 1 }),
       ("f1c", { WalletId := 1, State := AddressState.Notfound })] }

/-- A service that caches `f1a`, `f1b` and `f1d` for the wallet 1, all `Alive`; `f1b` and
`f1d` have a filled message each. -/
def svcTwoDemo : AddressService :=
  { repo :=
      { messages :=
          [{ ID := "s1", Message := { From := "f1b", Nonce := 3 }, State := MessageState.FillMsg },
           { ID := "s2", Message := { From := "f1d", Nonce := 5 }, State := MessageState.FillMsg }]
        addresses :=
          [{ Addr := "f1a", WalletID := 1 }, { Addr := "f1b", WalletID := 1 },
           { Addr := "f1d", WalletID := 1 }] }
    addrInfo :=
      [("f1a", { WalletId := 1 }), ("f1b", { WalletId := 1 }), ("f1d", { WalletId := 1 })] }

/-- The messages of the service are on chain: none is listed as filled any more. -/
def AddressService.allOnChain (svc : AddressService) : AddressService :=
  { svc with
    repo := { svc.repo with
      messages := svc.repo.messages.map (fun m => { m with State := MessageState.OnChainMsg }) } }

/-- The amendment goroutine after the sync tick of `svcTwoDemo`, whose wallet lists `f1a`
only. -/
def amendDemo : AmendLoop :=
  { svc := (svcTwoDemo.ProcessWallet addrEnvDemo 1 0).svc }

/-- The goroutine of `amendDemo` after a round for each of the two addresses. -/
def amendDemoRounds : AmendLoop :=
  checkAddressState.run addrEnvDemo amendDemo [AmendEvent.receive, AmendEvent.receive]

/-- The goroutine of `amendDemoRounds` after both delayed senders woke. -/
def amendDemoWoken : AmendLoop :=
  checkAddressState.run addrEnvDemo amendDemoRounds [AmendEvent.wake, AmendEvent.wake]

/-- The goroutine of `amendDemoWoken` after the messages went on chain and two more rounds
were run. -/
def amendDemoLater : AmendLoop :=
  checkAddressState.run addrEnvDemo { amendDemoWoken with svc := amendDemoWoken.svc.allOnChain }
    [AmendEvent.receive, AmendEvent.receive]

/-- The address `a` is in `s` as it was in `s0`: its cache entry and its messages. -/
def AddressService.sameFor (s0 s : AddressService) (a : AddrKey) : Prop :=
  s.GetAddressInfo a = s0.GetAddressInfo a ∧
  ∀ (i : Nat) (m : Message), s0.repo.messages[i]? = some m → m.Message.From = a →
    s.repo.messages[i]? = some m

/-- The address `a` of `s0` is removed in `s`: its rows and its cache entry have the state
`Notfound`, its messages that were `UnFillMsg` are `NoWalletMsg` and its other messages are
as they were, and it is in `amendAddr`. -/
def AddressService.removedFor (s0 s : AddressService) (a : AddrKey) : Prop :=
  (∀ row ∈ s.repo.addresses, row.Addr = a → row.State = AddressState.Notfound) ∧
  (∃ info, s0.GetAddressInfo a = some info ∧
    s.GetAddressInfo a = some { info with State := AddressState.Notfound }) ∧
  (∀ (i : Nat) (m : Message), s0.repo.messages[i]? = some m → m.Message.From = a →
    s.repo.messages[i]? = some
      { m with
        State := if m.State = MessageState.UnFillMsg then MessageState.NoWalletMsg
                 else m.State }) ∧
  a ∈ s.amendAddr

/-! ## Start-up and fee cap -/

/-- The constant `time.Second`: a `time.Duration` counts nanoseconds. -/
def Second : Int := 1000000000

/-- The Go conversion `uint64(x)` of a signed 64-bit value. -/
def toUint64 (x : Int) : Nat := (x % 18446744073709551616).toNat

/-- The Go conversion `int64(x)`, and the reduction of a signed 64-bit result. -/
def toInt64 (x : Int) : Int :=
  (x + 9223372036854775808) % 18446744073709551616 - 9223372036854775808

/-- The adjustment of `cfg.MessageService.WaitingChainHeadStableDuration` in `runAction`:
the value of the field afterwards, from the block delay of the network in seconds and the
configured value, a `time.Duration`; an error of `ReplaceConfig` ends the start-up. -/
def runAction.WaitingChainHeadStableDuration (replaceConfig : Option GoError)
    (blockDelaySecs : Nat) (waitingChainHeadStableDuration : Int) : Except GoError Int :=
  if blockDelaySecs ≤ toUint64 waitingChainHeadStableDuration then
    match replaceConfig with
    | some err => Except.error err
    | none => Except.ok (toInt64 (toInt64 (blockDelaySecs / 2 : Nat) * Second))
  else Except.ok waitingChainHeadStableDuration

/-- The function `CapGasFee`; the result is the message afterwards.  The big-integer
operations dereference their operands, and `big.Div` is the Euclidean division. -/
def CapGasFee (msg : ChainMessage) (maxFee : BigInt) : Except Fault ChainMessage :=
  if BigInt.NilOrZero maxFee then Except.ok msg
  else
    let gl : Int := toUint64 msg.GasLimit
    match msg.GasFeeCap, maxFee with
    | some feeCap, some fee =>
      let totalFee := feeCap * gl
      if totalFee ≤ fee then Except.ok msg
      else if gl = 0 then Except.error (Fault.panic "division by zero")
      else
        match msg.GasPremium with
        | none => Except.error (Fault.panic "nil pointer dereference")
        | some premium =>
          Except.ok
            { msg with
              GasFeeCap := some (Int.ediv fee gl)
              GasPremium := some (if Int.ediv fee gl < premium then Int.ediv fee gl else premium) }
    | _, _ => Except.error (Fault.panic "nil pointer dereference")

/-- A message with the gas limit 1000, the fee cap 50 and the premium 30. -/
def feeDemo : ChainMessage := { GasLimit := 1000, GasFeeCap := some 50, GasPremium := some 30 }

/-- A service in which the administrator has forbidden `f1a`, in the repository and in the
cache. -/
def svcForbidden : AddressService :=
  { repo := { addresses := [{ Addr := "f1a", Nonce := 3, WalletID := 1, State := AddressState.Forbiden }] }
    addrInfo := [("f1a", { State := AddressState.Forbiden, WalletId := 1 })] }

/-- The statement that turns the unfilled messages of an address into `NoWalletMsg` fails;
everything else is as in `addrEnvDemo`. -/
def addrEnvFail : AddrEnv :=
  { addrEnvDemo with
    UpdateUnFilledMessageStateByAddress := fun _ _ => some (GoError.plain "deadlock") }

/-! ## The selection tick of the manager -/

/-- One `go w.startSelectMessage(...)` issued by `SelectMessage`: the worker and the
arguments it is given. -/
structure Tick where
  w : work
  addrInfo : Option Address
  maxAllowPendingMessage : Nat
  sharedParams : Option SharedSpec
deriving DecidableEq, Repr

/-- What `SelectMessage` leaves behind when it returns no error: the manager, the workers
closed by the reconciliation, the applied nonces, and the ticks in the order of the `range`
over the worker map. -/
structure SelectTicks where
  mgr : MsgSelectMgr
  closed : List work
  appliedNonce : NonceMap
  ticks : List Tick

/-- The function `MsgSelectMgr.SelectMessage`; the first three arguments are the answers of
the shared-parameter service (a pointer, which may be nil), of `ListActiveAddress` and of the
node.  `sharedParams.SelMsgNum` dereferences the pointer before anything is dispatched.  A
lookup in a Go map gives the zero value for a missing key: nil for the snapshot map, 0 for
the cap. -/
def MsgSelectMgr.SelectMessage (msgSelectMgr : MsgSelectMgr)
    (getSharedParams : Except GoError (Option SharedSpec))
    (listActiveAddress : Except GoError (List Address))
    (chainGetMessagesInTipset : Except String (List ChainMessage)) : Except Fault SelectTicks :=
  match getSharedParams with
  | Except.error err => Except.error (Fault.error err)
  | Except.ok sharedParams =>
    match listActiveAddress with
    | Except.error err => Except.error (Fault.error err)
    | Except.ok activeAddrs =>
      match sharedParams with
      | none => Except.error (Fault.panic "nil pointer dereference")
      | some sp =>
        let addrSelMsgNum := addrSelectMsgNum activeAddrs sp.SelMsgNum
        let addrInfos := addressMap activeAddrs
        match msgSelectMgr.tryUpdateWorks addrInfos with
        | Except.error f => Except.error f
        | Except.ok (mgr1, closed) =>
          match getNonceInTipset chainGetMessagesInTipset with
          | Except.error e => Except.error (Fault.error (GoError.plain e))
          | Except.ok appliedNonce =>
            Except.ok
              { mgr := mgr1, closed := closed, appliedNonce := appliedNonce
                ticks := mgr1.works.map (fun kw =>
                  { w := kw.2, addrInfo := GoMap.get addrInfos kw.2.addr
                    maxAllowPendingMessage := (addrSelMsgNum kw.2.addr).getD 0
                    sharedParams := sharedParams }) }

/-- Every worker of the map is stored under its own address. -/
def MsgSelectMgr.keyed (m : MsgSelectMgr) : Prop := ∀ kw ∈ m.works, kw.2.addr = kw.1

/-- The ticks of a run of `SelectMessage`, none when it returned an error. -/
def SelectTicks.ticksD (r : Except Fault SelectTicks) : List Tick :=
  match r with
  | Except.ok t => t.ticks
  | Except.error _ => []

/-- The call `go w.startSelectMessage(appliedNonce, addrInfos[w.addr], ts,
addrSelMsgNum[w.addr], sharedParams)` of a tick, run on the worker in the state `w` it has
when the goroutine is scheduled. -/
def Tick.start (t : Tick) (env : Env) (faults : WriteFaults) (store : Store)
    (msgReceiver : MessageReceiver) (w : work) (appliedNonce : NonceMap) (ts : TipSet) :
    Dispatch :=
  work.startSelectMessage env faults store msgReceiver w appliedNonce t.addrInfo ts
    t.maxAllowPendingMessage t.sharedParams

/-! ## Stored rows of actor configurations -/

/-- The type `types.MethodType`. -/
structure MethodType where
  CodeCid : Cid
  Method : Nat := 0
deriving DecidableEq, Repr

/-- The type `types.SelectSpec`. -/
structure SelectSpec where
  GasOverEstimation : Float64 := {}
  MaxFee : BigInt := none
  GasFeeCap : BigInt := none
  GasOverPremium : Float64 := {}
  BaseFee : BigInt := none
  SelMsgNum : Nat := 0
deriving DecidableEq, Repr

/-- The type `types.ActorCfg`; the embedded `MethodType` and `SelectSpec` are fields. -/
structure ActorCfg where
  ID : String := ""
  NVersion : Nat := 0
  MethodType : MethodType
  SelectSpec : SelectSpec := {}
  CreatedAt : Nat := 0
  UpdatedAt : Nat := 0
deriving DecidableEq, Repr

/-- The type `types.ChangeSelectSpecParams`: a nil big integer or a nil pointer supplies
nothing. -/
structure ChangeSelectSpecParams where
  GasOverEstimation : Option Float64 := none
  MaxFee : BigInt := none
  GasFeeCap : BigInt := none
  GasOverPremium : Option Float64 := none
  BaseFee : BigInt := none
  SelMsgNum : Option Nat := none
deriving DecidableEq, Repr

/-- Modelled from the spec: `mtypes.SafeFromGo` is not among the sources.  "Big-integer
fields are persisted as decimal strings; empty/unset is represented as the zero integer":
a nil integer becomes zero, any other keeps its value.  The type `mtypes.Int` wraps the
same pointer as `big.Int` and is `BigInt` here. -/
def mtypes.SafeFromGo (i : BigInt) : BigInt := some (i.getD 0)

/-- Modelled from the spec: `mtypes.DBCid` is not among the sources; the column `code_cid`
holds the cid. -/
structure mtypes.DBCid where
  cid : Cid
deriving DecidableEq, Repr

/-- Modelled from the spec: the conversion `mtypes.NewDBCid`, not among the sources. -/
def mtypes.NewDBCid (c : Cid) : mtypes.DBCid := { cid := c }

/-- Modelled from the spec: the method `DBCid.Cid`, not among the sources. -/
def mtypes.DBCid.Cid (c : mtypes.DBCid) : Cid := c.cid

/-- The embedded row type `mysql.SelectSpec` with the fields that `fromActorCfg` fills. -/
structure mysql.SelectSpec where
  SelMsgNum : Nat := 0
  GasOverEstimation : Float64 := {}
  GasOverPremium : Float64 := {}
  MaxFee : BigInt := some 0
  GasFeeCap : BigInt := some 0
  BaseFee : BigInt := some 0
deriving DecidableEq, Repr

/-- The row type `mysqlActorCfg`. -/
structure mysqlActorCfg where
  ID : String := ""
  NVersion : Nat := 0
  CodeCid : mtypes.DBCid
  Method : Nat := 0
  SelectSpec : mysql.SelectSpec := {}
  CreatedAt : Nat := 0
  UpdatedAt : Nat := 0
deriving DecidableEq, Repr

/-- The function `fromActorCfg`; the conversions between `network.Version` and `uint` and
between `abi.MethodNum` and `uint64` change nothing. -/
def fromActorCfg (actorCfg : ActorCfg) : mysqlActorCfg :=
  { ID := actorCfg.ID
    NVersion := actorCfg.NVersion
    CodeCid := mtypes.NewDBCid actorCfg.MethodType.CodeCid
    Method := actorCfg.MethodType.Method
    SelectSpec :=
      { SelMsgNum := actorCfg.SelectSpec.SelMsgNum
        GasOverEstimation := actorCfg.SelectSpec.GasOverEstimation
        GasOverPremium := actorCfg.SelectSpec.GasOverPremium
        MaxFee := mtypes.SafeFromGo actorCfg.SelectSpec.MaxFee
        GasFeeCap := mtypes.SafeFromGo actorCfg.SelectSpec.GasFeeCap
        BaseFee := mtypes.SafeFromGo actorCfg.SelectSpec.BaseFee }
    CreatedAt := actorCfg.CreatedAt
    UpdatedAt := actorCfg.UpdatedAt }

/-- The method `mysqlActorCfg.ActorCfg`. -/
def mysqlActorCfg.ActorCfg (row : mysqlActorCfg) : ActorCfg :=
  { ID := row.ID
    NVersion := row.NVersion
    MethodType := { CodeCid := row.CodeCid.Cid, Method := row.Method }
    SelectSpec :=
      { SelMsgNum := row.SelectSpec.SelMsgNum
        GasOverEstimation := row.SelectSpec.GasOverEstimation
        GasOverPremium := row.SelectSpec.GasOverPremium
        MaxFee := mtypes.SafeFromGo row.SelectSpec.MaxFee
        GasFeeCap := mtypes.SafeFromGo row.SelectSpec.GasFeeCap
        BaseFee := mtypes.SafeFromGo row.SelectSpec.BaseFee }
    CreatedAt := row.CreatedAt
    UpdatedAt := row.UpdatedAt }

/-- The rows of the table `actor_cfg`. -/
abbrev ActorCfgTable := List mysqlActorCfg

/-- The statement `DB.Save` of gorm on `actor_cfg`: the unique index on `(code_cid, method)`
rejects the row when another row holds the pair; the row with the primary key is replaced,
or the row is inserted; `stamps` are the times gorm stores in `created_at` and
`updated_at`. -/
def ActorCfgTable.Save (table : ActorCfgTable) (stamps : Nat × Nat) (row : mysqlActorCfg) :
    Except GoError ActorCfgTable :=
  if table.any (fun r => r.ID != row.ID && (r.CodeCid == row.CodeCid && r.Method == row.Method))
  then Except.error (GoError.plain "UNIQUE constraint failed: actor_cfg.code_cid, actor_cfg.method")
  else if table.any (fun r => r.ID == row.ID) then
    Except.ok (table.map (fun r =>
      if r.ID = row.ID then { row with CreatedAt := stamps.1, UpdatedAt := stamps.2 } else r))
  else Except.ok (table ++ [{ row with CreatedAt := stamps.1, UpdatedAt := stamps.2 }])

/-- The method `mysqlActorCfgRepo.SaveActorCfg`. -/
def mysqlActorCfgRepo.SaveActorCfg (table : ActorCfgTable) (stamps : Nat × Nat)
    (actorCfg : ActorCfg) : Except GoError ActorCfgTable :=
  table.Save stamps (fromActorCfg actorCfg)

/-- The method `mysqlActorCfgRepo.GetActorCfgByID`: `DB.Take` gives a row that matches, or
the error of gorm when there is none. -/
def mysqlActorCfgRepo.GetActorCfgByID (table : ActorCfgTable) (id : String) :
    Except GoError ActorCfg :=
  match table.find? (fun r => r.ID == id) with
  | none => Except.error (GoError.plain "record not found")
  | some a => Except.ok a.ActorCfg

/-- The method `mysqlActorCfgRepo.GetActorCfgByMethodType`. -/
def mysqlActorCfgRepo.GetActorCfgByMethodType (table : ActorCfgTable) (methodType : MethodType) :
    Except GoError ActorCfg :=
  match table.find? (fun r => r.CodeCid.Cid == methodType.CodeCid && r.Method == methodType.Method) with
  | none => Except.error (GoError.plain "record not found")
  | some a => Except.ok a.ActorCfg

/-- A value of a column in a gorm update map.  A decimal string is kept as the integer it
denotes: the column type reads it back as that integer. -/
inductive ColumnValue where
  | decimal (v : Int)
  | u64 (v : Nat)
  | f64 (v : Float64)
  | time (v : Nat)
deriving DecidableEq, Repr

/-- The assignment of one column of a row of `actor_cfg` by `UpdateColumns`. -/
def mysqlActorCfg.setColumn (r : mysqlActorCfg) (column : String × ColumnValue) : mysqlActorCfg :=
  match column with
  | ("gas_fee_cap", ColumnValue.decimal v) =>
    { r with SelectSpec := { r.SelectSpec with GasFeeCap := some v } }
  | ("base_fee", ColumnValue.decimal v) =>
    { r with SelectSpec := { r.SelectSpec with BaseFee := some v } }
  | ("max_fee", ColumnValue.decimal v) =>
    { r with SelectSpec := { r.SelectSpec with MaxFee := some v } }
  | ("sel_msg_num", ColumnValue.u64 v) =>
    { r with SelectSpec := { r.SelectSpec with SelMsgNum := v } }
  | ("gas_over_estimation", ColumnValue.f64 v) =>
    { r with SelectSpec := { r.SelectSpec with GasOverEstimation := v } }
  | ("gas_over_premium", ColumnValue.f64 v) =>
    { r with SelectSpec := { r.SelectSpec with GasOverPremium := v } }
  | ("updated_at", ColumnValue.time v) => { r with UpdatedAt := v }
  | _ => r

/-- The statement `Where("id = ?", id).UpdateColumns(updateColumns)` of gorm on
`actor_cfg`. -/
def ActorCfgTable.UpdateColumns (table : ActorCfgTable) (id : String)
    (updateColumns : List (String × ColumnValue)) : ActorCfgTable :=
  table.map (fun r => if r.ID = id then updateColumns.foldl mysqlActorCfg.setColumn r else r)

/-- The entries that `UpdateSelectSpecById` puts into `updateColumns` before the test of
its length. -/
def UpdateSelectSpecById.updateColumns (spec : ChangeSelectSpecParams) :
    List (String × ColumnValue) :=
  (match spec.GasFeeCap with
    | some v => [("gas_fee_cap", ColumnValue.decimal v)]
    | none => []) ++
  (match spec.BaseFee with
    | some v => [("base_fee", ColumnValue.decimal v)]
    | none => []) ++
  (match spec.MaxFee with
    | some v => [("max_fee", ColumnValue.decimal v)]
    | none => []) ++
  (match spec.SelMsgNum with
    | some v => [("sel_msg_num", ColumnValue.u64 v)]
    | none => []) ++
  (match spec.GasOverEstimation with
    | some v => [("gas_over_estimation", ColumnValue.f64 v)]
    | none => []) ++
  (match spec.GasOverPremium with
    | some v => [("gas_over_premium", ColumnValue.f64 v)]
    | none => [])

/-- The method `mysqlActorCfgRepo.UpdateSelectSpecById`: the returned error if any, and the
table afterwards; `dbErr` is the answer of the database to the statement, which changes
nothing when it fails. -/
def mysqlActorCfgRepo.UpdateSelectSpecById (dbErr : Option GoError) (table : ActorCfgTable)
    (now : Nat) (id : String) (spec : ChangeSelectSpecParams) : Option GoError × ActorCfgTable :=
  let updateColumns := UpdateSelectSpecById.updateColumns spec
  if updateColumns.length = 0 then (none, table)
  else
    match dbErr with
    | some err => (some err, table)
    | none =>
      (none, table.UpdateColumns id (updateColumns ++ [("updated_at", ColumnValue.time now)]))

/-- An actor configuration with all three big integers set. -/
def actorCfgDemo : ActorCfg :=
  { ID := "a1", NVersion := 21, MethodType := { CodeCid := Cid.ofMessage {}, Method := 5 }
    SelectSpec := { MaxFee := some 100, GasFeeCap := some 7, BaseFee := some 0, SelMsgNum := 20 }
    CreatedAt := 1, UpdatedAt := 1 }

/-! ## Stored rows of messages -/

/-- The row type `repo.SqlMsgReceipt`, with the columns `UpdateMessageInfoByCid` writes. -/
structure SqlMsgReceipt where
  ExitCode : Int := 0
  Return : List Nat := []
  GasUsed : Int := 0
deriving DecidableEq, Repr

/-- The row type `mtypes.MsgMeta`: the columns `meta_*` of the per-message policy. -/
structure MsgMeta where
  GasOverEstimation : Float64 := {}
  MaxFee : BigInt := some 0
  GasOverPremium : Float64 := {}
deriving DecidableEq, Repr

/-- The text forms that the message rows hold, as parameters: the text of an address, of a
cid and of a tipset key as the libraries write it, and its parsing by the libraries and, for
the tipset key, by `utils.StringToTipsetKey`, none of which is among the sources (the value
returned, the error being dropped by the callers). -/
structure RowCodec where
  AddressString : AddrKey → String
  NewFromString : String → AddrKey
  CidString : Cid → String
  Decode : String → Cid
  TipSetKeyString : TipSetKey → String
  StringToTipsetKey : String → TipSetKey

/-- Modelled from the spec: `repo.FromMsgReceipt` is not among the sources; the columns
`receipt_exit_code`, `receipt_return_value` and `receipt_gas_used` hold the "execution
receipt (exit code, return, gas used)", and "reloading M from the repository yields the
same entity", so a message without a receipt has none in its row. -/
def repo.FromMsgReceipt (receipt : Option MessageReceipt) : Option SqlMsgReceipt :=
  receipt.map (fun r => { ExitCode := r.ExitCode, Return := r.Return, GasUsed := r.GasUsed })

/-- Modelled from the spec: the method `SqlMsgReceipt.MsgReceipt` is not among the sources;
the receipt that the three columns hold, none for a row without one. -/
def SqlMsgReceipt.MsgReceipt (s : Option SqlMsgReceipt) : Option MessageReceipt :=
  s.map (fun r => { ExitCode := r.ExitCode, Return := r.Return, GasUsed := r.GasUsed })

/-- Modelled from the spec: `mtypes.FromMeta` is not among the sources; the columns `meta.*`
hold the per-message policy, and of a big integer "empty/unset is represented as the zero
integer". -/
def mtypes.FromMeta (srcMeta : SendSpec) : Option MsgMeta :=
  some
    { GasOverEstimation := srcMeta.GasOverEstimation
      MaxFee := mtypes.SafeFromGo srcMeta.MaxFee
      GasOverPremium := srcMeta.GasOverPremium }

/-- Modelled from the spec: the method `MsgMeta.Meta` is not among the sources; the policy
that the columns `meta.*` hold, the zero policy for a row without them. -/
def MsgMeta.Meta (meta : Option MsgMeta) : SendSpec :=
  match meta with
  | some x =>
    { GasOverEstimation := x.GasOverEstimation
      MaxFee := mtypes.SafeFromGo x.MaxFee
      GasOverPremium := x.GasOverPremium }
  | none => {}

/-- The constant `repo.NotDeleted`. -/
def NotDeleted : Int := -1

/-- The row type `mysqlMessage`.  `Method` is a Go `int`; the big integers are
`mtypes.Int`. -/
structure mysqlMessage where
  ID : String := ""
  Version : Nat := 0
  From : String := ""
  Nonce : Nat := 0
  To : String := ""
  Value : BigInt := some 0
  GasLimit : Int := 0
  GasFeeCap : BigInt := some 0
  GasPremium : BigInt := some 0
  Method : Int := 0
  Params : List Nat := []
  Signature : Option Signature := none
  UnsignedCid : String := ""
  SignedCid : String := ""
  Height : Int := 0
  Receipt : Option SqlMsgReceipt := none
  TipsetKey : String := ""
  Meta : Option MsgMeta := none
  WalletName : String := ""
  State : MessageState := MessageState.UnFillMsg
  IsDeleted : Int := NotDeleted
  ErrorMsg : String := ""
  CreatedAt : Nat := 0
  UpdatedAt : Nat := 0
deriving DecidableEq, Repr

/-- The method `mysqlMessage.Message`.  The fields assigned after the literal (`From`, `To`,
and, under their tests, `UnsignedCid`, `SignedCid` and `TipSetKey`) are written in place;
a field that is not assigned keeps the zero value of the literal. -/
def mysqlMessage.Message (codec : RowCodec) (sqlMsg : mysqlMessage) : Messager.Message :=
  { ID := sqlMsg.ID
    Message :=
      { Version := sqlMsg.Version
        Nonce := sqlMsg.Nonce
        Value := mtypes.SafeFromGo sqlMsg.Value
        GasLimit := sqlMsg.GasLimit
        GasFeeCap := mtypes.SafeFromGo sqlMsg.GasFeeCap
        GasPremium := mtypes.SafeFromGo sqlMsg.GasPremium
        Method := toUint64 sqlMsg.Method
        Params := sqlMsg.Params
        From := codec.NewFromString sqlMsg.From
        To := codec.NewFromString sqlMsg.To }
    Height := sqlMsg.Height
    Receipt := SqlMsgReceipt.MsgReceipt sqlMsg.Receipt
    Signature := sqlMsg.Signature
    Meta := MsgMeta.Meta sqlMsg.Meta
    WalletName := sqlMsg.WalletName
    State := sqlMsg.State
    ErrorMsg := sqlMsg.ErrorMsg
    UpdatedAt := sqlMsg.UpdatedAt
    CreatedAt := sqlMsg.CreatedAt
    UnsignedCid :=
      if sqlMsg.UnsignedCid.length > 0 then some (codec.Decode sqlMsg.UnsignedCid) else none
    SignedCid :=
      if sqlMsg.SignedCid.length > 0 then some (codec.Decode sqlMsg.SignedCid) else none
    TipSetKey :=
      if sqlMsg.TipsetKey.length > 0 then codec.StringToTipsetKey sqlMsg.TipsetKey else {} }

/-- The function `fromMessage`.  The fields assigned after the literal, under their tests
(`UnsignedCid`, `SignedCid` and `TipsetKey`), are written in place; a field that is not
assigned keeps the zero value of the literal. -/
def fromMessage (codec : RowCodec) (srcMsg : Message) : mysqlMessage :=
  { ID := srcMsg.ID
    Version := srcMsg.Message.Version
    To := codec.AddressString srcMsg.Message.To
    From := codec.AddressString srcMsg.Message.From
    Nonce := srcMsg.Message.Nonce
    Value := mtypes.SafeFromGo srcMsg.Message.Value
    GasLimit := srcMsg.Message.GasLimit
    GasFeeCap := mtypes.SafeFromGo srcMsg.Message.GasFeeCap
    GasPremium := mtypes.SafeFromGo srcMsg.Message.GasPremium
    Method := toInt64 srcMsg.Message.Method
    Params := srcMsg.Message.Params
    Signature := srcMsg.Signature
    Height := srcMsg.Height
    Receipt := repo.FromMsgReceipt srcMsg.Receipt
    Meta := mtypes.FromMeta srcMsg.Meta
    WalletName := srcMsg.WalletName
    State := srcMsg.State
    ErrorMsg := srcMsg.ErrorMsg
    IsDeleted := NotDeleted
    CreatedAt := srcMsg.CreatedAt
    UpdatedAt := srcMsg.UpdatedAt
    UnsignedCid :=
      match srcMsg.UnsignedCid with
      | some c => codec.CidString c
      | none => ""
    SignedCid :=
      match srcMsg.SignedCid with
      | some c => codec.CidString c
      | none => ""
    TipsetKey :=
      if !srcMsg.TipSetKey.IsEmpty then codec.TipSetKeyString srcMsg.TipSetKey else "" }

/-- Text forms for the examples: an address is its own text, a cid is written as `c` and a
tipset key as `k` (one known value each). -/
def codecDemo : RowCodec :=
  { AddressString := fun a => a
    NewFromString := fun s => s
    CidString := fun _ => "c"
    Decode := fun _ => Cid.ofMessage {}
    TipSetKeyString := fun _ => "k"
    StringToTipsetKey := fun _ => { cids := [Cid.ofMessage {}] } }

/-- A message on chain, with all big integers set. -/
def msgDemo : Message :=
  { ID := "m1", Message := { From := "f1a", To := "f1b", Nonce := 4, Method := 2 }
    UnsignedCid := some (Cid.ofMessage {}), SignedCid := some (Cid.ofMessage {})
    Height := 5, TipSetKey := { cids := [Cid.ofMessage {}] }
    State := MessageState.OnChainMsg }

/-- The rows of the table `messages`. -/
abbrev MessageTable := List mysqlMessage

/-- The statement `UpdateColumns` of gorm on the rows of `messages` that a `Where` selects:
`dbErr` is the answer of the database, and a statement that fails changes nothing. -/
def MessageTable.UpdateColumns (table : MessageTable) (dbErr : Option GoError)
    (selected : mysqlMessage → Bool) (update : mysqlMessage → mysqlMessage) :
    Option Fault × MessageTable :=
  match dbErr with
  | some err => (some (Fault.error err), table)
  | none => (none, table.map (fun r => if selected r then update r else r))

/-- The method `mysqlMessageRepo.UpdateMessageInfoByCid`.  The receipt converted by
`repo.FromMsgReceipt` is dereferenced; the height is written as `uint64(height)` into a
signed column. -/
def mysqlMessageRepo.UpdateMessageInfoByCid (codec : RowCodec) (dbErr : Option GoError)
    (table : MessageTable) (now : Nat) (unsignedCid : String) (receipt : Option MessageReceipt)
    (height : Int) (state : MessageState) (tsKey : TipSetKey) : Option Fault × MessageTable :=
  match repo.FromMsgReceipt receipt with
  | none => (some (Fault.panic "nil pointer dereference"), table)
  | some rcp =>
    table.UpdateColumns dbErr (fun r => r.UnsignedCid == unsignedCid)
      (fun r =>
        { r with
          Height := toInt64 (toUint64 height)
          Receipt := some { ExitCode := rcp.ExitCode, Return := rcp.Return, GasUsed := rcp.GasUsed }
          State := state
          TipsetKey := codec.TipSetKeyString tsKey
          UpdatedAt := now })

/-- The method `mysqlMessageRepo.UpdateMessageStateByCid`. -/
def mysqlMessageRepo.UpdateMessageStateByCid (dbErr : Option GoError) (table : MessageTable)
    (now : Nat) (cid : String) (state : MessageState) : Option Fault × MessageTable :=
  table.UpdateColumns dbErr (fun r => r.UnsignedCid == cid)
    (fun r => { r with State := state, UpdatedAt := now })

/-- The method `mysqlMessageRepo.UpdateMessageStateByID`. -/
def mysqlMessageRepo.UpdateMessageStateByID (dbErr : Option GoError) (table : MessageTable)
    (now : Nat) (id : String) (state : MessageState) : Option Fault × MessageTable :=
  table.UpdateColumns dbErr (fun r => r.ID == id)
    (fun r => { r with State := state, UpdatedAt := now })

/-- The method `mysqlMessageRepo.MarkBadMessage`. -/
def mysqlMessageRepo.MarkBadMessage (dbErr : Option GoError) (table : MessageTable)
    (now : Nat) (id : String) : Option Fault × MessageTable :=
  table.UpdateColumns dbErr (fun r => r.ID == id)
    (fun r => { r with State := MessageState.FailedMsg, UpdatedAt := now })

/-- The method `mysqlMessageRepo.ExpireMessage`: one statement per message, up to the first
that fails; `dbErr` gives the answer of the database to the statement for an identifier. -/
def mysqlMessageRepo.ExpireMessage (dbErr : String → Option GoError) (now : Nat) :
    MessageTable → List Message → Option Fault × MessageTable
  | table, [] => (none, table)
  | table, msg :: rest =>
    match table.UpdateColumns (dbErr msg.ID) (fun r => r.ID == msg.ID)
        (fun r => { r with State := MessageState.FailedMsg, UpdatedAt := now }) with
    | (some err, table1) => (some err, table1)
    | (none, table1) => mysqlMessageRepo.ExpireMessage dbErr now table1 rest

/-- The invariant of the spec on a row: "`height` and `tipset_key` are populated iff state =
`OnChain`". -/
def mysqlMessage.chainLinked (r : mysqlMessage) : Prop :=
  (r.Height ≠ 0 ↔ r.State = MessageState.OnChainMsg) ∧
  (r.TipsetKey ≠ "" ↔ r.State = MessageState.OnChainMsg)

/-- The invariant of the spec on the table. -/
def MessageTable.chainLinked (table : MessageTable) : Prop := ∀ r ∈ table, r.chainLinked

/-- A table with the row of `msgDemo`: on chain at the height 5. -/
def tableDemo : MessageTable := [fromMessage codecDemo msgDemo]

/-- A table with the row of `msgDemo`, on chain at the height 5, and a row `m2` with the
unsigned cid `d` that waits for its inclusion. -/
def tableTwoDemo : MessageTable :=
  [fromMessage codecDemo msgDemo,
   { ID := "m2", From := "f1a", To := "f1b", Nonce := 5, UnsignedCid := "d"
     State := MessageState.FillMsg }]
/-! ## Per-address cap: proofs -/

theorem NumMap.set_same (m : NumMap) (k : AddrKey) (v : Nat) : NumMap.set m k v k = some v := by
  simp [NumMap.set]

theorem NumMap.set_other (m : NumMap) (k a : AddrKey) (v : Nat) (h : a ≠ k) :
    NumMap.set m k v a = m a := by
  simp [NumMap.set, h]

theorem addrSelectMsgNum.step_fresh (d : Nat) (m : NumMap) (a : Address) (h : m a.Addr = none) :
    addrSelectMsgNum.step d m a
      = NumMap.set m a.Addr (if a.SelMsgNum = 0 then d else a.SelMsgNum) := by
  unfold addrSelectMsgNum.step
  rw [h]
  by_cases h0 : a.SelMsgNum = 0 <;> simp [h0]

theorem addrSelectMsgNum.foldl_spec (d : Nat) (l : List Address) :
    ∀ m : NumMap, (l.map (fun a => a.Addr)).Nodup → (∀ a ∈ l, m a.Addr = none) →
      (∀ a ∈ l, (l.foldl (addrSelectMsgNum.step d) m) a.Addr
          = some (if a.SelMsgNum = 0 then d else a.SelMsgNum)) ∧
      (∀ k, k ∉ l.map (fun a => a.Addr) → (l.foldl (addrSelectMsgNum.step d) m) k = m k) := by
  induction l with
  | nil => intro m _ _; simp
  | cons a l ih =>
    intro m hnd hfresh
    rw [List.map_cons, List.nodup_cons] at hnd
    have ha : m a.Addr = none := hfresh a (List.mem_cons_self _ _)
    rw [List.foldl_cons, addrSelectMsgNum.step_fresh d m a ha]
    have hfresh' : ∀ b ∈ l, NumMap.set m a.Addr (if a.SelMsgNum = 0 then d else a.SelMsgNum) b.Addr
        = none := by
      intro b hb
      have hne : b.Addr ≠ a.Addr := by
        intro heq
        exact hnd.1 (heq ▸ List.mem_map_of_mem (fun a => a.Addr) hb)
      rw [NumMap.set_other _ _ _ _ hne]
      exact hfresh b (List.mem_cons_of_mem _ hb)
    obtain ⟨ih1, ih2⟩ := ih _ hnd.2 hfresh'
    constructor
    · intro b hb
      rcases List.mem_cons.mp hb with rfl | hb
      · rw [ih2 _ hnd.1, NumMap.set_same]
      · exact ih1 b hb
    · intro k hk
      rw [List.map_cons, List.mem_cons, not_or] at hk
      rw [ih2 k hk.2, NumMap.set_other _ _ _ _ hk.1]

/-- C10: for a list of active addresses without repeated address and any shared default `d`,
`addrSelectMsgNum` maps each listed address to its own `SelMsgNum` when that is non-zero and
to `d` otherwise, and has no entry for an address outside the list. -/
theorem addrSelectMsgNum_spec (addrList : List Address) (d : Nat)
    (hnodup : (addrList.map (fun a => a.Addr)).Nodup) :
    (∀ a ∈ addrList, addrSelectMsgNum addrList d a.Addr
        = some (if a.SelMsgNum ≠ 0 then a.SelMsgNum else d)) ∧
    (∀ k, k ∉ addrList.map (fun a => a.Addr) → addrSelectMsgNum addrList d k = none) := by
  obtain ⟨h1, h2⟩ := addrSelectMsgNum.foldl_spec d addrList NumMap.empty hnodup (fun _ _ => rfl)
  constructor
  · intro a ha
    unfold addrSelectMsgNum
    rw [h1 a ha]
    by_cases h0 : a.SelMsgNum = 0 <;> simp [h0]
  · intro k hk
    unfold addrSelectMsgNum
    rw [h2 k hk]
    rfl

/-- Two active addresses, the first with an override of 3, under the default 7. -/
theorem addrSelectMsgNum_spec_witness :
    ([({ Addr := "f1a", SelMsgNum := 3 } : Address), { Addr := "f1b" }].map
        (fun a => a.Addr)).Nodup ∧
    ((∀ a ∈ [({ Addr := "f1a", SelMsgNum := 3 } : Address), { Addr := "f1b" }],
        addrSelectMsgNum [{ Addr := "f1a", SelMsgNum := 3 }, { Addr := "f1b" }] 7 a.Addr
          = some (if a.SelMsgNum ≠ 0 then a.SelMsgNum else 7)) ∧
     (∀ k, k ∉ [({ Addr := "f1a", SelMsgNum := 3 } : Address), { Addr := "f1b" }].map
          (fun a => a.Addr) →
        addrSelectMsgNum [{ Addr := "f1a", SelMsgNum := 3 }, { Addr := "f1b" }] 7 k = none)) :=
  ⟨by decide, addrSelectMsgNum_spec _ 7 (by decide)⟩


/-! ## Applied nonces of a tipset: proofs -/

theorem runningNonce_concat (l : List ChainMessage) (m : ChainMessage) :
    runningNonce (l ++ [m]) = some (match runningNonce l with
      | none => incU64 m.Nonce
      | some v => if m.Nonce = v then incU64 v else v) := by
  cases l with
  | nil => simp [runningNonce]
  | cons a l => simp [runningNonce, List.foldl_append]

theorem getNonceInTipset.selectMsg_apply (applied : NonceMap) (m : ChainMessage) (S : AddrKey) :
    getNonceInTipset.selectMsg applied m S =
      if S = m.From then
        some (match applied S with
          | none => incU64 m.Nonce
          | some v => if m.Nonce = v then incU64 v else v)
      else applied S := by
  unfold getNonceInTipset.selectMsg
  by_cases hS : S = m.From
  · subst hS
    cases happ : applied m.From with
    | none => simp [NonceMap.Get, NonceMap.Add, NumMap.set, happ]
    | some v =>
      by_cases hv : v = m.Nonce
      · simp [NonceMap.Get, NonceMap.Add, NumMap.set, happ, hv]
      · have hv' : ¬ m.Nonce = v := fun h => hv h.symm
        simp [NonceMap.Get, NonceMap.Add, NumMap.set, happ, hv, hv']
  · cases happ : applied m.From with
    | none =>
      by_cases hv : (NonceMap.Get (NonceMap.Add applied m.From m.Nonce) m.From).getD 0 = m.Nonce
      <;> simp [NonceMap.Get, NonceMap.Add, NumMap.set, happ, hS]
    | some v =>
      by_cases hv : v = m.Nonce
      <;> simp [NonceMap.Get, NonceMap.Add, NumMap.set, happ, hS, hv]

theorem getNonceInTipset.loop_concat (l : List ChainMessage) (m : ChainMessage) :
    getNonceInTipset.loop (l ++ [m]) = getNonceInTipset.selectMsg (getNonceInTipset.loop l) m := by
  simp [getNonceInTipset.loop, List.foldl_append]

theorem getNonceInTipset.loop_eq_runningNonce (msgs : List ChainMessage) (S : AddrKey) :
    getNonceInTipset.loop msgs S = runningNonce (msgs.filter (fun m => m.From = S)) := by
  induction msgs using List.reverseRecOn with
  | nil => rfl
  | append_singleton l m ih =>
    rw [getNonceInTipset.loop_concat, getNonceInTipset.selectMsg_apply, List.filter_append]
    by_cases hS : S = m.From
    · have hm : (List.filter (fun m => decide (m.From = S)) [m]) = [m] := by
        simp [List.filter, hS]
      rw [hm, runningNonce_concat, ← ih, if_pos hS]
    · have hS' : ¬ m.From = S := fun h => hS h.symm
      have hm : (List.filter (fun m => decide (m.From = S)) [m]) = [] := by
        simp [List.filter, hS']
      rw [hm, List.append_nil, ← ih, if_neg hS]

theorem runningNonce_isSome (l : List ChainMessage) : (runningNonce l).isSome ↔ l ≠ [] := by
  cases l <;> simp [runningNonce]

theorem incU64_of_lt (v : Nat) (h : v + 1 < uint64Size) : incU64 v = v + 1 := by
  unfold incU64
  exact Nat.mod_eq_of_lt h

theorem foldl_consecutive (l : List ChainMessage) :
    ∀ (v k : Nat), l.map (fun m => m.Nonce) = List.range' v k → v + k < uint64Size →
      l.foldl (fun v m => if m.Nonce = v then incU64 v else v) v = v + k := by
  induction l with
  | nil =>
    intro v k h _
    cases k with
    | zero => rfl
    | succ k => simp [List.range'] at h
  | cons a l ih =>
    intro v k h hk
    cases k with
    | zero => simp [List.range'] at h
    | succ k =>
      simp only [List.map_cons, List.range', List.cons.injEq] at h
      rw [List.foldl_cons, if_pos h.1, incU64_of_lt v (by omega), ih (v + 1) k h.2 (by omega)]
      omega

theorem runningNonce_consecutive (l : List ChainMessage) (n k : Nat) (hk : 0 < k)
    (hfit : n + k < uint64Size) (h : l.map (fun m => m.Nonce) = List.range' n k) :
    runningNonce l = some (n + k) := by
  cases l with
  | nil =>
    cases k with
    | zero => omega
    | succ k => simp [List.range'] at h
  | cons a l =>
    have ha : a.Nonce = n := by
      cases k with
      | zero => omega
      | succ k =>
        simp only [List.map_cons, List.range', List.cons.injEq] at h
        exact h.1
    simp only [runningNonce]
    rw [ha, foldl_consecutive (a :: l) n k h hfit]

/-- C9: on the messages of a tipset `getNonceInTipset` returns a map that has an entry exactly
for the senders occurring among them; the entry of a sender is the running value of the
specification (start from the nonce of its first message, add one for each of its messages
whose nonce equals the running value, leave it unchanged otherwise), so that consecutive
nonces `n, ..., n+k-1` give `n+k`. -/
theorem getNonceInTipset_spec (msgs : List ChainMessage) :
    ∃ applied : NonceMap, getNonceInTipset (Except.ok msgs) = Except.ok applied ∧
      (∀ S : AddrKey, (applied S).isSome ↔ ∃ m ∈ msgs, m.From = S) ∧
      (∀ S : AddrKey, applied S = runningNonce (msgs.filter (fun m => m.From = S))) ∧
      (∀ (S : AddrKey) (n k : Nat), 0 < k → n + k < uint64Size →
        (msgs.filter (fun m => m.From = S)).map (fun m => m.Nonce) = List.range' n k →
        applied S = some (n + k)) := by
  refine ⟨getNonceInTipset.loop msgs, rfl, ?_, ?_, ?_⟩
  · intro S
    rw [getNonceInTipset.loop_eq_runningNonce, runningNonce_isSome]
    constructor
    · intro h
      obtain ⟨m, hm⟩ := List.exists_mem_of_ne_nil _ h
      rw [List.mem_filter] at hm
      exact ⟨m, hm.1, by simpa using hm.2⟩
    · rintro ⟨m, hm, hS⟩
      apply List.ne_nil_of_mem (a := m)
      rw [List.mem_filter]
      exact ⟨hm, by simpa using hS⟩
  · intro S
    exact getNonceInTipset.loop_eq_runningNonce msgs S
  · intro S n k hk hfit h
    rw [getNonceInTipset.loop_eq_runningNonce]
    exact runningNonce_consecutive _ n k hk hfit h


/-! ## The re-push set: proofs -/

theorem getFilledMessage.loop_spec (n : Nat) (filled : List Message) :
    (∀ m ∈ filled, n ≤ m.Message.Nonce → m.Signature ≠ none) →
    ∃ out, getFilledMessage.loop n filled = some out ∧
      out.map (fun s => (s.Message, some s.Signature))
        = (filled.filter (fun m => n ≤ m.Message.Nonce)).map (fun m => (m.Message, m.Signature)) := by
  induction filled with
  | nil => intro _; exact ⟨[], rfl, rfl⟩
  | cons a l ih =>
    intro hsig
    obtain ⟨out, hout, hmap⟩ := ih (fun m hm => hsig m (List.mem_cons_of_mem _ hm))
    by_cases hlt : n > a.Message.Nonce
    · refine ⟨out, ?_, ?_⟩
      · simp only [getFilledMessage.loop, if_pos hlt, hout]
      · have hle : ¬ n ≤ a.Message.Nonce := by omega
        simp only [List.filter, hle, decide_False]
        exact hmap
    · have hle : n ≤ a.Message.Nonce := by omega
      cases hs : a.Signature with
      | none => exact absurd hs (hsig a (List.mem_cons_self _ _) hle)
      | some sig =>
        refine ⟨{ Message := a.Message, Signature := sig } :: out, ?_, ?_⟩
        · simp only [getFilledMessage.loop, if_neg hlt, hs, hout, Option.map_some']
        · simp only [List.filter, hle, decide_True, List.map_cons, hmap, hs]

/-- C5: when the repository lists `filled` as the filled messages of the sender, each kept
one carrying its signature, `getFilledMessage` returns exactly the listed messages whose
nonce is at least `nonceInLatestTs`, as signed messages and in list order. -/
theorem getFilledMessage_spec (env : Env) (w : work) (nonceInLatestTs : Nat)
    (filled : List Message)
    (hlist : env.ListFilledMessageByAddress w.addr = Except.ok filled)
    (hsig : ∀ m ∈ filled, nonceInLatestTs ≤ m.Message.Nonce → m.Signature ≠ none) :
    ∃ out, work.getFilledMessage env w nonceInLatestTs = Except.ok out ∧
      out.map (fun s => (s.Message, some s.Signature))
        = (filled.filter (fun m => nonceInLatestTs ≤ m.Message.Nonce)).map
            (fun m => (m.Message, m.Signature)) ∧
      (∀ s ∈ out, nonceInLatestTs ≤ s.Message.Nonce) := by
  obtain ⟨out, hout, hmap⟩ := getFilledMessage.loop_spec nonceInLatestTs filled hsig
  refine ⟨out, ?_, hmap, ?_⟩
  · simp only [work.getFilledMessage, hlist, hout]
  · intro s hs
    have h1 : (s.Message, some s.Signature) ∈ out.map (fun s => (s.Message, some s.Signature)) :=
      List.mem_map_of_mem _ hs
    rw [hmap, List.mem_map] at h1
    obtain ⟨m, hm, heq⟩ := h1
    rw [List.mem_filter] at hm
    have : m.Message = s.Message := (Prod.mk.inj heq).1
    rw [← this]
    simpa using hm.2

/-! ## The signing loop: proofs -/

theorem selectMessage.signLoop_cons (env : Env) (w : work) (accounts : List String)
    (wantCount : Nat) (msg : Message) (rest : List Message) (r : EstimateResult)
    (results : List EstimateResult) (st : SignState) :
    selectMessage.signLoop env w accounts wantCount (msg :: rest) (r :: results) st =
      if r.Err.length ≠ 0 then
        selectMessage.signLoop env w accounts wantCount rest results (st.afterEstimateError msg r)
      else if st.count ≥ wantCount then Except.ok (st.afterFull msg)
      else
        match r.Msg with
        | none => Except.error (Fault.panic "nil pointer dereference")
        | some estimateMsg =>
          match work.signMessage env w (selectMessage.assign msg st.Nonce estimateMsg) accounts with
          | (cs, Except.error err) =>
            if GoError.Is err errSingMessage then
              Except.ok (st.afterSignError msg (selectMessage.assign msg st.Nonce estimateMsg) cs err)
            else
              selectMessage.signLoop env w accounts wantCount rest results
                (st.afterSkip (selectMessage.assign msg st.Nonce estimateMsg) cs)
          | (cs, Except.ok sig) =>
            selectMessage.signLoop env w accounts wantCount rest results
              (st.afterSelect
                (selectMessage.fill (selectMessage.assign msg st.Nonce estimateMsg) sig) cs) := by
  rw [selectMessage.signLoop]
  rfl

/-- Rule induction over the runs of the signing loop that end without a panic. -/
theorem selectMessage.signLoop_induction (env : Env) (w : work) (accounts : List String)
    (wantCount : Nat)
    (P : List Message → List EstimateResult → SignState → SignState → Prop)
    (hnil : ∀ ests st, P [] ests st st)
    (herr : ∀ msg rest r results st st', r.Err.length ≠ 0 →
      selectMessage.signLoop env w accounts wantCount rest results (st.afterEstimateError msg r)
        = Except.ok st' →
      P rest results (st.afterEstimateError msg r) st' → P (msg :: rest) (r :: results) st st')
    (hfull : ∀ msg rest r results st, r.Err.length = 0 → st.count ≥ wantCount →
      P (msg :: rest) (r :: results) st (st.afterFull msg))
    (hsignerr : ∀ msg rest r results st em cs err, r.Err.length = 0 → st.count < wantCount →
      r.Msg = some em →
      work.signMessage env w (selectMessage.assign msg st.Nonce em) accounts
        = (cs, Except.error err) →
      GoError.Is err errSingMessage = true →
      P (msg :: rest) (r :: results) st
        (st.afterSignError msg (selectMessage.assign msg st.Nonce em) cs err))
    (hskip : ∀ msg rest r results st em cs err st', r.Err.length = 0 → st.count < wantCount →
      r.Msg = some em →
      work.signMessage env w (selectMessage.assign msg st.Nonce em) accounts
        = (cs, Except.error err) →
      GoError.Is err errSingMessage = false →
      selectMessage.signLoop env w accounts wantCount rest results
        (st.afterSkip (selectMessage.assign msg st.Nonce em) cs) = Except.ok st' →
      P rest results (st.afterSkip (selectMessage.assign msg st.Nonce em) cs) st' →
      P (msg :: rest) (r :: results) st st')
    (hsel : ∀ msg rest r results st em cs sig st', r.Err.length = 0 → st.count < wantCount →
      r.Msg = some em →
      work.signMessage env w (selectMessage.assign msg st.Nonce em) accounts
        = (cs, Except.ok sig) →
      selectMessage.signLoop env w accounts wantCount rest results
        (st.afterSelect (selectMessage.fill (selectMessage.assign msg st.Nonce em) sig) cs)
        = Except.ok st' →
      P rest results
        (st.afterSelect (selectMessage.fill (selectMessage.assign msg st.Nonce em) sig) cs) st' →
      P (msg :: rest) (r :: results) st st') :
    ∀ cands ests st st',
      selectMessage.signLoop env w accounts wantCount cands ests st = Except.ok st' →
      P cands ests st st' := by
  intro cands
  induction cands with
  | nil =>
    intro ests st st' h
    rw [selectMessage.signLoop] at h
    cases h
    exact hnil ests st
  | cons msg rest ih =>
    intro ests st st' h
    cases ests with
    | nil => rw [selectMessage.signLoop] at h; cases h
    | cons r results =>
      rw [selectMessage.signLoop_cons] at h
      by_cases he : r.Err.length ≠ 0
      · rw [if_pos he] at h
        exact herr msg rest r results st st' he h (ih _ _ _ h)
      · rw [if_neg he] at h
        have he0 : r.Err.length = 0 := by omega
        by_cases hc : st.count ≥ wantCount
        · rw [if_pos hc] at h
          cases h
          exact hfull msg rest r results st he0 hc
        · rw [if_neg hc] at h
          have hc' : st.count < wantCount := by omega
          cases hm : r.Msg with
          | none => rw [hm] at h; cases h
          | some em =>
            rw [hm] at h
            simp only at h
            cases hs : work.signMessage env w (selectMessage.assign msg st.Nonce em) accounts with
            | mk cs res =>
              rw [hs] at h
              cases res with
              | error err =>
                simp only at h
                by_cases hi : GoError.Is err errSingMessage = true
                · rw [if_pos hi] at h
                  cases h
                  exact hsignerr msg rest r results st em cs err he0 hc' hm hs hi
                · rw [if_neg hi] at h
                  have hi' : GoError.Is err errSingMessage = false := by
                    simpa using hi
                  exact hskip msg rest r results st em cs err st' he0 hc' hm hs hi' h (ih _ _ _ h)
              | ok sig =>
                simp only at h
                exact hsel msg rest r results st em cs sig st' he0 hc' hm hs h (ih _ _ _ h)

theorem incU64_iterate_of_lt (i s : Nat) (h : s + i < uint64Size) : incU64^[i] s = s + i := by
  induction i generalizing s with
  | zero => rfl
  | succ i ih =>
    rw [Function.iterate_succ_apply, incU64_of_lt s (by omega), ih (s + 1) (by omega)]
    omega

theorem incU64_iterate_mod (i s : Nat) (h : s < uint64Size) :
    incU64^[i] s = (s + i) % uint64Size := by
  induction i generalizing s with
  | zero => exact (Nat.mod_eq_of_lt h).symm
  | succ i ih =>
    have hlt : incU64 s < uint64Size := Nat.mod_lt _ (by unfold uint64Size; omega)
    rw [Function.iterate_succ_apply, ih (incU64 s) hlt]
    unfold incU64
    rw [Nat.mod_add_mod]
    congr 1
    omega

/-- What the signing loop adds to `selectMsg`: each added message is a candidate with a
successful estimation, assigned the next nonce and filled with its signature. -/
theorem selectMessage.signLoop_selected (env : Env) (w : work) (accounts : List String)
    (wantCount : Nat) :
    ∀ cands ests st st',
      selectMessage.signLoop env w accounts wantCount cands ests st = Except.ok st' →
      ∃ new : List Message, st'.selectMsg = st.selectMsg ++ new ∧
        st'.Nonce = incU64^[new.length] st.Nonce ∧
        st'.count = incU64^[new.length] st.count ∧
        ∀ i m, new[i]? = some m → ∃ c r em sig, (c, r) ∈ cands.zip ests ∧ r.Err.length = 0 ∧
          r.Msg = some em ∧
          m = selectMessage.fill (selectMessage.assign c (incU64^[i] st.Nonce) em) sig := by
  apply selectMessage.signLoop_induction
  · intro ests st
    exact ⟨[], by simp, rfl, rfl, by simp⟩
  · intro msg rest r results st st' _ _ ih
    obtain ⟨new, h1, h2, h3, h4⟩ := ih
    refine ⟨new, h1, h2, h3, ?_⟩
    intro i m him
    obtain ⟨c, r', em, sig, hmem, hr⟩ := h4 i m him
    exact ⟨c, r', em, sig, by rw [List.zip_cons_cons]; exact List.mem_cons_of_mem _ hmem, hr⟩
  · intro msg rest r results st _ _
    exact ⟨[], by simp [SignState.afterFull], rfl, rfl, by simp⟩
  · intro msg rest r results st em cs err _ _ _ _ _
    exact ⟨[], by simp [SignState.afterSignError], rfl, rfl, by simp⟩
  · intro msg rest r results st em cs err st' _ _ _ _ _ _ ih
    obtain ⟨new, h1, h2, h3, h4⟩ := ih
    refine ⟨new, h1, h2, h3, ?_⟩
    intro i m him
    obtain ⟨c, r', em', sig, hmem, hr⟩ := h4 i m him
    exact ⟨c, r', em', sig, by rw [List.zip_cons_cons]; exact List.mem_cons_of_mem _ hmem, hr⟩
  · intro msg rest r results st em cs sig st' he _ hm _ _ ih
    obtain ⟨new, h1, h2, h3, h4⟩ := ih
    refine ⟨selectMessage.fill (selectMessage.assign msg st.Nonce em) sig :: new, ?_, ?_, ?_, ?_⟩
    · rw [h1]; simp [SignState.afterSelect]
    · rw [h2, List.length_cons, Function.iterate_succ_apply]; rfl
    · rw [h3, List.length_cons, Function.iterate_succ_apply]; rfl
    · intro i m him
      cases i with
      | zero =>
        simp only [List.getElem?_cons_zero, Option.some.injEq] at him
        exact ⟨msg, r, em, sig, by simp [List.zip_cons_cons], he, hm, him.symm⟩
      | succ i =>
        rw [List.getElem?_cons_succ] at him
        obtain ⟨c, r', em', sig', hmem, hr1, hr2, hr3⟩ := h4 i m him
        refine ⟨c, r', em', sig', ?_, hr1, hr2, ?_⟩
        · rw [List.zip_cons_cons]; exact List.mem_cons_of_mem _ hmem
        · rw [hr3, Function.iterate_succ_apply]; rfl

/-- The counter of the signing loop never passes `wantCount`. -/
theorem selectMessage.signLoop_count (env : Env) (w : work) (accounts : List String)
    (wantCount : Nat) (hwant : wantCount < uint64Size) :
    ∀ cands ests st st',
      selectMessage.signLoop env w accounts wantCount cands ests st = Except.ok st' →
      st.count ≤ wantCount →
      st'.count ≤ wantCount ∧
        st'.count + st.selectMsg.length = st.count + st'.selectMsg.length := by
  apply selectMessage.signLoop_induction
  · intro ests st h; exact ⟨h, rfl⟩
  · intro msg rest r results st st' _ _ ih h
    exact ih h
  · intro msg rest r results st _ _ h
    exact ⟨h, rfl⟩
  · intro msg rest r results st em cs err _ _ _ _ _ h
    exact ⟨h, rfl⟩
  · intro msg rest r results st em cs err st' _ _ _ _ _ _ ih h
    exact ih h
  · intro msg rest r results st em cs sig st' _ hc _ _ _ ih _
    have hinc : incU64 st.count = st.count + 1 := incU64_of_lt _ (by omega)
    have h1 := ih (by simp only [SignState.afterSelect]; omega)
    simp only [SignState.afterSelect, List.length_append, List.length_singleton] at h1
    omega

/-! ## From `selectMessage` to its stages -/

theorem selectMessage.reconcile_ok (env : Env) (addrInfo : Address) (chain : Nat)
    (cs : List Call) (a1 : Address)
    (h : selectMessage.reconcile env addrInfo chain = (cs, Except.ok a1)) :
    a1.Nonce = max addrInfo.Nonce chain ∧ a1.Addr = addrInfo.Addr ∧
      a1 = { addrInfo with Nonce := max addrInfo.Nonce chain, UpdatedAt := a1.UpdatedAt } := by
  unfold selectMessage.reconcile at h
  by_cases hgt : chain > addrInfo.Nonce
  · rw [if_pos hgt] at h
    simp only at h
    cases hu : env.UpdateNonce addrInfo.Addr chain with
    | some e => rw [hu] at h; cases h
    | none =>
      rw [hu] at h
      cases h
      have : max addrInfo.Nonce chain = chain := by omega
      simp [this]
  · rw [if_neg hgt] at h
    cases h
    have : max addrInfo.Nonce chain = addrInfo.Nonce := by omega
    simp [this]

theorem selectMessage.reconcile_calls (env : Env) (addrInfo : Address) (chain : Nat) :
    (selectMessage.reconcile env addrInfo chain).1
      = if chain > addrInfo.Nonce then [Call.UpdateNonce addrInfo.Addr chain] else [] := by
  unfold selectMessage.reconcile
  by_cases hgt : chain > addrInfo.Nonce
  · simp only [if_pos hgt]
    cases env.UpdateNonce addrInfo.Addr chain <;> rfl
  · simp only [if_neg hgt]

/-- A result of the budget-and-selection part is either the early one, or is read off the
final state of the signing loop. -/
theorem selectMessage.select_ok (env : Env) (w : work) (accounts : List String)
    (a1 : Address) (chain : Nat) (repush : List SignedMessage) (ts : TipSet) (cap : Nat)
    (sp : Option SharedSpec) (calls : List Call) (res : MsgSelectResult)
    (h : (selectMessage.select env w accounts a1 chain repush ts cap sp calls).result
      = Except.ok res) :
    res.ToPushMsg = repush ∧
    ((res.SelectMsg = [] ∧ res.ErrMsg = [] ∧ res.Address = a1) ∨
     (subU64 a1.Nonce chain < cap ∧ ∃ cands ests cs st',
        selectMessage.signLoop env w accounts (subU64 cap (subU64 a1.Nonce chain)) cands ests
          { Nonce := a1.Nonce, calls := cs } = Except.ok st' ∧
        res.SelectMsg = st'.selectMsg ∧ res.ErrMsg = st'.errMsg ∧
        res.Address = { a1 with Nonce := st'.Nonce })) := by
  unfold selectMessage.select at h
  simp only at h
  split at h
  · cases h; exact ⟨rfl, Or.inl ⟨rfl, rfl, rfl⟩⟩
  · rename_i hgap
    split at h
    · cases h
    · split at h
      · cases h; exact ⟨rfl, Or.inl ⟨rfl, rfl, rfl⟩⟩
      · split at h
        · cases h
        · rename_i cs0 estimateResult candidateMessages hest
          split at h
          · cases h
          · rename_i st' hloop
            cases h
            exact ⟨rfl, Or.inr ⟨by omega, candidateMessages, estimateResult, _, st', hloop,
              rfl, rfl, rfl⟩⟩

/-- A result of `selectMessage` is either the early one, with the reconciled nonce, or is
read off the final state of the signing loop started at the reconciled nonce. -/
theorem work.selectMessage_ok (env : Env) (w : work) (applied : NonceMap) (addrInfo : Address)
    (ts : TipSet) (cap : Nat) (sp : Option SharedSpec) (chain actor : Nat)
    (res : MsgSelectResult)
    (hn : work.getNonce env w ts applied = Except.ok (chain, actor))
    (h : (work.selectMessage env w applied addrInfo ts cap sp).result = Except.ok res) :
    (res.SelectMsg = [] ∧ res.ErrMsg = [] ∧ res.Address.Nonce = max addrInfo.Nonce chain) ∨
    (subU64 (max addrInfo.Nonce chain) chain < cap ∧ ∃ accounts cands ests cs st',
      selectMessage.signLoop env w accounts
          (subU64 cap (subU64 (max addrInfo.Nonce chain) chain)) cands ests
          { Nonce := max addrInfo.Nonce chain, calls := cs } = Except.ok st' ∧
      res.SelectMsg = st'.selectMsg ∧ res.ErrMsg = st'.errMsg ∧
      res.Address.Nonce = st'.Nonce) := by
  unfold work.selectMessage at h
  simp only [hn] at h
  split at h
  · cases h
  · rename_i accounts hacc
    split at h
    · cases h
    · rename_i cs a1 hrec
      obtain ⟨hnonce, -, -⟩ := selectMessage.reconcile_ok env addrInfo chain cs a1 hrec
      split at h
      · cases h
      · rename_i repush hfilled
        obtain ⟨-, hsel⟩ := selectMessage.select_ok env w accounts a1 chain repush ts cap sp _ res h
        rcases hsel with ⟨h1, h2, h3⟩ | ⟨hlt, cands, ests, cs', st', hloop, h1, h2, h3⟩
        · exact Or.inl ⟨h1, h2, by rw [h3, hnonce]⟩
        · rw [hnonce] at hlt hloop
          exact Or.inr ⟨hlt, accounts, cands, ests, cs', st', hloop, h1, h2, by rw [h3]⟩

/-! ## Nonce assignment and budget -/

theorem selectMessage.fill_assign_nonce (c : Message) (n : Nat) (em : ChainMessage)
    (sig : Signature) :
    (selectMessage.fill (selectMessage.assign c n em) sig).Message.Nonce = n := rfl

/-- C1, amended: when `selectMessage` returns a result with `k` selected messages and
`s + k` fits in 64 bits, where `s` is the larger of the stored nonce and the nonce on chain,
the selected messages carry the nonces `s, s+1, ..., s+k-1` in order, the returned
`Address.Nonce` is `s + k`, and every assigned nonce is strictly below it. -/
theorem selectMessage_nonces_contiguous (env : Env) (w : work) (applied : NonceMap)
    (addrInfo : Address) (ts : TipSet) (cap : Nat) (sp : Option SharedSpec) (chain actor : Nat)
    (res : MsgSelectResult)
    (hn : work.getNonce env w ts applied = Except.ok (chain, actor))
    (hres : (work.selectMessage env w applied addrInfo ts cap sp).result = Except.ok res)
    (hfit : max addrInfo.Nonce chain + res.SelectMsg.length < uint64Size) :
    res.SelectMsg.map (fun m => m.Message.Nonce)
        = List.range' (max addrInfo.Nonce chain) res.SelectMsg.length ∧
      res.Address.Nonce = max addrInfo.Nonce chain + res.SelectMsg.length ∧
      (∀ m ∈ res.SelectMsg, m.Message.Nonce < res.Address.Nonce) := by
  have key : (∀ i m, res.SelectMsg[i]? = some m → m.Message.Nonce = max addrInfo.Nonce chain + i) ∧
      res.Address.Nonce = max addrInfo.Nonce chain + res.SelectMsg.length := by
    rcases work.selectMessage_ok env w applied addrInfo ts cap sp chain actor res hn hres with
      ⟨h1, -, h3⟩ | ⟨-, accounts, cands, ests, cs, st', hloop, h1, -, h3⟩
    · rw [h1, h3]
      exact ⟨by simp, by simp⟩
    · obtain ⟨new, hnew, hnonce, -, hshape⟩ :=
        selectMessage.signLoop_selected env w accounts _ cands ests _ st' hloop
      simp only [List.nil_append] at hnew
      rw [← hnew, ← h1] at hnonce hshape
      dsimp only at hnonce hshape
      constructor
      · intro i m him
        obtain ⟨c, r, em, sig, -, -, -, hm⟩ := hshape i m him
        have hi : i < res.SelectMsg.length := by
          rcases Nat.lt_or_ge i res.SelectMsg.length with h | h
          · exact h
          · rw [List.getElem?_eq_none h] at him; cases him
        rw [hm, selectMessage.fill_assign_nonce]
        exact incU64_iterate_of_lt i _ (by omega)
      · rw [h3, hnonce]
        exact incU64_iterate_of_lt _ _ hfit
  obtain ⟨k1, k2⟩ := key
  refine ⟨?_, k2, ?_⟩
  · apply List.ext_getElem?
    intro i
    rw [List.getElem?_map]
    rcases Nat.lt_or_ge i res.SelectMsg.length with h | h
    · rw [List.getElem?_eq_getElem h, List.getElem?_range' _ _ h, Option.map_some', k1 i _
        (List.getElem?_eq_getElem h)]
      simp
    · rw [List.getElem?_eq_none h, List.getElem?_eq_none (by simpa using h)]
      rfl
  · intro m hm
    obtain ⟨i, hi, hget⟩ := List.getElem_of_mem hm
    have := k1 i m (by rw [List.getElem?_eq_getElem hi, hget])
    omega

/-- A run with the stored nonce 10 and the chain nonce 15: two messages are selected. -/
theorem selectMessage_nonces_contiguous_witness :
    work.getNonce envDemo wDemo {} NewNonceMap = Except.ok (15, 15) ∧
    (work.selectMessage envDemo wDemo NewNonceMap addrDemo {} 3 (some {})).result
      = Except.ok (work.selectMessage envDemo wDemo NewNonceMap addrDemo {} 3 (some {})).resultD ∧
    (work.selectMessage envDemo wDemo NewNonceMap addrDemo {} 3 (some {})).resultD.SelectMsg.map
        (fun m => m.Message.Nonce) = [15, 16] ∧
    (work.selectMessage envDemo wDemo NewNonceMap addrDemo {} 3 (some {})).resultD.Address.Nonce
      = 17 :=
  have h := selectMessage_nonces_contiguous envDemo wDemo NewNonceMap addrDemo {} 3 (some {}) 15 15
    (work.selectMessage envDemo wDemo NewNonceMap addrDemo {} 3 (some {})).resultD
    rfl rfl (by decide)
  ⟨rfl, rfl, h.1, h.2.1⟩

/-- C1, as stated, fails at the top of the nonce range: with the stored nonce and the chain
nonce both `2^64 - 1`, the selected message carries the nonce `2^64 - 1` and the returned
`Address.Nonce` is 0, which is neither `s + 1` nor above the assigned nonce. -/
theorem selectMessage_nonce_wraps :
    ((work.selectMessage envTop wDemo NewNonceMap
        { Addr := "f1a", Nonce := 18446744073709551615 } {} 1 (some {})).result.toOption.map
      (fun res => (res.SelectMsg.map (fun m => m.Message.Nonce), res.Address.Nonce)))
      = some ([18446744073709551615], 0) := by
  decide

theorem subU64_of_le (a b : Nat) (hb : b ≤ a) (ha : a < uint64Size) : subU64 a b = a - b := by
  unfold subU64 uint64Size at *
  omega

theorem subU64_le (a b : Nat) (hb : b ≤ a) : subU64 a b ≤ a - b := by
  unfold subU64 uint64Size at *
  omega

theorem subU64_lt (a b : Nat) : subU64 a b < uint64Size := by
  unfold subU64
  exact Nat.mod_lt _ (by unfold uint64Size; omega)

/-- The calls of the signing loop extend the calls made before it. -/
theorem selectMessage.signLoop_calls_prefix (env : Env) (w : work) (accounts : List String)
    (wantCount : Nat) :
    ∀ cands ests st st',
      selectMessage.signLoop env w accounts wantCount cands ests st = Except.ok st' →
      ∃ extra, st'.calls = st.calls ++ extra := by
  apply selectMessage.signLoop_induction
  · intro ests st
    exact ⟨[], by simp⟩
  · intro msg rest r results st st' _ _ ih
    obtain ⟨e, h⟩ := ih
    exact ⟨e, h⟩
  · intro msg rest r results st _ _
    exact ⟨[], by simp [SignState.afterFull]⟩
  · intro msg rest r results st em cs err _ _ _ _ _
    exact ⟨cs, rfl⟩
  · intro msg rest r results st em cs err st' _ _ _ _ _ _ ih
    obtain ⟨e, h⟩ := ih
    exact ⟨cs ++ e, by rw [h]; simp [SignState.afterSkip]⟩
  · intro msg rest r results st em cs sig st' _ _ _ _ _ ih
    obtain ⟨e, h⟩ := ih
    exact ⟨cs ++ e, by rw [h]; simp [SignState.afterSelect]⟩

/-- The budget-and-selection part returns early, without listing candidates, exactly when the
gap it computes reaches the cap; otherwise it lists `min (2 * want) 100` candidates. -/
theorem selectMessage.select_budget (env : Env) (w : work) (accounts : List String)
    (a1 : Address) (chain : Nat) (repush : List SignedMessage) (ts : TipSet) (cap : Nat)
    (sp : Option SharedSpec) (calls : List Call) (res : MsgSelectResult)
    (h : (selectMessage.select env w accounts a1 chain repush ts cap sp calls).result
      = Except.ok res) :
    (cap ≤ subU64 a1.Nonce chain →
      res = { ToPushMsg := repush, Address := a1 } ∧
      (selectMessage.select env w accounts a1 chain repush ts cap sp calls).calls = calls) ∧
    (subU64 a1.Nonce chain < cap →
      Call.ListUnChainMessageByAddress a1.Addr
          (Int.ofNat (min (mulU64 (subU64 cap (subU64 a1.Nonce chain)) 2) 100))
        ∈ (selectMessage.select env w accounts a1 chain repush ts cap sp calls).calls) := by
  unfold selectMessage.select at h ⊢
  by_cases hgap : subU64 a1.Nonce chain ≥ cap
  · simp only [if_pos hgap] at h ⊢
    cases h
    exact ⟨fun _ => ⟨rfl, trivial⟩, fun hlt => absurd hgap (by omega)⟩
  · simp only [if_neg hgap] at h ⊢
    refine ⟨fun hle => absurd hle (by omega), fun _ => ?_⟩
    split at h
    · cases h
    · rename_i messages hlist
      by_cases hlen : messages.length = 0
      · simp only [if_pos hlen] at h ⊢
        simp
      · simp only [if_neg hlen] at h ⊢
        split at h
        · cases h
        · rename_i cs0 estimateResult candidateMessages hest
          split at h
          · cases h
          · rename_i st' hloop
            obtain ⟨extra, hextra⟩ := selectMessage.signLoop_calls_prefix env w accounts _ _ _ _
              st' hloop
            simp only [hextra]
            simp

/-- A run of `selectMessage` that returns a result is the budget-and-selection part applied
to the record that the reconciliation step returned. -/
theorem work.selectMessage_select (env : Env) (w : work) (applied : NonceMap)
    (addrInfo : Address) (ts : TipSet) (cap : Nat) (sp : Option SharedSpec) (chain actor : Nat)
    (res : MsgSelectResult)
    (hn : work.getNonce env w ts applied = Except.ok (chain, actor))
    (h : (work.selectMessage env w applied addrInfo ts cap sp).result = Except.ok res) :
    ∃ accounts cs a1 repush calls,
      selectMessage.reconcile env addrInfo chain = (cs, Except.ok a1) ∧
      work.selectMessage env w applied addrInfo ts cap sp
        = selectMessage.select env w accounts a1 chain repush ts cap sp calls := by
  cases hacc : env.GetAccountsOfSigner addrInfo.Addr with
  | error e =>
    unfold work.selectMessage at h
    simp only [hacc] at h
    cases h
  | ok accounts =>
    rcases hrec : selectMessage.reconcile env addrInfo chain with ⟨cs, r⟩
    cases r with
    | error e =>
      unfold work.selectMessage at h
      simp only [hacc, hn, hrec] at h
      cases h
    | ok a1 =>
      cases hf : work.getFilledMessage env w chain with
      | error f =>
        unfold work.selectMessage at h
        simp only [hacc, hn, hrec, hf] at h
        cases h
      | ok repush =>
        refine ⟨accounts, cs, a1, repush,
          [Call.GetAccountsOfSigner addrInfo.Addr] ++ [Call.StateGetActor w.addr ts.Key] ++ cs
            ++ [Call.ListFilledMessageByAddress w.addr], rfl, ?_⟩
        unfold work.selectMessage
        simp only [hacc, hn, hrec, hf]

/-- C3: `selectMessage` selects at most `want = max(0, cap - (Address.Nonce - nonce_on_chain))`
messages, `Address.Nonce` being the reconciled value, and the unsigned subtraction
`Address.Nonce - nonce_on_chain` does not wrap. The run is the budget computation
`selectMessage.select` applied to the record `a1` that `selectMessage.reconcile` returned;
the gap `subU64 a1.Nonce chain` computed there is the true difference `a1.Nonce - chain`,
with `chain ≤ a1.Nonce`; the number of selected messages is at most the cap minus that gap;
the run returns early, selecting nothing, when the true difference reaches the cap, and
lists `min (2 * want) 100` candidates when it is below the cap. -/
theorem selectMessage_at_most_want (env : Env) (w : work) (applied : NonceMap)
    (addrInfo : Address) (ts : TipSet) (cap : Nat) (sp : Option SharedSpec) (chain actor : Nat)
    (res : MsgSelectResult)
    (hn : work.getNonce env w ts applied = Except.ok (chain, actor))
    (hres : (work.selectMessage env w applied addrInfo ts cap sp).result = Except.ok res)
    (hstored : addrInfo.Nonce < uint64Size) (hchain : chain < uint64Size) :
    res.SelectMsg.length ≤ cap - (max addrInfo.Nonce chain - chain) ∧
      chain ≤ max addrInfo.Nonce chain ∧
      subU64 (max addrInfo.Nonce chain) chain = max addrInfo.Nonce chain - chain ∧
      ∃ accounts cs a1 repush calls,
        selectMessage.reconcile env addrInfo chain = (cs, Except.ok a1) ∧
        work.selectMessage env w applied addrInfo ts cap sp
          = selectMessage.select env w accounts a1 chain repush ts cap sp calls ∧
        a1.Addr = addrInfo.Addr ∧ a1.Nonce = max addrInfo.Nonce chain ∧ chain ≤ a1.Nonce ∧
        subU64 a1.Nonce chain = a1.Nonce - chain ∧
        res.SelectMsg.length ≤ cap - subU64 a1.Nonce chain ∧
        (cap ≤ a1.Nonce - chain → res = { ToPushMsg := repush, Address := a1 }) ∧
        (a1.Nonce - chain < cap →
          Call.ListUnChainMessageByAddress a1.Addr
              (Int.ofNat (min (mulU64 (subU64 cap (a1.Nonce - chain)) 2) 100))
            ∈ (work.selectMessage env w applied addrInfo ts cap sp).calls) := by
  have hsub : subU64 (max addrInfo.Nonce chain) chain = max addrInfo.Nonce chain - chain :=
    subU64_of_le _ _ (le_max_right _ _) (max_lt hstored hchain)
  have hcount : res.SelectMsg.length ≤ cap - (max addrInfo.Nonce chain - chain) := by
    rcases work.selectMessage_ok env w applied addrInfo ts cap sp chain actor res hn hres with
      ⟨h1, -, -⟩ | ⟨hlt, accounts, cands, ests, cs, st', hloop, h1, -, -⟩
    · rw [h1]; simp
    · have hcount := selectMessage.signLoop_count env w accounts _ (subU64_lt _ _) cands ests _
        st' hloop (Nat.zero_le _)
      have hwant := subU64_le cap _ (Nat.le_of_lt hlt)
      rw [hsub] at hwant hcount
      rw [h1]
      simp only [List.length_nil] at hcount
      omega
  refine ⟨hcount, le_max_right _ _, hsub, ?_⟩
  obtain ⟨accounts, cs, a1, repush, calls, hrec, hrun⟩ :=
    work.selectMessage_select env w applied addrInfo ts cap sp chain actor res hn hres
  obtain ⟨hnonce, haddr, -⟩ := selectMessage.reconcile_ok env addrInfo chain cs a1 hrec
  have hsub1 : subU64 a1.Nonce chain = a1.Nonce - chain := by rw [hnonce]; exact hsub
  have hres1 : (selectMessage.select env w accounts a1 chain repush ts cap sp calls).result
      = Except.ok res := by rw [← hrun]; exact hres
  obtain ⟨hearly, hlist⟩ :=
    selectMessage.select_budget env w accounts a1 chain repush ts cap sp calls res hres1
  refine ⟨accounts, cs, a1, repush, calls, hrec, hrun, haddr, hnonce, ?_, hsub1, ?_, ?_, ?_⟩
  · rw [hnonce]; exact le_max_right _ _
  · rw [hsub1, hnonce]; exact hcount
  · intro hle
    exact (hearly (by rw [hsub1]; exact hle)).1
  · intro hlt
    rw [hrun, ← hsub1]
    exact hlist (by rw [hsub1]; exact hlt)

/-- The run with the stored nonce 10, the chain nonce 15 and the cap 3: the gap is taken
from the reconciled nonce 15, so it is 0, and the run lists `min (2 * 3) 100 = 6`
candidates. -/
theorem selectMessage_at_most_want_witness :
    work.getNonce envDemo wDemo {} NewNonceMap = Except.ok (15, 15) ∧
    (work.selectMessage envDemo wDemo NewNonceMap addrDemo {} 3 (some {})).result
      = Except.ok (work.selectMessage envDemo wDemo NewNonceMap addrDemo {} 3 (some {})).resultD ∧
    addrDemo.Nonce < uint64Size ∧ 15 < uint64Size ∧
    (work.selectMessage envDemo wDemo NewNonceMap addrDemo {} 3 (some {})).resultD.SelectMsg.length
      ≤ 3 - (max addrDemo.Nonce 15 - 15) ∧
    Call.ListUnChainMessageByAddress "f1a" 6
      ∈ (work.selectMessage envDemo wDemo NewNonceMap addrDemo {} 3 (some {})).calls := by
  obtain ⟨h1, -, -, accounts, cs, a1, repush, calls, -, -, ha, hn, -, -, -, -, hlist⟩ :=
    selectMessage_at_most_want envDemo wDemo NewNonceMap addrDemo {} 3 (some {}) 15 15
      (work.selectMessage envDemo wDemo NewNonceMap addrDemo {} 3 (some {})).resultD
      rfl rfl (by decide) (by decide)
  have h2 := hlist (by rw [hn]; decide)
  rw [ha, hn] at h2
  exact ⟨rfl, rfl, by decide, by decide, h1, h2⟩

/-! ## Reconciliation and the calls of a run -/

theorem work.signMessage_calls (env : Env) (w : work) (msg : Message) (accounts : List String) :
    (work.signMessage env w msg accounts).1 = [] ∨
      (work.signMessage env w msg accounts).1 = [Call.WalletSign w.addr accounts msg.Message] := by
  unfold work.signMessage
  split
  · exact Or.inl rfl
  · split
    · exact Or.inr rfl
    · exact Or.inr rfl

theorem work.signMessage_calls_filter (env : Env) (w : work) (msg : Message)
    (accounts : List String) (cs : List Call) (r : Except GoError Signature)
    (h : work.signMessage env w msg accounts = (cs, r)) :
    cs.filter Call.isUpdateNonce = [] := by
  have h1 : (work.signMessage env w msg accounts).1 = cs := by rw [h]
  rcases work.signMessage_calls env w msg accounts with h2 | h2
  · rw [← h1, h2]; rfl
  · rw [← h1, h2]; rfl

theorem selectMessage.signLoop_calls_filter (env : Env) (w : work) (accounts : List String)
    (wantCount : Nat) :
    ∀ cands ests st st',
      selectMessage.signLoop env w accounts wantCount cands ests st = Except.ok st' →
      st'.calls.filter Call.isUpdateNonce = st.calls.filter Call.isUpdateNonce := by
  apply selectMessage.signLoop_induction
  · intro ests st; rfl
  · intro msg rest r results st st' _ _ ih
    exact ih
  · intro msg rest r results st _ _
    rfl
  · intro msg rest r results st em cs err _ _ _ hs _
    simp only [SignState.afterSignError, List.filter_append,
      work.signMessage_calls_filter env w _ accounts cs _ hs, List.append_nil]
  · intro msg rest r results st em cs err st' _ _ _ hs _ _ ih
    rw [ih]
    simp only [SignState.afterSkip, List.filter_append,
      work.signMessage_calls_filter env w _ accounts cs _ hs, List.append_nil]
  · intro msg rest r results st em cs sig st' _ _ _ hs _ ih
    rw [ih]
    simp only [SignState.afterSelect, List.filter_append,
      work.signMessage_calls_filter env w _ accounts cs _ hs, List.append_nil]

theorem work.estimateMessage_calls_filter (env : Env) (ts : TipSet) (msgs : List Message)
    (sp : Option SharedSpec) (addrInfo : Address) :
    (work.estimateMessage env ts msgs sp addrInfo).1.filter Call.isUpdateNonce = [] := by
  unfold work.estimateMessage
  split
  · rfl
  · split <;> rfl

theorem selectMessage.select_calls_filter (env : Env) (w : work) (accounts : List String)
    (a1 : Address) (chain : Nat) (repush : List SignedMessage) (ts : TipSet) (cap : Nat)
    (sp : Option SharedSpec) (calls : List Call) :
    (selectMessage.select env w accounts a1 chain repush ts cap sp calls).calls.filter
        Call.isUpdateNonce = calls.filter Call.isUpdateNonce := by
  unfold selectMessage.select
  simp only
  split
  · rfl
  · split
    · simp [List.filter_append, Call.isUpdateNonce]
    · split
      · simp [List.filter_append, Call.isUpdateNonce]
      · have hest := work.estimateMessage_calls_filter env ts ‹List Message› sp a1
        split
        · rename_i cs f heq
          rw [heq] at hest
          simp only at hest
          simp [List.filter_append, Call.isUpdateNonce, hest]
        · rename_i cs estimateResult candidateMessages heq
          rw [heq] at hest
          simp only at hest
          split
          · simp [List.filter_append, Call.isUpdateNonce, hest]
          · rename_i st' hloop
            have := selectMessage.signLoop_calls_filter env w accounts _ _ _ _ st' hloop
            simp only at this ⊢
            rw [this]
            simp [List.filter_append, Call.isUpdateNonce, hest]

theorem work.getNonce_eq (env : Env) (w : work) (ts : TipSet) (applied : NonceMap) (actor : Nat)
    (hact : env.StateGetActor w.addr ts.Key = Except.ok actor) :
    work.getNonce env w ts applied
      = Except.ok ((NonceMap.Get applied w.addr).getD actor, actor) := by
  unfold work.getNonce
  rw [hact]
  cases NonceMap.Get applied w.addr <;> rfl

/-- C2: the nonce on chain computed by `getNonce` is the value of the applied-nonce map for
the address of the worker when it has one and the actor nonce otherwise; the reconciliation
step leaves the address nonce at the larger of the stored nonce and the nonce on chain, never
below the stored one; `selectMessage` writes it to the address repository exactly when it was
raised; and the first message selected in the run receives the reconciled nonce. -/
theorem selectMessage_reconciles (env : Env) (w : work) (applied : NonceMap)
    (addrInfo : Address) (ts : TipSet) (cap : Nat) (sp : Option SharedSpec)
    (accounts : List String) (actor : Nat)
    (hacc : env.GetAccountsOfSigner addrInfo.Addr = Except.ok accounts)
    (hact : env.StateGetActor w.addr ts.Key = Except.ok actor) :
    work.getNonce env w ts applied
        = Except.ok ((NonceMap.Get applied w.addr).getD actor, actor) ∧
      (∀ cs a1, selectMessage.reconcile env addrInfo ((NonceMap.Get applied w.addr).getD actor)
          = (cs, Except.ok a1) →
        a1.Nonce = max addrInfo.Nonce ((NonceMap.Get applied w.addr).getD actor) ∧
          addrInfo.Nonce ≤ a1.Nonce) ∧
      (work.selectMessage env w applied addrInfo ts cap sp).calls.filter Call.isUpdateNonce
        = (if addrInfo.Nonce < (NonceMap.Get applied w.addr).getD actor then
            [Call.UpdateNonce addrInfo.Addr ((NonceMap.Get applied w.addr).getD actor)]
          else []) ∧
      (∀ res, (work.selectMessage env w applied addrInfo ts cap sp).result = Except.ok res →
        (res.SelectMsg = [] →
          res.Address.Nonce = max addrInfo.Nonce ((NonceMap.Get applied w.addr).getD actor)) ∧
        (∀ m rest, res.SelectMsg = m :: rest →
          m.Message.Nonce = max addrInfo.Nonce ((NonceMap.Get applied w.addr).getD actor))) := by
  have hn := work.getNonce_eq env w ts applied actor hact
  refine ⟨hn, ?_, ?_, ?_⟩
  · intro cs a1 h
    obtain ⟨h1, -, -⟩ := selectMessage.reconcile_ok env addrInfo _ cs a1 h
    exact ⟨h1, by rw [h1]; exact le_max_left _ _⟩
  · have hc := selectMessage.reconcile_calls env addrInfo ((NonceMap.Get applied w.addr).getD actor)
    unfold work.selectMessage
    simp only [hacc, hn]
    split
    · rename_i cs e heq
      rw [heq] at hc
      simp only at hc
      rw [hc]
      split <;> simp [List.filter_append, Call.isUpdateNonce]
    · rename_i cs a1 heq
      rw [heq] at hc
      simp only at hc
      split
      · rw [hc]
        split <;> simp [List.filter_append, Call.isUpdateNonce]
      · rw [selectMessage.select_calls_filter, hc]
        split <;> simp [List.filter_append, Call.isUpdateNonce]
  · intro res hres
    rcases work.selectMessage_ok env w applied addrInfo ts cap sp _ actor res hn hres with
      ⟨h1, -, h3⟩ | ⟨-, accounts', cands, ests, cs, st', hloop, h1, -, h3⟩
    · exact ⟨fun _ => h3, fun m rest h => by rw [h1] at h; cases h⟩
    · obtain ⟨new, hnew, hnonce, -, hshape⟩ :=
        selectMessage.signLoop_selected env w accounts' _ cands ests _ st' hloop
      simp only [List.nil_append] at hnew
      rw [← hnew, ← h1] at hnonce hshape
      dsimp only at hnonce hshape
      constructor
      · intro hnil
        rw [h3, hnonce, hnil]
        rfl
      · intro m rest hm
        obtain ⟨c, r, em, sig, -, -, -, hm'⟩ := hshape 0 m (by rw [hm]; simp)
        rw [hm']
        rfl

/-- The run with the stored nonce 10 and the actor nonce 15: the nonce is raised to 15,
written once, and the first selected message receives 15. -/
theorem selectMessage_reconciles_witness :
    envDemo.GetAccountsOfSigner addrDemo.Addr = Except.ok ["acc"] ∧
    envDemo.StateGetActor wDemo.addr 0 = Except.ok 15 ∧
    work.getNonce envDemo wDemo {} NewNonceMap = Except.ok (15, 15) ∧
    (work.selectMessage envDemo wDemo NewNonceMap addrDemo {} 3 (some {})).calls.filter
        Call.isUpdateNonce = [Call.UpdateNonce "f1a" 15] ∧
    ((work.selectMessage envDemo wDemo NewNonceMap addrDemo {} 3 (some {})).resultD.SelectMsg.head?.map
        (fun m => m.Message.Nonce)) = some 15 :=
  have h := selectMessage_reconciles envDemo wDemo NewNonceMap addrDemo {} 3 (some {}) ["acc"] 15
    rfl rfl
  ⟨rfl, rfl, h.1, h.2.2.1, by decide⟩

/-! ## The exhausted budget -/

theorem selectMessage.reconcile_eq (env : Env) (addrInfo : Address) (chain : Nat)
    (hupd : addrInfo.Nonce < chain → env.UpdateNonce addrInfo.Addr chain = none) :
    selectMessage.reconcile env addrInfo chain =
      ((if addrInfo.Nonce < chain then [Call.UpdateNonce addrInfo.Addr chain] else []),
       Except.ok (if addrInfo.Nonce < chain then
          { addrInfo with Nonce := chain, UpdatedAt := env.Now } else addrInfo)) := by
  unfold selectMessage.reconcile
  by_cases h : addrInfo.Nonce < chain
  · have h' : chain > addrInfo.Nonce := h
    simp only [if_pos h, if_pos h', hupd h]
  · have h' : ¬ chain > addrInfo.Nonce := h
    simp only [if_neg h, if_neg h']

theorem addrSelectMsgNum.foldl_zero (k : AddrKey) (l : List Address) :
    ∀ m : NumMap, (∀ a ∈ l, a.Addr = k → a.SelMsgNum = 0) → (m k).getD 0 = 0 →
      ((l.foldl (addrSelectMsgNum.step 0) m) k).getD 0 = 0 := by
  induction l with
  | nil => intro m _ h; exact h
  | cons a l ih =>
    intro m hall hm
    rw [List.foldl_cons]
    apply ih _ (fun b hb => hall b (List.mem_cons_of_mem _ hb))
    by_cases hk : a.Addr = k
    · have h0 := hall a (List.mem_cons_self _ _) hk
      unfold addrSelectMsgNum.step
      rw [hk]
      cases hmk : m k with
      | none => simp [h0, NumMap.set]
      | some num => rw [hmk] at hm; simp [h0, hmk, hm]
    · have hk' : k ≠ a.Addr := fun h => hk h.symm
      have hstep : ∀ v, NumMap.set m a.Addr v k = m k := fun v => NumMap.set_other _ _ _ _ hk'
      unfold addrSelectMsgNum.step
      cases hma : m a.Addr with
      | none =>
        simp only
        split <;> (rw [hstep]; exact hm)
      | some num =>
        simp only
        split
        · rw [hstep]; exact hm
        · exact hm

/-- C4: when the calls of the reconciliation succeed and the re-push set is `repush`, and
`Address.Nonce - nonce_on_chain >= cap` after reconciliation (in particular when the cap is
the one `addrSelectMsgNum` computes from a shared default 0 and an address override 0),
`selectMessage` returns the re-push set with empty `SelectMsg` and `ErrMsg` and the address
as reconciled, and calls neither the listing of unfilled messages, nor the estimator, nor the
wallet. -/
theorem selectMessage_no_budget (env : Env) (w : work) (applied : NonceMap)
    (addrInfo : Address) (ts : TipSet) (cap : Nat) (sp : Option SharedSpec)
    (accounts : List String) (chain actor : Nat) (repush : List SignedMessage)
    (hacc : env.GetAccountsOfSigner addrInfo.Addr = Except.ok accounts)
    (hn : work.getNonce env w ts applied = Except.ok (chain, actor))
    (hupd : addrInfo.Nonce < chain → env.UpdateNonce addrInfo.Addr chain = none)
    (hfilled : work.getFilledMessage env w chain = Except.ok repush)
    (hcap : cap ≤ subU64 (max addrInfo.Nonce chain) chain ∨
      ∃ addrList : List Address, (∀ a ∈ addrList, a.Addr = w.addr → a.SelMsgNum = 0) ∧
        cap = (addrSelectMsgNum addrList 0 w.addr).getD 0) :
    (work.selectMessage env w applied addrInfo ts cap sp).result =
        Except.ok
          { Address := (if addrInfo.Nonce < chain then
              { addrInfo with Nonce := chain, UpdatedAt := env.Now } else addrInfo)
            SelectMsg := []
            ToPushMsg := repush
            ErrMsg := [] } ∧
      (if addrInfo.Nonce < chain then
          ({ addrInfo with Nonce := chain, UpdatedAt := env.Now } : Address) else addrInfo).Nonce
        = max addrInfo.Nonce chain ∧
      (work.selectMessage env w applied addrInfo ts cap sp).calls =
        [Call.GetAccountsOfSigner addrInfo.Addr, Call.StateGetActor w.addr ts.Key] ++
          (if addrInfo.Nonce < chain then [Call.UpdateNonce addrInfo.Addr chain] else []) ++
          [Call.ListFilledMessageByAddress w.addr] := by
  have hnonce : (if addrInfo.Nonce < chain then
      ({ addrInfo with Nonce := chain, UpdatedAt := env.Now } : Address) else addrInfo).Nonce
        = max addrInfo.Nonce chain := by
    by_cases h : addrInfo.Nonce < chain
    · rw [if_pos h]; simp only; omega
    · rw [if_neg h]; omega
  have hgap : subU64 (max addrInfo.Nonce chain) chain ≥ cap := by
    rcases hcap with h | ⟨addrList, hall, hcap⟩
    · exact h
    · have := addrSelectMsgNum.foldl_zero w.addr addrList NumMap.empty hall rfl
      unfold addrSelectMsgNum at hcap
      rw [hcap, this]
      exact Nat.zero_le _
  rw [← hnonce] at hgap
  refine ⟨?_, hnonce, ?_⟩
  · unfold work.selectMessage
    simp only [hacc, hn, selectMessage.reconcile_eq env addrInfo chain hupd, hfilled]
    unfold selectMessage.select
    simp only [if_pos hgap]
  · unfold work.selectMessage
    simp only [hacc, hn, selectMessage.reconcile_eq env addrInfo chain hupd, hfilled]
    unfold selectMessage.select
    simp only [if_pos hgap, List.cons_append, List.nil_append, List.append_assoc]

/-- The run with the stored nonce 10, the chain nonce 15 and the cap 0 computed from a shared
default 0 and an address without override. -/
theorem selectMessage_no_budget_witness :
    envDemo.GetAccountsOfSigner addrDemo.Addr = Except.ok ["acc"] ∧
    work.getNonce envDemo wDemo {} NewNonceMap = Except.ok (15, 15) ∧
    work.getFilledMessage envDemo wDemo 15 = Except.ok
      [{ Message := { From := "f1a", Nonce := 15 }, Signature := {} },
       { Message := { From := "f1a", Nonce := 16 }, Signature := {} }] ∧
    (work.selectMessage envDemo wDemo NewNonceMap addrDemo {}
        ((addrSelectMsgNum [addrDemo] 0 wDemo.addr).getD 0) (some {})).calls =
      [Call.GetAccountsOfSigner "f1a", Call.StateGetActor "f1a" 0, Call.UpdateNonce "f1a" 15,
        Call.ListFilledMessageByAddress "f1a"] :=
  ⟨rfl, rfl, rfl,
    (selectMessage_no_budget envDemo wDemo NewNonceMap addrDemo {}
      ((addrSelectMsgNum [addrDemo] 0 wDemo.addr).getD 0) (some {}) ["acc"] 15 15
      [{ Message := { From := "f1a", Nonce := 15 }, Signature := {} },
       { Message := { From := "f1a", Nonce := 16 }, Signature := {} }]
      rfl rfl (fun _ => rfl) rfl
      (Or.inr ⟨[addrDemo], by decide, rfl⟩)).2.2⟩

/-! ## The signing loop: composition, frame and memory -/

/-- The loop over `pre ++ post` is the loop over `pre` followed, unless it was left by
`break`, by the loop over `post`. -/
theorem selectMessage.signLoop_append (env : Env) (w : work) (accounts : List String)
    (wantCount : Nat) (post : List Message) (rpost : List EstimateResult) :
    ∀ (pre : List Message) (rpre : List EstimateResult) (st : SignState),
      pre.length = rpre.length → st.broke = false →
      selectMessage.signLoop env w accounts wantCount (pre ++ post) (rpre ++ rpost) st =
        match selectMessage.signLoop env w accounts wantCount pre rpre st with
        | Except.ok st1 =>
          if st1.broke then Except.ok st1
          else selectMessage.signLoop env w accounts wantCount post rpost st1
        | Except.error f => Except.error f := by
  intro pre
  induction pre with
  | nil =>
    intro rpre st hlen hb
    cases rpre with
    | nil =>
      rw [List.nil_append, List.nil_append]
      simp only [selectMessage.signLoop, hb]
      rfl
    | cons r rpre => simp at hlen
  | cons msg pre ih =>
    intro rpre st hlen hb
    cases rpre with
    | nil => simp at hlen
    | cons r rpre =>
      have hlen' : pre.length = rpre.length := by simpa using hlen
      rw [List.cons_append, List.cons_append, selectMessage.signLoop_cons,
        selectMessage.signLoop_cons]
      by_cases he : r.Err.length ≠ 0
      · rw [if_pos he, if_pos he]
        exact ih rpre _ hlen' hb
      · rw [if_neg he, if_neg he]
        by_cases hc : st.count ≥ wantCount
        · rw [if_pos hc, if_pos hc]
          rfl
        · rw [if_neg hc, if_neg hc]
          cases hm : r.Msg with
          | none => rfl
          | some em =>
            simp only
            cases hs : work.signMessage env w (selectMessage.assign msg st.Nonce em) accounts with
            | mk cs res =>
              cases res with
              | error err =>
                simp only
                by_cases hi : GoError.Is err errSingMessage = true
                · rw [if_pos hi, if_pos hi]
                  rfl
                · rw [if_neg hi, if_neg hi]
                  exact ih rpre _ hlen' hb
              | ok sig =>
                simp only
                exact ih rpre _ hlen' hb

/-- The selection made by the loop depends on the state only through `addrInfo.Nonce`,
`count` and `selectMsg`. -/
theorem selectMessage.signLoop_frame (env : Env) (w : work) (accounts : List String)
    (wantCount : Nat) :
    ∀ cands ests st st',
      selectMessage.signLoop env w accounts wantCount cands ests st = Except.ok st' →
      ∀ st2, st.sameSelection st2 →
        ∃ st2', selectMessage.signLoop env w accounts wantCount cands ests st2 = Except.ok st2' ∧
          st'.sameSelection st2' := by
  apply selectMessage.signLoop_induction
  · intro ests st st2 h
    exact ⟨st2, by rw [selectMessage.signLoop], h⟩
  · intro msg rest r results st st' he _ ih st2 h
    rw [selectMessage.signLoop_cons, if_pos he]
    exact ih _ h
  · intro msg rest r results st he hc st2 h
    have he' : ¬ r.Err.length ≠ 0 := by omega
    have hc' : st2.count ≥ wantCount := by rw [← h.2.1]; exact hc
    rw [selectMessage.signLoop_cons, if_neg he', if_pos hc']
    exact ⟨_, rfl, h⟩
  · intro msg rest r results st em cs err he hc hm hs hi st2 h
    have he' : ¬ r.Err.length ≠ 0 := by omega
    have hc' : ¬ st2.count ≥ wantCount := by rw [← h.2.1]; omega
    rw [selectMessage.signLoop_cons, if_neg he', if_neg hc', hm]
    simp only
    rw [← h.1, hs]
    simp only
    rw [if_pos hi]
    exact ⟨_, rfl, h⟩
  · intro msg rest r results st em cs err st' he hc hm hs hi _ ih st2 h
    have he' : ¬ r.Err.length ≠ 0 := by omega
    have hc' : ¬ st2.count ≥ wantCount := by rw [← h.2.1]; omega
    have hi' : ¬ GoError.Is err errSingMessage = true := by simp [hi]
    rw [selectMessage.signLoop_cons, if_neg he', if_neg hc', hm]
    simp only
    rw [← h.1, hs]
    simp only
    rw [if_neg hi']
    exact ih _ h
  · intro msg rest r results st em cs sig st' he hc hm hs _ ih st2 h
    have he' : ¬ r.Err.length ≠ 0 := by omega
    have hc' : ¬ st2.count ≥ wantCount := by rw [← h.2.1]; omega
    rw [selectMessage.signLoop_cons, if_neg he', if_neg hc', hm]
    simp only
    rw [← h.1, hs]
    simp only
    apply ih
    exact ⟨by simp only [SignState.afterSelect, h.1], by simp only [SignState.afterSelect, h.2.1],
      by simp only [SignState.afterSelect, h.2.2]⟩

/-- The loop only appends to `errMsg` and to the candidates reached. -/
theorem selectMessage.signLoop_mono (env : Env) (w : work) (accounts : List String)
    (wantCount : Nat) :
    ∀ cands ests st st',
      selectMessage.signLoop env w accounts wantCount cands ests st = Except.ok st' →
      ∃ errs vis, st'.errMsg = st.errMsg ++ errs ∧ st'.visited = st.visited ++ vis := by
  apply selectMessage.signLoop_induction
  · intro ests st
    exact ⟨[], [], by simp, by simp⟩
  · intro msg rest r results st st' _ _ ih
    obtain ⟨errs, vis, h1, h2⟩ := ih
    exact ⟨{ id := msg.ID, err := gasEstimate ++ r.Err } :: errs, msg :: vis,
      by rw [h1]; simp [SignState.afterEstimateError],
      by rw [h2]; simp [SignState.afterEstimateError]⟩
  · intro msg rest r results st _ _
    exact ⟨[], [msg], by simp [SignState.afterFull], by simp [SignState.afterFull]⟩
  · intro msg rest r results st em cs err _ _ _ _ _
    exact ⟨_, _, rfl, rfl⟩
  · intro msg rest r results st em cs err st' _ _ _ _ _ _ ih
    obtain ⟨errs, vis, h1, h2⟩ := ih
    exact ⟨errs, selectMessage.assign msg st.Nonce em :: vis,
      by rw [h1]; simp [SignState.afterSkip],
      by rw [h2]; simp [SignState.afterSkip]⟩
  · intro msg rest r results st em cs sig st' _ _ _ _ _ ih
    obtain ⟨errs, vis, h1, h2⟩ := ih
    exact ⟨errs, selectMessage.fill (selectMessage.assign msg st.Nonce em) sig :: vis,
      by rw [h1]; simp [SignState.afterSelect],
      by rw [h2]; simp [SignState.afterSelect]⟩

/-- What the loop leaves in memory: a candidate it reached is either one of the messages it
added to `selectMsg`, or has its identifier, state, signature and signed cid unchanged. -/
theorem selectMessage.signLoop_memory (env : Env) (w : work) (accounts : List String)
    (wantCount : Nat) :
    ∀ cands ests st st',
      selectMessage.signLoop env w accounts wantCount cands ests st = Except.ok st' →
      ∃ new vis, st'.selectMsg = st.selectMsg ++ new ∧ st'.visited = st.visited ++ vis ∧
        vis.length ≤ cands.length ∧
        ∀ (j : Nat) (v c : Message), vis[j]? = some v → cands[j]? = some c →
          v ∈ new ∨ (v.ID = c.ID ∧ v.State = c.State ∧ v.Signature = c.Signature ∧
            v.SignedCid = c.SignedCid) := by
  apply selectMessage.signLoop_induction
  · intro ests st
    exact ⟨[], [], by simp, by simp, by simp, by simp⟩
  · intro msg rest r results st st' _ _ ih
    obtain ⟨new, vis, h1, h2, h3, h4⟩ := ih
    refine ⟨new, msg :: vis, h1, by rw [h2]; simp [SignState.afterEstimateError],
      by simp only [List.length_cons]; omega, ?_⟩
    intro j v c hv hc
    cases j with
    | zero =>
      simp only [List.getElem?_cons_zero, Option.some.injEq] at hv hc
      subst hv; subst hc
      exact Or.inr ⟨rfl, rfl, rfl, rfl⟩
    | succ j =>
      rw [List.getElem?_cons_succ] at hv hc
      exact h4 j v c hv hc
  · intro msg rest r results st _ _
    refine ⟨[], [msg], by simp [SignState.afterFull], by simp [SignState.afterFull],
      by simp, ?_⟩
    intro j v c hv hc
    cases j with
    | zero =>
      simp only [List.getElem?_cons_zero, Option.some.injEq] at hv hc
      subst hv; subst hc
      exact Or.inr ⟨rfl, rfl, rfl, rfl⟩
    | succ j => simp at hv
  · intro msg rest r results st em cs err _ _ _ _ _
    refine ⟨[], [selectMessage.assign msg st.Nonce em], by simp [SignState.afterSignError],
      by simp [SignState.afterSignError], by simp, ?_⟩
    intro j v c hv hc
    cases j with
    | zero =>
      simp only [List.getElem?_cons_zero, Option.some.injEq] at hv hc
      subst hv; subst hc
      exact Or.inr ⟨rfl, rfl, rfl, rfl⟩
    | succ j => simp at hv
  · intro msg rest r results st em cs err st' _ _ _ _ _ _ ih
    obtain ⟨new, vis, h1, h2, h3, h4⟩ := ih
    refine ⟨new, selectMessage.assign msg st.Nonce em :: vis, h1,
      by rw [h2]; simp [SignState.afterSkip], by simp only [List.length_cons]; omega, ?_⟩
    intro j v c hv hc
    cases j with
    | zero =>
      simp only [List.getElem?_cons_zero, Option.some.injEq] at hv hc
      subst hv; subst hc
      exact Or.inr ⟨rfl, rfl, rfl, rfl⟩
    | succ j =>
      rw [List.getElem?_cons_succ] at hv hc
      exact h4 j v c hv hc
  · intro msg rest r results st em cs sig st' _ _ _ _ _ ih
    obtain ⟨new, vis, h1, h2, h3, h4⟩ := ih
    refine ⟨selectMessage.fill (selectMessage.assign msg st.Nonce em) sig :: new,
      selectMessage.fill (selectMessage.assign msg st.Nonce em) sig :: vis,
      by rw [h1]; simp [SignState.afterSelect], by rw [h2]; simp [SignState.afterSelect],
      by simp only [List.length_cons]; omega, ?_⟩
    intro j v c hv hc
    cases j with
    | zero =>
      simp only [List.getElem?_cons_zero, Option.some.injEq] at hv
      subst hv
      exact Or.inl (List.mem_cons_self _ _)
    | succ j =>
      rw [List.getElem?_cons_succ] at hv hc
      rcases h4 j v c hv hc with h | h
      · exact Or.inl (List.mem_cons_of_mem _ h)
      · exact Or.inr h

/-! ## Estimation failures -/

/-- C6: in the signing loop, a candidate `c` whose estimation result carries an error changes
nothing of the selection: `selectMsg`, `Address.Nonce` and `count` end as in the run without
it, so every added message stems from another candidate, one estimated successfully, and the
nonce `c` would have taken goes to the next such candidate.  When the loop reaches `c`, it
records `c.ID` with the text `"gas estimate: "` followed by the error of the estimator and
leaves `c` itself as it was (state and nonce included); when the loop is left before, nothing
is recorded. -/
theorem signLoop_estimate_error (env : Env) (w : work) (accounts : List String)
    (wantCount : Nat) (pre : List Message) (rpre : List EstimateResult) (c : Message)
    (r : EstimateResult) (post : List Message) (rpost : List EstimateResult)
    (st st' : SignState)
    (hlen : pre.length = rpre.length) (hst : st.broke = false) (herr : r.Err.length ≠ 0)
    (hrun : selectMessage.signLoop env w accounts wantCount (pre ++ c :: post)
      (rpre ++ r :: rpost) st = Except.ok st') :
    (∃ st'', selectMessage.signLoop env w accounts wantCount (pre ++ post) (rpre ++ rpost) st
        = Except.ok st'' ∧
      st''.selectMsg = st'.selectMsg ∧ st''.Nonce = st'.Nonce ∧ st''.count = st'.count) ∧
    (∃ new : List Message, st'.selectMsg = st.selectMsg ++ new ∧
      ∀ (i : Nat) (m : Message), new[i]? = some m → ∃ c' r' em sig,
        (c', r') ∈ (pre ++ post).zip (rpre ++ rpost) ∧ r'.Err.length = 0 ∧ r'.Msg = some em ∧
        m = selectMessage.fill (selectMessage.assign c' (incU64^[i] st.Nonce) em) sig) ∧
    (∀ st1, selectMessage.signLoop env w accounts wantCount pre rpre st = Except.ok st1 →
      st1.broke = false →
      st'.errMsg[st1.errMsg.length]? = some { id := c.ID, err := "gas estimate: " ++ r.Err } ∧
      st'.visited[st1.visited.length]? = some c) ∧
    (∀ st1, selectMessage.signLoop env w accounts wantCount pre rpre st = Except.ok st1 →
      st1.broke = true → st' = st1) := by
  have hL := selectMessage.signLoop_append env w accounts wantCount (c :: post) (r :: rpost)
    pre rpre st hlen hst
  have hR := selectMessage.signLoop_append env w accounts wantCount post rpost pre rpre st hlen hst
  rw [hL] at hrun
  cases hpre : selectMessage.signLoop env w accounts wantCount pre rpre st with
  | error f => rw [hpre] at hrun; cases hrun
  | ok st1 =>
    rw [hpre] at hrun hR
    simp only at hrun hR
    by_cases hb : st1.broke = true
    · rw [if_pos hb] at hrun hR
      have hst' : st1 = st' := by cases hrun; rfl
      subst hst'
      refine ⟨⟨st1, hR, rfl, rfl, rfl⟩, ?_, ?_, ?_⟩
      · obtain ⟨new, h1, -, -, h4⟩ :=
          selectMessage.signLoop_selected env w accounts wantCount _ _ _ _ hR
        exact ⟨new, h1, h4⟩
      · intro st1' h1 hb'
        cases h1
        rw [hb] at hb'
        cases hb'
      · intro st1' h1 _
        cases h1
        rfl
    · have hb' : st1.broke = false := by simpa using hb
      rw [if_neg hb] at hrun hR
      rw [selectMessage.signLoop_cons, if_pos herr] at hrun
      obtain ⟨st'', hrun2, hs1, hs2, hs3⟩ :=
        selectMessage.signLoop_frame env w accounts wantCount post rpost _ st' hrun st1
          ⟨rfl, rfl, rfl⟩
      have hfull : selectMessage.signLoop env w accounts wantCount (pre ++ post) (rpre ++ rpost) st
          = Except.ok st'' := by rw [hR]; exact hrun2
      refine ⟨⟨st'', hfull, hs3.symm, hs1.symm, hs2.symm⟩, ?_, ?_, ?_⟩
      · obtain ⟨new, h1, -, -, h4⟩ :=
          selectMessage.signLoop_selected env w accounts wantCount _ _ _ _ hfull
        exact ⟨new, by rw [hs3, h1], h4⟩
      · intro st1' h1 _
        cases h1
        obtain ⟨errs, vis, he, hv⟩ :=
          selectMessage.signLoop_mono env w accounts wantCount post rpost _ st' hrun
        constructor
        · rw [he]
          simp only [SignState.afterEstimateError, gasEstimate]
          rw [List.append_assoc, List.getElem?_append_right (Nat.le_refl _)]
          simp
        · rw [hv]
          simp only [SignState.afterEstimateError]
          rw [List.append_assoc, List.getElem?_append_right (Nat.le_refl _)]
          simp
      · intro st1' h1 hb''
        cases h1
        rw [hb'] at hb''
        cases hb''

/-- The loop over the three unfilled messages of `envDemo`, the second of which is rejected
by the estimator: the first and the third are selected with the nonces 15 and 16. -/
theorem signLoop_estimate_error_witness :
    ∃ st'', selectMessage.signLoop envDemo wDemo ["acc"] 3 ([candDemo1] ++ [candDemo3])
        ([estDemoOk] ++ [estDemoOk]) { Nonce := 15 } = Except.ok st'' ∧
      st''.selectMsg = (signLoopD (selectMessage.signLoop envDemo wDemo ["acc"] 3
        ([candDemo1] ++ candDemo2 :: [candDemo3]) ([estDemoOk] ++ estDemoErr :: [estDemoOk])
        { Nonce := 15 }) { Nonce := 0 }).selectMsg ∧
      st''.Nonce = 17 ∧ st''.count = 2 :=
  (signLoop_estimate_error envDemo wDemo ["acc"] 3 [candDemo1] [estDemoOk] candDemo2 estDemoErr
    [candDemo3] [estDemoOk] { Nonce := 15 }
    (signLoopD (selectMessage.signLoop envDemo wDemo ["acc"] 3
      ([candDemo1] ++ candDemo2 :: [candDemo3]) ([estDemoOk] ++ estDemoErr :: [estDemoOk])
      { Nonce := 15 }) { Nonce := 0 })
    rfl rfl (by decide) rfl).1

/-! ## Signing failures -/

theorem GoError.Is_wrap_sentinel (t : String) :
    GoError.Is (GoError.wrap t errSingMessage) errSingMessage = true := by
  simp [GoError.Is, errSingMessage]

theorem work.signMessage_wallet_error (env : Env) (w : work) (msg : Message)
    (accounts : List String) (data : List Nat) (cause : GoError)
    (hser : env.ToStorageBlock msg.Message = Except.ok data)
    (hwallet : env.WalletSign w.addr accounts msg.Message.Cid data = Except.error cause) :
    work.signMessage env w msg accounts =
      ([Call.WalletSign w.addr accounts msg.Message],
        Except.error (GoError.wrap (cause.Error ++ " " ++ errSingMessage.Error) errSingMessage)) := by
  unfold work.signMessage
  rw [hser]
  simp only
  rw [hwallet]

/-- What the signing loop does when the wallet fails for the candidate `c`, reached in the
state `st1` with budget left: the loop is left at once, `selectMsg` and `Address.Nonce` stay
as they were on arrival, `c` keeps its state, and the text recorded under `c.ID` is the fixed
text of `errSingMessage`, whatever the error `cause` of the wallet was. -/
theorem selectMessage.signLoop_wallet_failure (env : Env) (w : work) (accounts : List String)
    (wantCount : Nat) (pre : List Message) (rpre : List EstimateResult) (c : Message)
    (r : EstimateResult) (post : List Message) (rpost : List EstimateResult)
    (st st1 : SignState) (em : ChainMessage) (data : List Nat) (cause : GoError)
    (hlen : pre.length = rpre.length) (hst : st.broke = false)
    (hpre : selectMessage.signLoop env w accounts wantCount pre rpre st = Except.ok st1)
    (hreach : st1.broke = false) (hcount : st1.count < wantCount)
    (hest : r.Err.length = 0) (hem : r.Msg = some em)
    (hser : env.ToStorageBlock (selectMessage.assign c st1.Nonce em).Message = Except.ok data)
    (hwallet : env.WalletSign w.addr accounts (selectMessage.assign c st1.Nonce em).Message.Cid data
      = Except.error cause) :
    ∃ st', selectMessage.signLoop env w accounts wantCount (pre ++ c :: post)
        (rpre ++ r :: rpost) st = Except.ok st' ∧
      st'.broke = true ∧ st'.selectMsg = st1.selectMsg ∧ st'.Nonce = st1.Nonce ∧
      st'.errMsg = st1.errMsg ++ [{ id := c.ID, err := "sign msg: sign message faield" }] ∧
      st'.visited = st1.visited ++ [selectMessage.assign c st1.Nonce em] ∧
      (selectMessage.assign c st1.Nonce em).State = c.State := by
  have hs := work.signMessage_wallet_error env w _ accounts data cause hser hwallet
  have he' : ¬ r.Err.length ≠ 0 := by omega
  have hc' : ¬ st1.count ≥ wantCount := by omega
  refine ⟨st1.afterSignError c (selectMessage.assign c st1.Nonce em)
    [Call.WalletSign w.addr accounts (selectMessage.assign c st1.Nonce em).Message]
    (GoError.wrap (cause.Error ++ " " ++ errSingMessage.Error) errSingMessage),
    ?_, rfl, rfl, rfl, rfl, rfl, rfl⟩
  rw [selectMessage.signLoop_append env w accounts wantCount (c :: post) (r :: rpost) pre rpre st
    hlen hst, hpre]
  simp only
  rw [if_neg (by rw [hreach]; decide), selectMessage.signLoop_cons, if_neg he', if_neg hc', hem]
  simp only
  rw [hs]
  simp only
  rw [if_pos (GoError.Is_wrap_sentinel _)]

/-- C7, the failing run: the wallet answers `wallet is locked` for the third candidate.  The
loop stops there with the first candidate selected at nonce 15 and `Address.Nonce` 16, but the
text recorded for the third candidate is `sign msg: sign message faield`: the cause is
lost. -/
theorem selectMessage_sign_error_text :
    ((work.selectMessage envWalletFail wDemo NewNonceMap addrDemo {} 3 (some {})).result.toOption.map
      (fun res => (res.SelectMsg.map (fun m => (m.ID, m.Message.Nonce)), res.ErrMsg,
        res.Address.Nonce)))
      = some ([("m1", 15)],
          [{ id := "m2", err := "gas estimate: invalid gas limit" },
           { id := "m3", err := "sign msg: sign message faield" }], 16) := by
  decide

/-! ## Filled messages -/

/-- A result of the budget-and-selection part is either without any candidate, or is read
off a run of the signing loop over the candidates and estimation results that
`estimateMessage` returned. -/
theorem selectMessage.select_run (env : Env) (w : work) (accounts : List String)
    (a1 : Address) (chain : Nat) (repush : List SignedMessage) (ts : TipSet) (cap : Nat)
    (sp : Option SharedSpec) (calls : List Call) (res : MsgSelectResult)
    (h : (selectMessage.select env w accounts a1 chain repush ts cap sp calls).result
      = Except.ok res) :
    (res.SelectMsg = [] ∧
      (selectMessage.select env w accounts a1 chain repush ts cap sp calls).candidates = []) ∨
    (∃ messages cs0 cands ests want cs st',
      work.estimateMessage env ts messages sp a1 = (cs0, Except.ok (ests, cands)) ∧
      selectMessage.signLoop env w accounts want cands ests { Nonce := a1.Nonce, calls := cs }
        = Except.ok st' ∧
      res.SelectMsg = st'.selectMsg ∧
      (selectMessage.select env w accounts a1 chain repush ts cap sp calls).candidates
        = st'.visited ++ cands.drop st'.visited.length) := by
  unfold selectMessage.select at h ⊢
  by_cases hgap : subU64 a1.Nonce chain ≥ cap
  · simp only [if_pos hgap] at h ⊢
    cases h
    exact Or.inl ⟨rfl, trivial⟩
  · simp only [if_neg hgap] at h ⊢
    split at h
    · cases h
    · rename_i messages hlist
      by_cases hlen : messages.length = 0
      · simp only [if_pos hlen] at h ⊢
        cases h
        exact Or.inl ⟨rfl, trivial⟩
      · simp only [if_neg hlen] at h ⊢
        split at h
        · cases h
        · rename_i cs0 estimateResult candidateMessages hest
          split at h
          · cases h
          · rename_i st' hloop
            cases h
            exact Or.inr ⟨messages, cs0, candidateMessages, estimateResult, _, _, st', hest, hloop,
              rfl, rfl⟩

/-- The run-level form of `select_run`. -/
theorem work.selectMessage_run (env : Env) (w : work) (applied : NonceMap) (addrInfo : Address)
    (ts : TipSet) (cap : Nat) (sp : Option SharedSpec) (res : MsgSelectResult)
    (h : (work.selectMessage env w applied addrInfo ts cap sp).result = Except.ok res) :
    (res.SelectMsg = [] ∧ (work.selectMessage env w applied addrInfo ts cap sp).candidates = []) ∨
    (∃ a1 accounts messages cs0 cands ests want cs st',
      work.estimateMessage env ts messages sp a1 = (cs0, Except.ok (ests, cands)) ∧
      selectMessage.signLoop env w accounts want cands ests { Nonce := a1.Nonce, calls := cs }
        = Except.ok st' ∧
      res.SelectMsg = st'.selectMsg ∧
      (work.selectMessage env w applied addrInfo ts cap sp).candidates
        = st'.visited ++ cands.drop st'.visited.length) := by
  unfold work.selectMessage at h ⊢
  simp only at h ⊢
  split at h
  · cases h
  · rename_i accounts hacc
    split at h
    · cases h
    · rename_i chain actor hn
      split at h
      · cases h
      · rename_i cs a1 hrec
        split at h
        · cases h
        · rename_i repush hfilled
          rcases selectMessage.select_run env w accounts a1 chain repush ts cap sp _ res h with
            h1 | ⟨messages, cs0, cands, ests, want, cs', st', h1, h2, h3, h4⟩
          · exact Or.inl h1
          · exact Or.inr ⟨a1, accounts, messages, cs0, cands, ests, want, cs', st', h1, h2, h3, h4⟩

/-- C8: every message of the `SelectMsg` returned by `selectMessage` has the state `FillMsg`,
a signature, the unsigned cid of its content and the signed cid of its content with that
signature, and its gas limit, fee cap and premium are those of the estimation result of the
candidate it stems from; every candidate of the run, as `selectMessage` leaves it in memory,
is either one of these messages or has its state, signature and signed cid unchanged. -/
theorem selectMessage_fills (env : Env) (w : work) (applied : NonceMap) (addrInfo : Address)
    (ts : TipSet) (cap : Nat) (sp : Option SharedSpec) (res : MsgSelectResult)
    (hres : (work.selectMessage env w applied addrInfo ts cap sp).result = Except.ok res) :
    (∀ m ∈ res.SelectMsg, m.State = MessageState.FillMsg ∧
      m.UnsignedCid = some m.Message.Cid ∧
      ∃ sig, m.Signature = some sig ∧
        m.SignedCid = some (SignedMessage.Cid { Message := m.Message, Signature := sig })) ∧
    ((res.SelectMsg = [] ∧ (work.selectMessage env w applied addrInfo ts cap sp).candidates = []) ∨
     ∃ a1 messages cs0 cands ests,
      work.estimateMessage env ts messages sp a1 = (cs0, Except.ok (ests, cands)) ∧
      (∀ m ∈ res.SelectMsg, ∃ c r em, (c, r) ∈ cands.zip ests ∧ r.Err.length = 0 ∧
        r.Msg = some em ∧ m.ID = c.ID ∧ m.Message.GasLimit = em.GasLimit ∧
        m.Message.GasFeeCap = em.GasFeeCap ∧ m.Message.GasPremium = em.GasPremium) ∧
      (work.selectMessage env w applied addrInfo ts cap sp).candidates.length = cands.length ∧
      (∀ (j : Nat) (v c : Message),
        (work.selectMessage env w applied addrInfo ts cap sp).candidates[j]? = some v →
        cands[j]? = some c →
        v ∈ res.SelectMsg ∨ (v.ID = c.ID ∧ v.State = c.State ∧ v.Signature = c.Signature ∧
          v.SignedCid = c.SignedCid))) := by
  rcases work.selectMessage_run env w applied addrInfo ts cap sp res hres with
    ⟨h1, h2⟩ | ⟨a1, accounts, messages, cs0, cands, ests, want, cs, st', hest, hloop, hsel, hcand⟩
  · refine ⟨?_, Or.inl ⟨h1, h2⟩⟩
    intro m hm
    rw [h1] at hm
    cases hm
  · obtain ⟨new, hnew, -, -, hshape⟩ :=
      selectMessage.signLoop_selected env w accounts want cands ests _ st' hloop
    obtain ⟨new', vis, hnew', hvis, hvlen, hmem⟩ :=
      selectMessage.signLoop_memory env w accounts want cands ests _ st' hloop
    simp only [List.nil_append] at hnew hnew' hvis
    have hnn : new' = new := by rw [← hnew, ← hnew']
    subst hnn
    rw [← hsel] at hnew
    subst hnew
    have hstem : ∀ m ∈ res.SelectMsg, ∃ c r em sig n, (c, r) ∈ cands.zip ests ∧
        r.Err.length = 0 ∧ r.Msg = some em ∧
        m = selectMessage.fill (selectMessage.assign c n em) sig := by
      intro m hm
      obtain ⟨i, hi, hget⟩ := List.getElem_of_mem hm
      obtain ⟨c, r, em, sig, h1, h2, h3, h4⟩ :=
        hshape i m (by rw [List.getElem?_eq_getElem hi, hget])
      exact ⟨c, r, em, sig, _, h1, h2, h3, h4⟩
    refine ⟨?_, Or.inr ⟨a1, messages, cs0, cands, ests, hest, ?_, ?_, ?_⟩⟩
    · intro m hm
      obtain ⟨c, r, em, sig, n, -, -, -, h4⟩ := hstem m hm
      subst h4
      exact ⟨rfl, rfl, sig, rfl, rfl⟩
    · intro m hm
      obtain ⟨c, r, em, sig, n, h1, h2, h3, h4⟩ := hstem m hm
      subst h4
      exact ⟨c, r, em, h1, h2, h3, rfl, rfl, rfl, rfl⟩
    · rw [hcand, hvis, List.length_append, List.length_drop]
      omega
    · intro j v c hv hc
      rw [hcand, hvis] at hv
      rcases Nat.lt_or_ge j vis.length with hj | hj
      · rw [List.getElem?_append_left hj] at hv
        exact hmem j v c hv hc
      · rw [List.getElem?_append_right hj, List.getElem?_drop] at hv
        have hidx : vis.length + (j - vis.length) = j := by omega
        rw [hidx, hc] at hv
        cases hv
        exact Or.inr ⟨rfl, rfl, rfl, rfl⟩

/-- The run of `envDemo` with the stored nonce 10 and the cap 3: the first and the third
candidate are filled, the second is left as it was. -/
theorem selectMessage_fills_witness :
    (work.selectMessage envDemo wDemo NewNonceMap addrDemo {} 3 (some {})).result
      = Except.ok (work.selectMessage envDemo wDemo NewNonceMap addrDemo {} 3 (some {})).resultD ∧
    (work.selectMessage envDemo wDemo NewNonceMap addrDemo {} 3 (some {})).resultD.SelectMsg.map
      (fun m => (m.ID, m.State, m.Message.GasLimit))
      = [("m1", MessageState.FillMsg, 1000), ("m3", MessageState.FillMsg, 1000)] ∧
    (work.selectMessage envDemo wDemo NewNonceMap addrDemo {} 3 (some {})).candidates.map
      (fun m => (m.ID, m.State))
      = [("m1", MessageState.FillMsg), ("m2", MessageState.UnFillMsg),
         ("m3", MessageState.FillMsg)] ∧
    ∀ m ∈ (work.selectMessage envDemo wDemo NewNonceMap addrDemo {} 3 (some {})).resultD.SelectMsg,
      m.State = MessageState.FillMsg ∧ m.UnsignedCid = some m.Message.Cid ∧
      ∃ sig, m.Signature = some sig ∧
        m.SignedCid = some (SignedMessage.Cid { Message := m.Message, Signature := sig }) :=
  ⟨rfl, by decide, by decide,
    (selectMessage_fills envDemo wDemo NewNonceMap addrDemo {} 3 (some {})
      (work.selectMessage envDemo wDemo NewNonceMap addrDemo {} 3 (some {})).resultD rfl).1⟩

/-! ## Concrete runs of the re-push set and of the applied nonces -/

/-- The filled messages of `envDemo` against the chain nonce 15: the messages with the nonces
15 and 16 are returned, the one with nonce 14 is not. -/
theorem getFilledMessage_spec_witness :
    envDemo.ListFilledMessageByAddress wDemo.addr = Except.ok filledDemo ∧
    (∀ m ∈ filledDemo, 15 ≤ m.Message.Nonce → m.Signature ≠ none) ∧
    ∃ out, work.getFilledMessage envDemo wDemo 15 = Except.ok out ∧
      out.map (fun s => (s.Message, some s.Signature))
        = (filledDemo.filter (fun m => 15 ≤ m.Message.Nonce)).map
            (fun m => (m.Message, m.Signature)) ∧
      (∀ s ∈ out, 15 ≤ s.Message.Nonce) :=
  ⟨rfl, by decide, getFilledMessage_spec envDemo wDemo 15 filledDemo rfl (by decide)⟩

/-- C9, as stated, fails at the top of the nonce range: for a single message with the nonce
`2^64 - 1` the entry of its sender is 0, not `2^64`. -/
theorem getNonceInTipset_wraps :
    (getNonceInTipset (Except.ok [{ From := "f1a", Nonce := 18446744073709551615 }])).toOption.map
      (fun applied => applied "f1a") = some (some 0) := by
  decide

/-- A tipset with the messages of two senders: `f1a` with the nonces 3, 4 and then 9, `f1b`
with the nonce 7. -/
theorem getNonceInTipset_spec_witness :
    ∃ applied : NonceMap,
      getNonceInTipset (Except.ok
        [{ From := "f1a", Nonce := 3 }, { From := "f1b", Nonce := 7 }, { From := "f1a", Nonce := 4 },
         { From := "f1a", Nonce := 9 }]) = Except.ok applied ∧
      applied "f1a" = some 5 ∧ applied "f1b" = some 8 ∧ applied "f1c" = none :=
  match getNonceInTipset_spec
      [{ From := "f1a", Nonce := 3 }, { From := "f1b", Nonce := 7 }, { From := "f1a", Nonce := 4 },
       { From := "f1a", Nonce := 9 }] with
  | ⟨applied, h1, _, h3, _⟩ =>
    ⟨applied, h1, by rw [h3]; decide, by rw [h3]; decide, by rw [h3]; decide⟩

/-! ## Gas policy: proofs -/

/-- The function `mergeMsgSpec` is the sequence of its five blocks. -/
theorem mergeMsgSpec_blocks (globalSpec : Option SharedSpec) (sendSpec : SendSpec)
    (addrInfo : Address) (msg : Message) :
    mergeMsgSpec globalSpec sendSpec addrInfo msg =
      match mergeMsgSpec.overPremium globalSpec sendSpec addrInfo
          (mergeMsgSpec.gasFeeCap globalSpec addrInfo msg
            (mergeMsgSpec.maxFee globalSpec sendSpec addrInfo
              (mergeMsgSpec.overEstimation globalSpec sendSpec addrInfo
                { GasOverEstimation := sendSpec.GasOverEstimation
                  GasOverPremium := sendSpec.GasOverPremium
                  MaxFee := sendSpec.MaxFee }))) with
      | Except.error f => Except.error f
      | Except.ok m => mergeMsgSpec.baseFee globalSpec addrInfo m := by
  rfl

theorem mergeMsgSpec.overEstimation_eq (globalSpec : Option SharedSpec) (sendSpec : SendSpec)
    (addrInfo : Address) (m : GasSpec) :
    mergeMsgSpec.overEstimation globalSpec sendSpec addrInfo m =
      { m with
        GasOverEstimation :=
          if sendSpec.GasOverEstimation.isZero then
            if !addrInfo.GasOverEstimation.isZero then addrInfo.GasOverEstimation
            else
              match globalSpec with
              | some g => g.GasOverEstimation
              | none => m.GasOverEstimation
          else m.GasOverEstimation } := by
  unfold mergeMsgSpec.overEstimation
  split_ifs
  · rfl
  · cases globalSpec <;> rfl
  · rfl

theorem mergeMsgSpec.maxFee_eq (globalSpec : Option SharedSpec) (sendSpec : SendSpec)
    (addrInfo : Address) (m : GasSpec) :
    mergeMsgSpec.maxFee globalSpec sendSpec addrInfo m =
      { m with
        MaxFee :=
          if BigInt.NilOrZero sendSpec.MaxFee then
            if !BigInt.NilOrZero addrInfo.MaxFee then addrInfo.MaxFee
            else
              match globalSpec with
              | some g => g.MaxFee
              | none => m.MaxFee
          else m.MaxFee } := by
  unfold mergeMsgSpec.maxFee
  split_ifs
  · rfl
  · cases globalSpec <;> rfl
  · rfl

theorem mergeMsgSpec.gasFeeCap_eq (globalSpec : Option SharedSpec) (addrInfo : Address)
    (msg : Message) (m : GasSpec) :
    mergeMsgSpec.gasFeeCap globalSpec addrInfo msg m =
      { m with
        GasFeeCap :=
          if BigInt.NilOrZero msg.Message.GasFeeCap then
            if !BigInt.NilOrZero addrInfo.GasFeeCap then addrInfo.GasFeeCap
            else
              match globalSpec with
              | some g => g.GasFeeCap
              | none => m.GasFeeCap
          else m.GasFeeCap } := by
  unfold mergeMsgSpec.gasFeeCap
  split_ifs
  · rfl
  · cases globalSpec <;> rfl
  · rfl

theorem mergeMsgSpec.overPremium_ok (globalSpec : Option SharedSpec) (sendSpec : SendSpec)
    (addrInfo : Address) (m m' : GasSpec)
    (h : mergeMsgSpec.overPremium globalSpec sendSpec addrInfo m = Except.ok m') :
    m' = { m with
      GasOverPremium :=
        if sendSpec.GasOverPremium.isZero then
          if !addrInfo.GasOverPremium.isZero then addrInfo.GasOverPremium
          else
            globalSpec.elim m.GasOverPremium
              (fun g => if !g.GasOverPremium.isZero then g.GasOverPremium else m.GasOverPremium)
        else m.GasOverPremium } := by
  unfold mergeMsgSpec.overPremium at h
  by_cases h1 : sendSpec.GasOverPremium.isZero = true
  · by_cases h2 : (!addrInfo.GasOverPremium.isZero) = true
    · rw [if_pos h1, if_pos h2] at h
      cases h
      rw [if_pos h1, if_pos h2]
    · rw [if_pos h1, if_neg h2] at h
      rw [if_pos h1, if_neg h2]
      cases globalSpec with
      | none => cases h
      | some g =>
        simp only [Option.elim] at h ⊢
        by_cases h3 : (!g.GasOverPremium.isZero) = true
        · rw [if_pos h3] at h ⊢
          cases h
          rfl
        · rw [if_neg h3] at h ⊢
          cases h
          rfl
  · rw [if_neg h1] at h
    cases h
    rw [if_neg h1]

theorem mergeMsgSpec.overPremium_some (g : SharedSpec) (sendSpec : SendSpec)
    (addrInfo : Address) (m : GasSpec) :
    ∃ m', mergeMsgSpec.overPremium (some g) sendSpec addrInfo m = Except.ok m' := by
  unfold mergeMsgSpec.overPremium
  simp only
  split_ifs <;> exact ⟨_, rfl⟩

theorem mergeMsgSpec.baseFee_eq (globalSpec : Option SharedSpec) (addrInfo : Address)
    (m : GasSpec) :
    mergeMsgSpec.baseFee globalSpec addrInfo m =
      Except.ok { m with
        BaseFee :=
          if !BigInt.NilOrZero addrInfo.BaseFee then addrInfo.BaseFee
          else
            match globalSpec with
            | some g => g.BaseFee
            | none => m.BaseFee } := by
  unfold mergeMsgSpec.baseFee
  split_ifs
  · rfl
  · cases globalSpec <;> rfl

/-- The fields of a result of `mergeMsgSpec`. -/
theorem mergeMsgSpec_ok (globalSpec : Option SharedSpec) (sendSpec : SendSpec)
    (addrInfo : Address) (msg : Message) (res : GasSpec)
    (h : mergeMsgSpec globalSpec sendSpec addrInfo msg = Except.ok res) :
    res.GasOverEstimation =
        (if sendSpec.GasOverEstimation.isZero then
          if !addrInfo.GasOverEstimation.isZero then addrInfo.GasOverEstimation
          else globalSpec.elim sendSpec.GasOverEstimation (fun g => g.GasOverEstimation)
        else sendSpec.GasOverEstimation) ∧
      res.MaxFee =
        (if BigInt.NilOrZero sendSpec.MaxFee then
          if !BigInt.NilOrZero addrInfo.MaxFee then addrInfo.MaxFee
          else globalSpec.elim sendSpec.MaxFee (fun g => g.MaxFee)
        else sendSpec.MaxFee) ∧
      res.GasFeeCap =
        (if BigInt.NilOrZero msg.Message.GasFeeCap then
          if !BigInt.NilOrZero addrInfo.GasFeeCap then addrInfo.GasFeeCap
          else globalSpec.elim none (fun g => g.GasFeeCap)
        else none) ∧
      res.GasOverPremium =
        (if sendSpec.GasOverPremium.isZero then
          if !addrInfo.GasOverPremium.isZero then addrInfo.GasOverPremium
          else
            globalSpec.elim sendSpec.GasOverPremium
              (fun g =>
                if !g.GasOverPremium.isZero then g.GasOverPremium else sendSpec.GasOverPremium)
        else sendSpec.GasOverPremium) ∧
      res.BaseFee = effectiveBaseFee globalSpec addrInfo := by
  rw [mergeMsgSpec_blocks] at h
  split at h
  · cases h
  · rename_i m4 h4
    have h4' := mergeMsgSpec.overPremium_ok _ _ _ _ _ h4
    rw [mergeMsgSpec.baseFee_eq] at h
    cases h
    rw [h4', mergeMsgSpec.gasFeeCap_eq, mergeMsgSpec.maxFee_eq, mergeMsgSpec.overEstimation_eq]
    unfold effectiveBaseFee
    cases globalSpec <;> exact ⟨rfl, rfl, rfl, rfl, rfl⟩

/-- With a global spec `mergeMsgSpec` returns a result. -/
theorem mergeMsgSpec_some (g : SharedSpec) (sendSpec : SendSpec) (addrInfo : Address)
    (msg : Message) : ∃ res, mergeMsgSpec (some g) sendSpec addrInfo msg = Except.ok res := by
  rw [mergeMsgSpec_blocks]
  obtain ⟨m', h⟩ := mergeMsgSpec.overPremium_some g sendSpec addrInfo
    (mergeMsgSpec.gasFeeCap (some g) addrInfo msg
      (mergeMsgSpec.maxFee (some g) sendSpec addrInfo
        (mergeMsgSpec.overEstimation (some g) sendSpec addrInfo
          { GasOverEstimation := sendSpec.GasOverEstimation
            GasOverPremium := sendSpec.GasOverPremium
            MaxFee := sendSpec.MaxFee })))
  rw [h]
  simp only
  rw [mergeMsgSpec.baseFee_eq]
  exact ⟨_, rfl⟩

/-- C11: with a global spec, for `gas_over_estimation`, `gas_over_premium` and `max_fee`,
`mergeMsgSpec` returns the value of the send spec of the message when it is non-zero,
otherwise the value of the address when that is non-zero, otherwise the global value (for
`gas_over_premium`, when all three are zero the zero returned is that of the send spec, which
is the same float value as the global zero). -/
theorem mergeMsgSpec_precedence (g : SharedSpec) (sendSpec : SendSpec) (addrInfo : Address)
    (msg : Message) :
    ∃ res, mergeMsgSpec (some g) sendSpec addrInfo msg = Except.ok res ∧
      res.GasOverEstimation =
        (if !sendSpec.GasOverEstimation.isZero then sendSpec.GasOverEstimation
         else if !addrInfo.GasOverEstimation.isZero then addrInfo.GasOverEstimation
         else g.GasOverEstimation) ∧
      res.MaxFee =
        (if !BigInt.NilOrZero sendSpec.MaxFee then sendSpec.MaxFee
         else if !BigInt.NilOrZero addrInfo.MaxFee then addrInfo.MaxFee
         else g.MaxFee) ∧
      Float64.sameValue res.GasOverPremium
        (if !sendSpec.GasOverPremium.isZero then sendSpec.GasOverPremium
         else if !addrInfo.GasOverPremium.isZero then addrInfo.GasOverPremium
         else g.GasOverPremium) := by
  obtain ⟨res, hres⟩ := mergeMsgSpec_some g sendSpec addrInfo msg
  obtain ⟨h1, h2, -, h4, -⟩ := mergeMsgSpec_ok _ _ _ _ _ hres
  refine ⟨res, hres, ?_, ?_, ?_⟩
  · rw [h1]
    cases sendSpec.GasOverEstimation.isZero <;> rfl
  · rw [h2]
    cases BigInt.NilOrZero sendSpec.MaxFee <;> rfl
  · rw [h4]
    cases hs : sendSpec.GasOverPremium.isZero with
    | false => exact Or.inl rfl
    | true =>
      cases ha : addrInfo.GasOverPremium.isZero with
      | false => exact Or.inl rfl
      | true =>
        cases hg : g.GasOverPremium.isZero with
        | false => exact Or.inl (by simp [Option.elim, hg])
        | true => exact Or.inr ⟨by simp [Option.elim, hg, hs], by simp [hg]⟩

/-- C12, as stated, fails: for a message with its own fee cap 5, an address with 7 and a
global spec with 9, the `GasSpec` returned by `mergeMsgSpec` carries no fee cap at all. -/
theorem mergeMsgSpec_gasFeeCap_unset :
    (mergeMsgSpec (some { GasFeeCap := some 9 }) {} { GasFeeCap := some 7 }
        { Message := { GasFeeCap := some 5 } }).toOption.map (fun res => res.GasFeeCap)
      = some none := by
  decide

/-! ## The estimation batch: proofs -/

theorem dropsCandidate_eq (globalSpec : Option SharedSpec) (addrInfo : Address) (ts : TipSet) :
    dropsCandidate globalSpec addrInfo ts
      = baseFeeTooHigh ts.ParentBaseFee (effectiveBaseFee globalSpec addrInfo) := by
  unfold dropsCandidate baseFeeTooHigh
  cases effectiveBaseFee globalSpec addrInfo <;> rfl

theorem dropsCandidate_iff (globalSpec : Option SharedSpec) (addrInfo : Address) (ts : TipSet) :
    dropsCandidate globalSpec addrInfo ts = true ↔
      ∃ cap : Int, effectiveBaseFee globalSpec addrInfo = some cap ∧ cap ≠ 0 ∧
        cap < ts.ParentBaseFee := by
  unfold dropsCandidate
  cases effectiveBaseFee globalSpec addrInfo with
  | none => simp
  | some cap => simp

/-- The message kept in memory by one iteration of `estimateMessage` is the prepared one. -/
theorem estimateMessage.prepared_eq (globalSpec : Option SharedSpec) (addrInfo : Address)
    (msg : Message) (res : GasSpec)
    (h : mergeMsgSpec globalSpec msg.Meta addrInfo msg = Except.ok res) :
    (if BigInt.NilOrZero msg.Message.GasFeeCap && !BigInt.NilOrZero res.GasFeeCap then
        ({ msg with Message := { msg.Message with GasFeeCap := res.GasFeeCap } } : Message)
      else msg) = estimateMessage.prepared globalSpec addrInfo msg := by
  obtain ⟨-, -, h3, -, -⟩ := mergeMsgSpec_ok _ _ _ _ _ h
  rw [h3]
  unfold estimateMessage.prepared effectiveGasFeeCap
  cases hm : BigInt.NilOrZero msg.Message.GasFeeCap with
  | false => simp
  | true =>
    cases ha : BigInt.NilOrZero addrInfo.GasFeeCap with
    | false => simp [ha]
    | true =>
      cases globalSpec with
      | none => simp [Option.elim, BigInt.NilOrZero]
      | some g =>
        cases hg : BigInt.NilOrZero g.GasFeeCap with
        | false => simp [Option.elim, hg]
        | true => simp [Option.elim, hg]

/-- The candidates and the batch built by the loop of `estimateMessage`. -/
theorem estimateMessage.loop_ok (globalSpec : Option SharedSpec) (addrInfo : Address)
    (ts : TipSet) :
    ∀ (msgs cands : List Message) (ests : List EstimateMessage),
      estimateMessage.loop globalSpec addrInfo ts msgs = Except.ok (cands, ests) →
      cands = (msgs.filter (fun _ => !dropsCandidate globalSpec addrInfo ts)).map
          (estimateMessage.prepared globalSpec addrInfo) ∧
        ests.map (fun e => e.Msg) = cands.map (fun c => c.Message) := by
  intro msgs
  induction msgs with
  | nil =>
    intro cands ests h
    rw [estimateMessage.loop] at h
    cases h
    exact ⟨rfl, rfl⟩
  | cons msg rest ih =>
    intro cands ests h
    rw [estimateMessage.loop] at h
    cases hm : mergeMsgSpec globalSpec msg.Meta addrInfo msg with
    | error f => rw [hm] at h; cases h
    | ok res =>
      rw [hm] at h
      simp only at h
      have hbase : res.BaseFee = effectiveBaseFee globalSpec addrInfo :=
        (mergeMsgSpec_ok _ _ _ _ _ hm).2.2.2.2
      rw [estimateMessage.prepared_eq globalSpec addrInfo msg res hm, hbase,
        ← dropsCandidate_eq] at h
      cases hd : dropsCandidate globalSpec addrInfo ts with
      | true =>
        rw [hd] at h
        simp only [if_true] at h
        obtain ⟨h1, h2⟩ := ih cands ests h
        rw [hd] at h1
        refine ⟨?_, h2⟩
        rw [h1]
        simp
      | false =>
        rw [hd] at h
        simp only [Bool.false_eq_true, if_false] at h
        cases hr : estimateMessage.loop globalSpec addrInfo ts rest with
        | error f => rw [hr] at h; cases h
        | ok p =>
          obtain ⟨cs, es⟩ := p
          rw [hr] at h
          cases h
          obtain ⟨h1, h2⟩ := ih cs es hr
          rw [hd] at h1
          constructor
          · rw [h1]
            simp
          · simp only [List.map_cons, h2]

/-- C12, amended: the `GasSpec` returned by `mergeMsgSpec` carries a fee cap only for a
message without its own: then that of the address if non-zero, otherwise the global one; for
a message with its own non-zero fee cap the field is left nil.  The narrowest non-zero value
is what `estimateMessage` leaves on the message it hands to the estimator. -/
theorem mergeMsgSpec_gasFeeCap (globalSpec : Option SharedSpec) (sendSpec : SendSpec)
    (addrInfo : Address) (msg : Message) (res : GasSpec)
    (h : mergeMsgSpec globalSpec sendSpec addrInfo msg = Except.ok res) :
    (BigInt.NilOrZero msg.Message.GasFeeCap = false → res.GasFeeCap = none) ∧
    (BigInt.NilOrZero msg.Message.GasFeeCap = true →
      BigInt.NilOrZero addrInfo.GasFeeCap = false → res.GasFeeCap = addrInfo.GasFeeCap) ∧
    (BigInt.NilOrZero msg.Message.GasFeeCap = true →
      BigInt.NilOrZero addrInfo.GasFeeCap = true →
      ∀ g, globalSpec = some g → res.GasFeeCap = g.GasFeeCap) ∧
    (∀ (ts : TipSet) (msgs cands : List Message) (ests : List EstimateMessage),
      estimateMessage.loop globalSpec addrInfo ts msgs = Except.ok (cands, ests) →
      ∀ c ∈ cands, ∃ m ∈ msgs, c.ID = m.ID ∧
        c.Message.GasFeeCap =
          (if !BigInt.NilOrZero m.Message.GasFeeCap then m.Message.GasFeeCap
           else if !BigInt.NilOrZero addrInfo.GasFeeCap then addrInfo.GasFeeCap
           else
             globalSpec.elim m.Message.GasFeeCap
               (fun g =>
                 if !BigInt.NilOrZero g.GasFeeCap then g.GasFeeCap else m.Message.GasFeeCap))) := by
  obtain ⟨-, -, h3, -, -⟩ := mergeMsgSpec_ok _ _ _ _ _ h
  refine ⟨?_, ?_, ?_, ?_⟩
  · intro hm
    rw [h3, hm]
    rfl
  · intro hm ha
    rw [h3, hm, ha]
    rfl
  · intro hm ha g hg
    rw [h3, hm, ha, hg]
    rfl
  · intro ts msgs cands ests hloop c hc
    obtain ⟨h1, -⟩ := estimateMessage.loop_ok globalSpec addrInfo ts msgs cands ests hloop
    rw [h1, List.mem_map] at hc
    obtain ⟨m, hm, rfl⟩ := hc
    rw [List.mem_filter] at hm
    refine ⟨m, hm.1, rfl, ?_⟩
    unfold estimateMessage.prepared effectiveGasFeeCap
    cases globalSpec <;> rfl

/-- A message without fee cap under an address with the fee cap 7 and a global spec with 9:
the `GasSpec` carries 7. -/
theorem mergeMsgSpec_gasFeeCap_witness :
    mergeMsgSpec (some { GasFeeCap := some 9 }) {} { GasFeeCap := some 7 }
        { Message := { GasFeeCap := none } }
      = Except.ok { GasFeeCap := some 7 } ∧
    ((BigInt.NilOrZero (none : BigInt) = true →
      BigInt.NilOrZero (some 7 : BigInt) = false →
      ({ GasFeeCap := some 7 } : GasSpec).GasFeeCap = some 7)) :=
  ⟨rfl, (mergeMsgSpec_gasFeeCap (some { GasFeeCap := some 9 }) {} { GasFeeCap := some 7 }
    { Message := { GasFeeCap := none } } { GasFeeCap := some 7 } rfl).2.1⟩

theorem work.estimateMessage_ok (env : Env) (ts : TipSet) (msgs : List Message)
    (sp : Option SharedSpec) (a1 : Address) (cs : List Call) (ests : List EstimateResult)
    (cands : List Message)
    (h : work.estimateMessage env ts msgs sp a1 = (cs, Except.ok (ests, cands))) :
    ∃ batch, estimateMessage.loop sp a1 ts msgs = Except.ok (cands, batch) ∧
      env.GasBatchEstimateMessageGas batch a1.Nonce ts.Key = Except.ok ests := by
  unfold work.estimateMessage at h
  split at h
  · cases h
  · rename_i candidateMessages batch hloop
    split at h
    · cases h
    · rename_i estimateResult hgas
      cases h
      exact ⟨batch, hloop, hgas⟩

/-- A result of the budget-and-selection part, with the stages it went through. -/
theorem selectMessage.select_stages (env : Env) (w : work) (accounts : List String)
    (a1 : Address) (chain : Nat) (repush : List SignedMessage) (ts : TipSet) (cap : Nat)
    (sp : Option SharedSpec) (calls : List Call) (res : MsgSelectResult)
    (h : (selectMessage.select env w accounts a1 chain repush ts cap sp calls).result
      = Except.ok res) :
    (res.SelectMsg = [] ∧ res.ErrMsg = [] ∧
      (selectMessage.select env w accounts a1 chain repush ts cap sp calls).candidates = []) ∨
    (∃ messages cs0 cands ests want cs st',
      work.estimateMessage env ts messages sp a1 = (cs0, Except.ok (ests, cands)) ∧
      selectMessage.signLoop env w accounts want cands ests { Nonce := a1.Nonce, calls := cs }
        = Except.ok st' ∧
      res.SelectMsg = st'.selectMsg ∧ res.ErrMsg = st'.errMsg ∧
      (selectMessage.select env w accounts a1 chain repush ts cap sp calls).candidates
        = st'.visited ++ cands.drop st'.visited.length) := by
  unfold selectMessage.select at h ⊢
  by_cases hgap : subU64 a1.Nonce chain ≥ cap
  · simp only [if_pos hgap] at h ⊢
    cases h
    exact Or.inl ⟨rfl, rfl, trivial⟩
  · simp only [if_neg hgap] at h ⊢
    split at h
    · cases h
    · rename_i messages hlist
      by_cases hlen : messages.length = 0
      · simp only [if_pos hlen] at h ⊢
        cases h
        exact Or.inl ⟨rfl, rfl, trivial⟩
      · simp only [if_neg hlen] at h ⊢
        split at h
        · cases h
        · rename_i cs0 estimateResult candidateMessages hest
          split at h
          · cases h
          · rename_i st' hloop
            cases h
            exact Or.inr ⟨messages, cs0, candidateMessages, estimateResult, _, _, st', hest, hloop,
              rfl, rfl, rfl⟩

/-- A result of `selectMessage`, with the reconciled address and the stages it went
through. -/
theorem work.selectMessage_stages (env : Env) (w : work) (applied : NonceMap)
    (addrInfo : Address) (ts : TipSet) (cap : Nat) (sp : Option SharedSpec)
    (res : MsgSelectResult)
    (h : (work.selectMessage env w applied addrInfo ts cap sp).result = Except.ok res) :
    ∃ a1 : Address, a1 = { addrInfo with Nonce := a1.Nonce, UpdatedAt := a1.UpdatedAt } ∧
      ((res.SelectMsg = [] ∧ res.ErrMsg = [] ∧
          (work.selectMessage env w applied addrInfo ts cap sp).candidates = []) ∨
       (∃ accounts messages cs0 cands ests want cs st',
          work.estimateMessage env ts messages sp a1 = (cs0, Except.ok (ests, cands)) ∧
          selectMessage.signLoop env w accounts want cands ests
            { Nonce := a1.Nonce, calls := cs } = Except.ok st' ∧
          res.SelectMsg = st'.selectMsg ∧ res.ErrMsg = st'.errMsg ∧
          (work.selectMessage env w applied addrInfo ts cap sp).candidates
            = st'.visited ++ cands.drop st'.visited.length)) := by
  unfold work.selectMessage at h ⊢
  simp only at h ⊢
  split at h
  · cases h
  · rename_i accounts hacc
    split at h
    · cases h
    · rename_i chain actor hn
      split at h
      · cases h
      · rename_i cs a1 hrec
        obtain ⟨hnonce, -, ha1⟩ := selectMessage.reconcile_ok env addrInfo chain cs a1 hrec
        split at h
        · cases h
        · rename_i repush hfilled
          refine ⟨a1, ?_, ?_⟩
          · rw [← hnonce] at ha1
            exact ha1
          · rcases selectMessage.select_stages env w accounts a1 chain repush ts cap sp _ res h with
              h1 | ⟨messages, cs0, cands, ests, want, cs', st', h1, h2, h3, h4, h5⟩
            · exact Or.inl h1
            · exact Or.inr ⟨accounts, messages, cs0, cands, ests, want, cs', st', h1, h2, h3, h4, h5⟩

/-- C13: `estimateMessage` drops the candidates exactly when the effective base-fee cap (that
of the address if non-zero, otherwise the global one) is non-zero and strictly below the
parent base fee of the tipset; the candidates kept are the listed messages in their input
order, with identifier and state unchanged, and the estimation requests are index for index
those candidates; when the candidates are dropped, `selectMessage` returns empty `SelectMsg`
and `ErrMsg` and leaves no candidate in memory. -/
theorem estimateMessage_base_fee_drop (env : Env) (w : work) (applied : NonceMap)
    (addrInfo : Address) (ts : TipSet) (cap : Nat) (sp : Option SharedSpec) :
    (dropsCandidate sp addrInfo ts = true ↔
      ∃ fee : Int, effectiveBaseFee sp addrInfo = some fee ∧ fee ≠ 0 ∧ fee < ts.ParentBaseFee) ∧
    (∀ (msgs cands : List Message) (batch : List EstimateMessage),
      estimateMessage.loop sp addrInfo ts msgs = Except.ok (cands, batch) →
      cands = (msgs.filter (fun _ => !dropsCandidate sp addrInfo ts)).map
          (estimateMessage.prepared sp addrInfo) ∧
        cands.map (fun c => (c.ID, c.State))
          = (msgs.filter (fun _ => !dropsCandidate sp addrInfo ts)).map
              (fun m => (m.ID, m.State)) ∧
        batch.map (fun e => e.Msg) = cands.map (fun c => c.Message)) ∧
    (dropsCandidate sp addrInfo ts = true →
      ∀ res, (work.selectMessage env w applied addrInfo ts cap sp).result = Except.ok res →
        res.SelectMsg = [] ∧ res.ErrMsg = [] ∧
        (work.selectMessage env w applied addrInfo ts cap sp).candidates = []) := by
  refine ⟨dropsCandidate_iff sp addrInfo ts, ?_, ?_⟩
  · intro msgs cands batch h
    obtain ⟨h1, h2⟩ := estimateMessage.loop_ok sp addrInfo ts msgs cands batch h
    refine ⟨h1, ?_, h2⟩
    rw [h1, List.map_map]
    rfl
  · intro hdrop res hres
    obtain ⟨a1, ha1, hcase⟩ := work.selectMessage_stages env w applied addrInfo ts cap sp res hres
    rcases hcase with h | ⟨accounts, messages, cs0, cands, ests, want, cs, st', hest, hloop, h3, h4, h5⟩
    · exact h
    · obtain ⟨batch, hb, -⟩ := work.estimateMessage_ok env ts messages sp a1 cs0 ests cands hest
      obtain ⟨hc, -⟩ := estimateMessage.loop_ok sp a1 ts messages cands batch hb
      have hd : dropsCandidate sp a1 ts = true := by
        rw [← hdrop, ha1]
        rfl
      rw [hd] at hc
      simp only [Bool.not_true, List.filter_false, List.map_nil] at hc
      subst hc
      rw [selectMessage.signLoop] at hloop
      cases hloop
      exact ⟨h3, h4, h5⟩

/-- The address `f1a` with the base-fee cap 100: at a tipset with parent base fee 101 nothing
is selected and nothing recorded; at a tipset with parent base fee 100 the candidates are
kept. -/
theorem estimateMessage_base_fee_drop_witness :
    dropsCandidate (some {}) addrDemoCap tsDemo101 = true ∧
    dropsCandidate (some {}) addrDemoCap tsDemo100 = false ∧
    ((work.selectMessage envDemo wDemo NewNonceMap addrDemoCap tsDemo101 3 (some {})).resultD.SelectMsg
        = [] ∧
      (work.selectMessage envDemo wDemo NewNonceMap addrDemoCap tsDemo101 3 (some {})).resultD.ErrMsg
        = [] ∧
      (work.selectMessage envDemo wDemo NewNonceMap addrDemoCap tsDemo101 3 (some {})).candidates
        = []) ∧
    (work.selectMessage envDemo wDemo NewNonceMap addrDemoCap tsDemo100 3
        (some {})).resultD.SelectMsg.map (fun m => m.ID) = ["m1", "m3"] :=
  ⟨by decide, by decide,
    (estimateMessage_base_fee_drop envDemo wDemo NewNonceMap addrDemoCap tsDemo101 3
      (some {})).2.2 (by decide) _ rfl,
    by decide⟩

/-! ## The listing limit -/

/-- Below `2^63` the limit computed by `selectMessage` is `min(2·want, 100)`, between 2 and
100. -/
theorem selectCount_of_lt (want : Nat) (h1 : 1 ≤ want) (h2 : want < 9223372036854775808) :
    min (mulU64 want 2) 100 = min (2 * want) 100 ∧
      2 ≤ min (mulU64 want 2) 100 ∧ min (mulU64 want 2) 100 ≤ 100 := by
  unfold mulU64 uint64Size
  omega

/-- C14, the failing run: with the cap `2^63` and no pending nonce, `want` is `2^63`, the
product `want * 2` wraps to 0 and the limit passed to the listing is 0, for which the
repository applies no limit at all. -/
theorem selectMessage_limit_wraps :
    (work.selectMessage envDemo wDemo NewNonceMap addrDemo {} 9223372036854775808
        (some {})).calls.filterMap Call.listLimit = [0] := by
  decide

/-! ## The persist step: proofs -/

theorem runWrites_append (faults : WriteFaults) (l1 l2 : List Write) :
    ∀ s, runWrites faults s (l1 ++ l2) =
      match runWrites faults s l1 with
      | (some e, s') => (some e, s')
      | (none, s') => runWrites faults s' l2 := by
  induction l1 with
  | nil => intro s; rfl
  | cons wr rest ih =>
    intro s
    simp only [List.cons_append, runWrites]
    cases h : TxRepo.exec faults s wr with
    | mk r s' =>
      cases r with
      | none => simp only; exact ih s'
      | some e => rfl

theorem TxRepo.BatchSaveMessage_eq (faults : WriteFaults) (msgs : List Message) :
    ∀ s, TxRepo.BatchSaveMessage faults s msgs
      = runWrites faults s (msgs.map Write.UpdateMessage) := by
  induction msgs with
  | nil => intro s; rfl
  | cons m rest ih =>
    intro s
    simp only [TxRepo.BatchSaveMessage, List.map_cons, runWrites]
    cases h : TxRepo.exec faults s (Write.UpdateMessage m) with
    | mk r s' =>
      cases r with
      | none => simp only; exact ih s'
      | some e => rfl

theorem saveSelectedMessages.errLoop_eq (faults : WriteFaults) (errs : List msgErrInfo) :
    ∀ s, saveSelectedMessages.errLoop faults s errs
      = runWrites faults s (errs.map (fun m => Write.UpdateErrMsg m.id m.err)) := by
  induction errs with
  | nil => intro s; rfl
  | cons m rest ih =>
    intro s
    simp only [saveSelectedMessages.errLoop, List.map_cons, runWrites]
    cases h : TxRepo.exec faults s (Write.UpdateErrMsg m.id m.err) with
    | mk r s' =>
      cases r with
      | none => simp only; exact ih s'
      | some e => rfl

/-- The function run inside the transaction executes the write statements of the
specification, in order, up to the first failure. -/
theorem saveSelectedMessages.body_eq (faults : WriteFaults) (selectResult : MsgSelectResult)
    (s : Store) :
    saveSelectedMessages.body faults selectResult s
      = runWrites faults s (writesOf selectResult) := by
  unfold saveSelectedMessages.body writesOf
  cases hsel : selectResult.SelectMsg with
  | nil =>
    simp only [List.length_nil, gt_iff_lt, Nat.lt_irrefl, if_false, if_true, List.nil_append]
    exact saveSelectedMessages.errLoop_eq faults _ s
  | cons m rest =>
    have hlen : (m :: rest).length > 0 := by simp
    have hne : ¬ (m :: rest) = [] := by simp
    rw [if_pos hlen, if_neg hne, runWrites_append, runWrites_append,
      TxRepo.BatchSaveMessage_eq]
    cases h1 : runWrites faults s (List.map Write.UpdateMessage (m :: rest)) with
    | mk r s' =>
      cases r with
      | some e => rfl
      | none =>
        simp only [runWrites]
        cases h2 : TxRepo.exec faults s'
            (Write.UpdateNonce selectResult.Address.Addr selectResult.Address.Nonce) with
        | mk r2 s2 =>
          cases r2 with
          | some e => rfl
          | none => simp only; exact saveSelectedMessages.errLoop_eq faults _ s2

theorem runWrites_ok (faults : WriteFaults) (l : List Write) :
    ∀ s, (∀ wr ∈ l, faults wr = none) → runWrites faults s l = (none, l.foldl Store.apply s) := by
  induction l with
  | nil => intro s _; rfl
  | cons wr rest ih =>
    intro s h
    simp only [runWrites, TxRepo.exec, h wr (List.mem_cons_self _ _), List.foldl_cons]
    exact ih _ (fun w hw => h w (List.mem_cons_of_mem _ hw))

theorem runWrites_error (faults : WriteFaults) (l : List Write) :
    ∀ s e s', runWrites faults s l = (some e, s') → ∃ wr ∈ l, faults wr = some e := by
  induction l with
  | nil => intro s e s' h; cases h
  | cons wr rest ih =>
    intro s e s' h
    simp only [runWrites, TxRepo.exec] at h
    cases hf : faults wr with
    | some e' =>
      rw [hf] at h
      simp only at h
      cases h
      exact ⟨wr, List.mem_cons_self _ _, hf⟩
    | none =>
      rw [hf] at h
      simp only at h
      obtain ⟨w', hw', hfw⟩ := ih _ e s' h
      exact ⟨w', List.mem_cons_of_mem _ hw', hfw⟩

theorem runWrites_none (faults : WriteFaults) (l : List Write) :
    ∀ s s', runWrites faults s l = (none, s') →
      (∀ wr ∈ l, faults wr = none) ∧ s' = l.foldl Store.apply s := by
  induction l with
  | nil => intro s s' h; cases h; exact ⟨by simp, rfl⟩
  | cons wr rest ih =>
    intro s s' h
    simp only [runWrites, TxRepo.exec] at h
    cases hf : faults wr with
    | some e' =>
      rw [hf] at h
      cases h
    | none =>
      rw [hf] at h
      simp only at h
      obtain ⟨h1, h2⟩ := ih _ s' h
      refine ⟨?_, h2⟩
      intro w hw
      rcases List.mem_cons.mp hw with rfl | hw
      · exact hf
      · exact h1 w hw

/-- C15: `saveSelectedMessages` runs its writes in one transaction.  The writes are, when
`SelectMsg` is non-empty, the newly filled messages and then the nonce of the address, and
then the error strings of `ErrMsg`.  Either no write fails, no error is returned and the
store is the old one with all of them applied; or an error is returned, it is the error of
one of these writes, and the store is unchanged. -/
theorem saveSelectedMessages_atomic (faults : WriteFaults) (store : Store)
    (selectResult : MsgSelectResult) :
    work.saveSelectedMessages faults store selectResult
        = Transaction (fun tx => runWrites faults tx (writesOf selectResult)) store ∧
      (selectResult.SelectMsg ≠ [] →
        ∀ m ∈ selectResult.SelectMsg,
          Write.UpdateMessage m ∈ writesOf selectResult ∧
          Write.UpdateNonce selectResult.Address.Addr selectResult.Address.Nonce
            ∈ writesOf selectResult) ∧
      (∀ m ∈ selectResult.ErrMsg, Write.UpdateErrMsg m.id m.err ∈ writesOf selectResult) ∧
      ((work.saveSelectedMessages faults store selectResult).1 = none →
        (∀ wr ∈ writesOf selectResult, faults wr = none) ∧
        (work.saveSelectedMessages faults store selectResult).2
          = (writesOf selectResult).foldl Store.apply store) ∧
      (∀ e, (work.saveSelectedMessages faults store selectResult).1 = some e →
        (∃ wr ∈ writesOf selectResult, faults wr = some e) ∧
        (work.saveSelectedMessages faults store selectResult).2 = store) := by
  have heq : work.saveSelectedMessages faults store selectResult
      = Transaction (fun tx => runWrites faults tx (writesOf selectResult)) store := by
    unfold work.saveSelectedMessages Transaction
    rw [saveSelectedMessages.body_eq]
  refine ⟨heq, ?_, ?_, ?_, ?_⟩
  · intro hne m hm
    unfold writesOf
    rw [if_neg hne]
    constructor
    · simp only [List.mem_append, List.mem_map]
      exact Or.inl (Or.inl ⟨m, hm, rfl⟩)
    · simp
  · intro m hm
    unfold writesOf
    simp only [List.mem_append, List.mem_map]
    exact Or.inr ⟨m, hm, rfl⟩
  · intro h
    rw [heq] at h ⊢
    unfold Transaction at h ⊢
    dsimp only at h ⊢
    cases hr : runWrites faults store (writesOf selectResult) with
    | mk r s' =>
      rw [hr] at h
      cases r with
      | some e => cases h
      | none => exact runWrites_none faults _ store s' hr
  · intro e h
    rw [heq] at h ⊢
    unfold Transaction at h ⊢
    dsimp only at h ⊢
    cases hr : runWrites faults store (writesOf selectResult) with
    | mk r s' =>
      rw [hr] at h
      cases r with
      | none => cases h
      | some e' =>
        simp only at h ⊢
        cases h
        exact ⟨runWrites_error faults _ store e s' hr, trivial⟩

/-- A persist step in which the write of the error string of `m2` fails: the error is returned
and the store is unchanged, although the message `m1` had been saved before. -/
theorem saveSelectedMessages_atomic_witness :
    work.saveSelectedMessages faultsDemo storeDemo
        { Address := { addrDemo with Nonce := 16 }
          SelectMsg := [{ candDemo1 with State := MessageState.FillMsg }]
          ErrMsg := [{ id := "m2", err := "gas estimate: invalid gas limit" }] }
      = (some (GoError.plain "deadlock"), storeDemo) ∧
    (work.saveSelectedMessages noFaults storeDemo
        { Address := { addrDemo with Nonce := 16 }
          SelectMsg := [{ candDemo1 with State := MessageState.FillMsg }]
          ErrMsg := [{ id := "m2", err := "gas estimate: invalid gas limit" }] }).2
      = { messages := [{ candDemo1 with State := MessageState.FillMsg },
            { candDemo2 with ErrorMsg := "gas estimate: invalid gas limit" }, candDemo3]
          addresses := [{ addrDemo with Nonce := 16 }] } ∧
    ∀ e, (work.saveSelectedMessages faultsDemo storeDemo
        { Address := { addrDemo with Nonce := 16 }
          SelectMsg := [{ candDemo1 with State := MessageState.FillMsg }]
          ErrMsg := [{ id := "m2", err := "gas estimate: invalid gas limit" }] }).1 = some e →
      (∃ wr ∈ writesOf
          { Address := { addrDemo with Nonce := 16 }
            SelectMsg := [{ candDemo1 with State := MessageState.FillMsg }]
            ErrMsg := [{ id := "m2", err := "gas estimate: invalid gas limit" }] },
          faultsDemo wr = some e) ∧
      (work.saveSelectedMessages faultsDemo storeDemo
        { Address := { addrDemo with Nonce := 16 }
          SelectMsg := [{ candDemo1 with State := MessageState.FillMsg }]
          ErrMsg := [{ id := "m2", err := "gas estimate: invalid gas limit" }] }).2 = storeDemo :=
  ⟨by decide, by decide,
    (saveSelectedMessages_atomic faultsDemo storeDemo
      { Address := { addrDemo with Nonce := 16 }
        SelectMsg := [{ candDemo1 with State := MessageState.FillMsg }]
        ErrMsg := [{ id := "m2", err := "gas estimate: invalid gas limit" }] }).2.2.2.2⟩

/-! ## Dispatch: proofs -/

theorem startSelectMessage.signed_of_filled (msgs : List Message) :
    (∀ m ∈ msgs, ∃ sig, m.Signature = some sig) →
    ∃ signed, startSelectMessage.signed msgs = some signed ∧
      signed.map (fun s => (s.Message, some s.Signature))
        = msgs.map (fun m => (m.Message, m.Signature)) := by
  induction msgs with
  | nil => intro _; exact ⟨[], rfl, rfl⟩
  | cons m rest ih =>
    intro h
    obtain ⟨sig, hsig⟩ := h m (List.mem_cons_self _ _)
    obtain ⟨signed, h1, h2⟩ := ih (fun x hx => h x (List.mem_cons_of_mem _ hx))
    refine ⟨{ Message := m.Message, Signature := sig } :: signed, ?_, ?_⟩
    · simp only [startSelectMessage.signed, hsig, h1, Option.map_some']
    · simp only [List.map_cons, h2, hsig]

/-- Every message selected by `selectMessage` carries a signature. -/
theorem work.selectMessage_signed (env : Env) (w : work) (applied : NonceMap)
    (addrInfo : Address) (ts : TipSet) (cap : Nat) (sp : Option SharedSpec)
    (res : MsgSelectResult)
    (hres : (work.selectMessage env w applied addrInfo ts cap sp).result = Except.ok res) :
    ∀ m ∈ res.SelectMsg, ∃ sig, m.Signature = some sig := by
  rcases work.selectMessage_run env w applied addrInfo ts cap sp res hres with
    ⟨h1, -⟩ | ⟨a1, accounts, messages, cs0, cands, ests, want, cs, st', -, hloop, hsel, -⟩
  · intro m hm
    rw [h1] at hm
    cases hm
  · obtain ⟨new, hnew, -, -, hshape⟩ :=
      selectMessage.signLoop_selected env w accounts want cands ests _ st' hloop
    simp only [List.nil_append] at hnew
    rw [← hsel] at hnew
    subst hnew
    intro m hm
    obtain ⟨i, hi, hget⟩ := List.getElem_of_mem hm
    obtain ⟨c, r, em, sig, -, -, -, h4⟩ :=
      hshape i m (by rw [List.getElem?_eq_getElem hi, hget])
    subst h4
    exact ⟨sig, rfl⟩

/-- The pipeline always returns through `finish`. -/
theorem startSelectMessage.emit_w (recv : MessageReceiver) (w1 : work) (store1 : Store)
    (calls : List Call) (res : MsgSelectResult) :
    (startSelectMessage.emit recv w1 store1 calls res).w = w1.finish := by
  unfold startSelectMessage.emit
  split
  · rfl
  · simp only
    split
    · split <;> rfl
    · rfl

theorem startSelectMessage.pipeline_w (env : Env) (faults : WriteFaults) (store : Store)
    (recv : MessageReceiver) (w1 : work) (applied : NonceMap) (addrInfo : Option Address)
    (ts : TipSet) (cap : Nat) (sp : Option SharedSpec) :
    (startSelectMessage.pipeline env faults store recv w1 applied addrInfo ts cap sp).w
      = w1.finish := by
  unfold startSelectMessage.pipeline
  simp only
  split
  · rfl
  · rfl
  · split
    · rfl
    · exact startSelectMessage.emit_w _ _ _ _ _

/-- The dispatch to an idle worker that is not cancelled runs the pipeline with the item in
`controlChan`. -/
theorem work.startSelectMessage_idle (env : Env) (faults : WriteFaults) (store : Store)
    (recv : MessageReceiver) (w : work) (applied : NonceMap) (addrInfo : Option Address)
    (ts : TipSet) (cap : Nat) (sp : Option SharedSpec)
    (hctx : w.ctxDone = false) (hopen : w.controlClosed = false) (hidle : w.controlChan = 0) :
    work.startSelectMessage env faults store recv w applied addrInfo ts cap sp
      = startSelectMessage.pipeline env faults store recv
          { w with controlChan := w.controlChan + 1 } applied addrInfo ts cap sp := by
  unfold work.startSelectMessage
  rw [if_neg (by rw [hctx]; decide), if_neg (by rw [hopen]; decide), if_neg (by omega)]

theorem startSelectMessage.pipeline_error (env : Env) (faults : WriteFaults) (store : Store)
    (recv : MessageReceiver) (w1 : work) (applied : NonceMap) (addrInfo : Address)
    (ts : TipSet) (cap : Nat) (sp : Option SharedSpec) (f : Fault)
    (h : (work.selectMessage env w1 applied addrInfo ts cap sp).result = Except.error f) :
    (startSelectMessage.pipeline env faults store recv w1 applied (some addrInfo) ts cap
        sp).offered = none ∧
    (startSelectMessage.pipeline env faults store recv w1 applied (some addrInfo) ts cap
        sp).msgReceiver = recv ∧
    (startSelectMessage.pipeline env faults store recv w1 applied (some addrInfo) ts cap
        sp).store = store := by
  unfold startSelectMessage.pipeline
  simp only [work.selectMessageOf, h]
  cases f <;> exact ⟨rfl, rfl, rfl⟩

theorem startSelectMessage.pipeline_save_error (env : Env) (faults : WriteFaults)
    (store : Store) (recv : MessageReceiver) (w1 : work) (applied : NonceMap)
    (addrInfo : Address) (ts : TipSet) (cap : Nat) (sp : Option SharedSpec)
    (res : MsgSelectResult) (e : GoError)
    (h : (work.selectMessage env w1 applied addrInfo ts cap sp).result = Except.ok res)
    (hs : (work.saveSelectedMessages faults store res).1 = some e) :
    (startSelectMessage.pipeline env faults store recv w1 applied (some addrInfo) ts cap
        sp).offered = none ∧
    (startSelectMessage.pipeline env faults store recv w1 applied (some addrInfo) ts cap
        sp).msgReceiver = recv := by
  unfold startSelectMessage.pipeline
  simp only [work.selectMessageOf, h]
  cases hr : work.saveSelectedMessages faults store res with
  | mk r s1 =>
    rw [hr] at hs
    simp only at hs
    subst hs
    exact ⟨rfl, rfl⟩

theorem startSelectMessage.pipeline_saved (env : Env) (faults : WriteFaults)
    (store : Store) (recv : MessageReceiver) (w1 : work) (applied : NonceMap)
    (addrInfo : Address) (ts : TipSet) (cap : Nat) (sp : Option SharedSpec)
    (res : MsgSelectResult)
    (h : (work.selectMessage env w1 applied addrInfo ts cap sp).result = Except.ok res)
    (hs : (work.saveSelectedMessages faults store res).1 = none) :
    startSelectMessage.pipeline env faults store recv w1 applied (some addrInfo) ts cap sp
      = startSelectMessage.emit recv w1 (work.saveSelectedMessages faults store res).2
          (work.selectMessage env w1 applied addrInfo ts cap sp).calls res := by
  unfold startSelectMessage.pipeline
  simp only [work.selectMessageOf, h]
  cases hr : work.saveSelectedMessages faults store res with
  | mk r s1 =>
    rw [hr] at hs
    simp only at hs
    subst hs
    rfl

theorem startSelectMessage.emit_spec (recv : MessageReceiver) (w1 : work) (store1 : Store)
    (calls : List Call) (res : MsgSelectResult) (signed : List SignedMessage)
    (h : startSelectMessage.signed res.SelectMsg = some signed) :
    (res.ToPushMsg ++ signed = [] →
      (startSelectMessage.emit recv w1 store1 calls res).offered = none ∧
      (startSelectMessage.emit recv w1 store1 calls res).msgReceiver = recv) ∧
    (res.ToPushMsg ++ signed ≠ [] →
      (startSelectMessage.emit recv w1 store1 calls res).offered
        = some (res.ToPushMsg ++ signed) ∧
      (recv.buf.length < recv.cap →
        (startSelectMessage.emit recv w1 store1 calls res).msgReceiver
          = { recv with buf := recv.buf ++ [res.ToPushMsg ++ signed] } ∧
        (startSelectMessage.emit recv w1 store1 calls res).dropped = false) ∧
      (¬ recv.buf.length < recv.cap →
        (startSelectMessage.emit recv w1 store1 calls res).msgReceiver = recv ∧
        (startSelectMessage.emit recv w1 store1 calls res).dropped = true)) := by
  unfold startSelectMessage.emit
  simp only [h]
  constructor
  · intro hempty
    rw [hempty]
    exact ⟨rfl, rfl⟩
  · intro hne
    have hlen : (res.ToPushMsg ++ signed).length > 0 := List.length_pos.mpr hne
    rw [if_pos hlen]
    refine ⟨?_, ?_, ?_⟩
    · split <;> rfl
    · intro hroom
      rw [if_pos hroom]
      exact ⟨rfl, rfl⟩
    · intro hfull
      rw [if_neg hfull]
      exact ⟨rfl, rfl⟩

/-- C16: for a dispatch to an idle worker that is not cancelled, with `d` what the call
leaves behind: the call returns with the worker idle again; when the selection fails, or the
persist step fails, nothing is offered to the publisher channel; when both succeed, the batch
is the re-push set followed by the selected messages as signed messages, in order; an empty
batch is not offered; a non-empty batch is offered once, and is appended to the channel when
there is room and dropped, leaving the channel as it was, when it is full. -/
theorem startSelectMessage_emit (env : Env) (faults : WriteFaults) (store : Store)
    (recv : MessageReceiver) (w : work) (applied : NonceMap) (addrInfo : Address) (ts : TipSet)
    (cap : Nat) (sp : Option SharedSpec) (d : Dispatch)
    (hd : d = work.startSelectMessage env faults store recv w applied (some addrInfo) ts cap sp)
    (hctx : w.ctxDone = false) (hopen : w.controlClosed = false) (hidle : w.controlChan = 0) :
    d.w = w ∧
    (∀ f, (work.selectMessage env { w with controlChan := w.controlChan + 1 } applied addrInfo
        ts cap sp).result = Except.error f →
      d.offered = none ∧ d.msgReceiver = recv) ∧
    (∀ res, (work.selectMessage env { w with controlChan := w.controlChan + 1 } applied addrInfo
        ts cap sp).result = Except.ok res →
      (∀ e, (work.saveSelectedMessages faults store res).1 = some e →
        d.offered = none ∧ d.msgReceiver = recv) ∧
      ((work.saveSelectedMessages faults store res).1 = none →
        ∃ signed, startSelectMessage.signed res.SelectMsg = some signed ∧
          signed.map (fun s => (s.Message, some s.Signature))
            = res.SelectMsg.map (fun m => (m.Message, m.Signature)) ∧
          (res.ToPushMsg ++ signed = [] → d.offered = none ∧ d.msgReceiver = recv) ∧
          (res.ToPushMsg ++ signed ≠ [] →
            d.offered = some (res.ToPushMsg ++ signed) ∧
            (recv.buf.length < recv.cap →
              d.msgReceiver = { recv with buf := recv.buf ++ [res.ToPushMsg ++ signed] } ∧
              d.dropped = false) ∧
            (¬ recv.buf.length < recv.cap → d.msgReceiver = recv ∧ d.dropped = true)))) := by
  rw [work.startSelectMessage_idle env faults store recv w applied _ ts cap sp hctx hopen
    hidle] at hd
  subst hd
  refine ⟨?_, ?_, ?_⟩
  · rw [startSelectMessage.pipeline_w]
    cases w
    simp only at hidle
    subst hidle
    rfl
  · intro f hf
    obtain ⟨h1, h2, -⟩ := startSelectMessage.pipeline_error env faults store recv _ applied
      addrInfo ts cap sp f hf
    exact ⟨h1, h2⟩
  · intro res hres
    constructor
    · intro e he
      exact startSelectMessage.pipeline_save_error env faults store recv _ applied addrInfo ts
        cap sp res e hres he
    · intro hnone
      obtain ⟨signed, h1, h2⟩ := startSelectMessage.signed_of_filled res.SelectMsg
        (work.selectMessage_signed env _ applied addrInfo ts cap sp res hres)
      rw [startSelectMessage.pipeline_saved env faults store recv _ applied addrInfo ts cap sp
        res hres hnone]
      exact ⟨signed, h1, h2, startSelectMessage.emit_spec recv _ _ _ res signed h1⟩

/-- The run of `envDemo`: with room in the channel one batch of four signed messages (the
nonces 15 and 16 of the re-push set, then the two selected with the nonces 15 and 16) is
offered and the worker is idle again; with a full channel the batch is dropped and the
channel is as it was. -/
theorem startSelectMessage_emit_witness :
    ((work.startSelectMessage envDemo noFaults storeDemo recvDemo wDemo NewNonceMap
        (some addrDemo) {} 3 (some {})).msgReceiver.buf.map
          (List.map (fun (s : SignedMessage) => s.Message.Nonce))) = [[15, 16, 15, 16]] ∧
    (work.startSelectMessage envDemo noFaults storeDemo recvFull wDemo NewNonceMap
        (some addrDemo) {} 3 (some {})).dropped = true ∧
    (work.startSelectMessage envDemo noFaults storeDemo recvFull wDemo NewNonceMap
        (some addrDemo) {} 3 (some {})).msgReceiver = recvFull ∧
    (work.startSelectMessage envDemo noFaults storeDemo recvFull wDemo NewNonceMap
        (some addrDemo) {} 3 (some {})).w = wDemo :=
  ⟨by decide, by decide, by decide,
    (startSelectMessage_emit envDemo noFaults storeDemo recvFull wDemo NewNonceMap addrDemo {} 3
      (some {}) _ rfl rfl rfl rfl).1⟩

/-! ## Single flight -/

theorem WorkerSys.step_inv (s : WorkerSys) (e : WorkerEvent) (h : s.inv) : (s.step e).inv := by
  obtain ⟨w, checking, acquiring, running, crashed⟩ := s
  obtain ⟨addr, ptr, ctx, cc, closed⟩ := w
  obtain ⟨h1, h2, h3⟩ := h
  simp only at h1 h2 h3
  cases e
  · exact ⟨h1, h2, h3⟩
  · unfold WorkerSys.step
    simp only
    split
    · exact ⟨h1, h2, h3⟩
    · split <;> exact ⟨h1, h2, h3⟩
  · unfold WorkerSys.step
    simp only
    split
    · exact ⟨h1, h2, h3⟩
    · split
      · exact ⟨h1, h2, h3⟩
      · split
        · exact ⟨h1, h2, h3⟩
        · rename_i hc hcc
          have hcl : closed = false := by simpa using hc
          have h2 := h2 hcl
          refine ⟨?_, ?_, ?_⟩
          · simp only
            omega
          · intro _
            simp only
            omega
          · intro hx
            simp only at hx
            rw [hcl] at hx
            cases hx
  · unfold WorkerSys.step
    simp only
    split
    · exact ⟨h1, h2, h3⟩
    · rename_i hr
      refine ⟨?_, ?_, ?_⟩
      · simp only [work.finish]
        omega
      · intro hx
        simp only [work.finish] at hx ⊢
        have := h2 hx
        omega
      · intro hx
        simp only [work.finish] at hx ⊢
        have := h3 hx
        omega
  · unfold WorkerSys.step
    simp only
    split
    · exact ⟨h1, h2, h3⟩
    · split
      · exact ⟨h1, h2, h3⟩
      · rename_i hc hcc
        have hcl : closed = false := by simpa using hc
        have h2 := h2 hcl
        refine ⟨?_, ?_, ?_⟩
        · simp only [work.close]
          omega
        · intro hx
          simp only [work.close] at hx
          cases hx
        · intro _
          simp only [work.close]
          constructor
          · omega
          · trivial
  · refine ⟨h1, h2, ?_⟩
    intro hx
    exact ⟨(h3 hx).1, rfl⟩

theorem WorkerSys.foldl_inv (events : List WorkerEvent) :
    ∀ s : WorkerSys, s.inv → (events.foldl WorkerSys.step s).inv := by
  induction events with
  | nil => intro s h; exact h
  | cons e rest ih =>
    intro s h
    exact ih _ (WorkerSys.step_inv s e h)

theorem WorkerSys.run_inv (ptr : Nat) (addr : AddrKey) (events : List WorkerEvent) :
    (WorkerSys.run ptr addr events).inv :=
  WorkerSys.foldl_inv events _ ⟨Nat.zero_le _, fun _ => rfl, fun h => by cases h⟩

/-- C18: whatever the interleaving of the dispatches to a worker, their steps, the `finish`
of a pipeline, the removal of the worker and the cancellation of the context, at most one
pipeline of the worker is in flight; a call of `startSelectMessage` on a worker that is
cancelled, or whose `controlChan` holds the item of a running pipeline, returns at once: no
pipeline is started, no collaborator is called, nothing is offered to the publisher channel,
and the worker, the store and the channel are as they were. -/
theorem startSelectMessage_single_flight (env : Env) (faults : WriteFaults) (store : Store)
    (recv : MessageReceiver) (w : work) (applied : NonceMap) (addrInfo : Option Address)
    (ts : TipSet) (cap : Nat) (sp : Option SharedSpec) (ptr : Nat) (addr : AddrKey)
    (events : List WorkerEvent) :
    (WorkerSys.run ptr addr events).running ≤ 1 ∧
    (w.ctxDone = true ∨ (w.controlClosed = false ∧ w.controlChan ≥ 1) →
      work.startSelectMessage env faults store recv w applied addrInfo ts cap sp
        = { w := w, store := store, msgReceiver := recv, calls := [], started := false,
            offered := none, dropped := false, fault := none }) := by
  obtain ⟨h1, h2, h3⟩ := WorkerSys.run_inv ptr addr events
  refine ⟨?_, ?_⟩
  · cases hc : (WorkerSys.run ptr addr events).w.controlClosed
    · rw [h2 hc]
      exact h1
    · rw [(h3 hc).1]
      exact Nat.zero_le _
  · intro h
    unfold work.startSelectMessage
    rcases h with h | ⟨h, h'⟩
    · rw [if_pos h]
    · by_cases hctx : w.ctxDone = true
      · rw [if_pos hctx]
      · rw [if_neg hctx, if_neg (by rw [h]; decide), if_pos h']

/-- Two dispatches that interleave: after both have passed the test of the context and both
have tried to send, one pipeline is in flight; a call on the worker in that state, and a call
on a cancelled worker, do nothing. -/
theorem startSelectMessage_single_flight_witness :
    (WorkerSys.run 0 "f1a" [WorkerEvent.dispatch, WorkerEvent.dispatch, WorkerEvent.checkCtx,
      WorkerEvent.checkCtx, WorkerEvent.acquire, WorkerEvent.acquire]).running = 1 ∧
    (work.startSelectMessage envDemo noFaults storeDemo recvDemo
        { addr := "f1a", controlChan := 1 } NewNonceMap (some addrDemo) {} 3 (some {})).started
      = false ∧
    work.startSelectMessage envDemo noFaults storeDemo recvDemo (work.close wDemo) NewNonceMap
        (some addrDemo) {} 3 (some {})
      = { w := work.close wDemo, store := storeDemo, msgReceiver := recvDemo } :=
  ⟨by decide, by decide,
    (startSelectMessage_single_flight envDemo noFaults storeDemo recvDemo (work.close wDemo)
      NewNonceMap (some addrDemo) {} 3 (some {}) 0 "f1a" []).2 (Or.inl rfl)⟩

/-! ## The worker map: proofs -/

theorem GoMap.get_nil {V : Type} (k : AddrKey) : GoMap.get ([] : GoMap V) k = none := rfl

theorem GoMap.get_cons {V : Type} (m : GoMap V) (a k : AddrKey) (v : V) :
    GoMap.get ((a, v) :: m) k = if k = a then some v else GoMap.get m k := by
  unfold GoMap.get
  rw [List.lookup_cons]
  by_cases h : k = a
  · subst h
    simp
  · have : (k == a) = false := by simpa using h
    rw [this, if_neg h]

theorem GoMap.get_append {V : Type} (m n : GoMap V) (k : AddrKey) :
    GoMap.get (m ++ n) k = (GoMap.get m k).or (GoMap.get n k) := by
  induction m with
  | nil => simp [GoMap.get]
  | cons kv rest ih =>
    obtain ⟨a, v⟩ := kv
    rw [List.cons_append, GoMap.get_cons, GoMap.get_cons, ih]
    by_cases h : k = a
    · rw [if_pos h, if_pos h]
      rfl
    · rw [if_neg h, if_neg h]

theorem GoMap.get_delete_self {V : Type} (m : GoMap V) (k : AddrKey) :
    GoMap.get (GoMap.delete m k) k = none := by
  induction m with
  | nil => rfl
  | cons kv rest ih =>
    obtain ⟨a, v⟩ := kv
    unfold GoMap.delete at ih ⊢
    by_cases h : a = k
    · subst h
      rw [List.filter_cons_of_neg (by simp)]
      exact ih
    · rw [List.filter_cons_of_pos (by simpa using h), GoMap.get_cons, if_neg (Ne.symm h)]
      exact ih

theorem GoMap.get_delete_ne {V : Type} (m : GoMap V) (k k' : AddrKey) (hne : k' ≠ k) :
    GoMap.get (GoMap.delete m k) k' = GoMap.get m k' := by
  induction m with
  | nil => rfl
  | cons kv rest ih =>
    obtain ⟨a, v⟩ := kv
    unfold GoMap.delete at ih ⊢
    by_cases h : a = k
    · subst h
      rw [List.filter_cons_of_neg (by simp), GoMap.get_cons, if_neg hne]
      exact ih
    · rw [List.filter_cons_of_pos (by simpa using h), GoMap.get_cons, GoMap.get_cons, ih]

theorem GoMap.get_set_self {V : Type} (m : GoMap V) (k : AddrKey) (v : V) :
    GoMap.get (GoMap.set m k v) k = some v := by
  unfold GoMap.set
  rw [GoMap.get_append, GoMap.get_delete_self, GoMap.get_cons, if_pos rfl]
  rfl

theorem GoMap.get_set_ne {V : Type} (m : GoMap V) (k k' : AddrKey) (v : V) (hne : k' ≠ k) :
    GoMap.get (GoMap.set m k v) k' = GoMap.get m k' := by
  unfold GoMap.set
  rw [GoMap.get_append, GoMap.get_delete_ne m k k' hne, GoMap.get_cons, if_neg hne, GoMap.get_nil]
  cases GoMap.get m k' <;> rfl

theorem GoMap.get_eq_none {V : Type} (m : GoMap V) (k : AddrKey) :
    GoMap.get m k = none ↔ k ∉ GoMap.keys m := by
  induction m with
  | nil => simp [GoMap.get, GoMap.keys]
  | cons kv rest ih =>
    obtain ⟨a, v⟩ := kv
    rw [GoMap.get_cons]
    unfold GoMap.keys at ih ⊢
    by_cases h : k = a
    · subst h
      simp
    · rw [if_neg h, ih]
      simp [h]

theorem GoMap.get_of_mem {V : Type} (m : GoMap V) (k : AddrKey) (v : V)
    (hn : (GoMap.keys m).Nodup) (h : (k, v) ∈ m) : GoMap.get m k = some v := by
  induction m with
  | nil => cases h
  | cons kv rest ih =>
    obtain ⟨a, x⟩ := kv
    rw [GoMap.get_cons]
    unfold GoMap.keys at hn ih
    rw [List.map_cons, List.nodup_cons] at hn
    rcases List.mem_cons.mp h with h1 | h1
    · cases h1
      rw [if_pos rfl]
    · have hne : k ≠ a := by
        intro hk
        subst hk
        exact hn.1 (List.mem_map.mpr ⟨(k, v), h1, rfl⟩)
      rw [if_neg hne]
      exact ih hn.2 h1

theorem GoMap.mem_of_get {V : Type} (m : GoMap V) (k : AddrKey) (v : V)
    (h : GoMap.get m k = some v) : (k, v) ∈ m := by
  induction m with
  | nil => cases h
  | cons kv rest ih =>
    obtain ⟨a, x⟩ := kv
    rw [GoMap.get_cons] at h
    by_cases hk : k = a
    · rw [if_pos hk] at h
      cases h
      subst hk
      exact List.mem_cons_self _ _
    · rw [if_neg hk] at h
      exact List.mem_cons_of_mem _ (ih h)

theorem GoMap.keys_delete {V : Type} (m : GoMap V) (k : AddrKey) :
    GoMap.keys (GoMap.delete m k) = (GoMap.keys m).filter (fun a => a != k) := by
  unfold GoMap.keys GoMap.delete
  rw [List.filter_map]
  rfl

theorem GoMap.nodup_delete {V : Type} (m : GoMap V) (k : AddrKey)
    (hn : (GoMap.keys m).Nodup) : (GoMap.keys (GoMap.delete m k)).Nodup := by
  rw [GoMap.keys_delete]
  exact hn.filter _

theorem GoMap.nodup_set {V : Type} (m : GoMap V) (k : AddrKey) (v : V)
    (hn : (GoMap.keys m).Nodup) : (GoMap.keys (GoMap.set m k v)).Nodup := by
  unfold GoMap.set
  have h1 := GoMap.nodup_delete m k hn
  have h2 : k ∉ GoMap.keys (GoMap.delete m k) :=
    (GoMap.get_eq_none _ _).mp (GoMap.get_delete_self m k)
  unfold GoMap.keys at h1 h2 ⊢
  rw [List.map_append, List.nodup_append]
  refine ⟨h1, by simp, ?_⟩
  intro a ha hb
  simp only [List.map_cons, List.map_nil, List.mem_singleton] at hb
  subst hb
  exact h2 ha

theorem tryUpdateWorks.addLoop_none (a : Address) (rest : List Address) (m : MsgSelectMgr)
    (ws : GoMap work) (h : GoMap.get m.works a.Addr = none) :
    tryUpdateWorks.addLoop (a :: rest) m ws
      = tryUpdateWorks.addLoop rest { m with nextPtr := m.nextPtr + 1 }
          (GoMap.set ws a.Addr (newWork m.nextPtr a.Addr)) := by
  rw [tryUpdateWorks.addLoop]
  simp only [h]

theorem tryUpdateWorks.addLoop_some (a : Address) (rest : List Address) (m : MsgSelectMgr)
    (ws : GoMap work) (w : work) (h : GoMap.get m.works a.Addr = some w) :
    tryUpdateWorks.addLoop (a :: rest) m ws
      = tryUpdateWorks.addLoop rest { m with works := GoMap.delete m.works a.Addr }
          (GoMap.set ws a.Addr w) := by
  rw [tryUpdateWorks.addLoop]
  simp only [h]

/-- What the first loop leaves in `works`: the entries whose address was not visited. -/
theorem tryUpdateWorks.addLoop_works (l : List Address) :
    ∀ (m : MsgSelectMgr) (ws : GoMap work),
      (∀ kw ∈ (tryUpdateWorks.addLoop l m ws).1.works, kw ∈ m.works) ∧
      ((GoMap.keys m.works).Nodup →
        (GoMap.keys (tryUpdateWorks.addLoop l m ws).1.works).Nodup) ∧
      (∀ k, k ∈ l.map Address.Addr →
        GoMap.get (tryUpdateWorks.addLoop l m ws).1.works k = none) ∧
      (∀ k, k ∉ l.map Address.Addr →
        GoMap.get (tryUpdateWorks.addLoop l m ws).1.works k = GoMap.get m.works k) := by
  induction l with
  | nil =>
    intro m ws
    exact ⟨fun _ h => h, fun h => h, fun k hk => (by cases hk), fun _ _ => rfl⟩
  | cons a rest ih =>
    intro m ws
    cases hg : GoMap.get m.works a.Addr with
    | none =>
      rw [tryUpdateWorks.addLoop_none a rest m ws hg]
      obtain ⟨h1, h2, h3, h4⟩ := ih { m with nextPtr := m.nextPtr + 1 }
        (GoMap.set ws a.Addr (newWork m.nextPtr a.Addr))
      refine ⟨h1, h2, ?_, ?_⟩
      · intro k hk
        by_cases hr : k ∈ rest.map Address.Addr
        · exact h3 k hr
        · rw [h4 k hr]
          rw [List.map_cons, List.mem_cons] at hk
          rcases hk with hk | hk
          · rw [hk]
            exact hg
          · exact absurd hk hr
      · intro k hk
        rw [List.map_cons, List.mem_cons, not_or] at hk
        exact h4 k hk.2
    | some w =>
      rw [tryUpdateWorks.addLoop_some a rest m ws w hg]
      obtain ⟨h1, h2, h3, h4⟩ := ih { m with works := GoMap.delete m.works a.Addr }
        (GoMap.set ws a.Addr w)
      refine ⟨?_, ?_, ?_, ?_⟩
      · intro kw hkw
        have := h1 kw hkw
        exact (List.mem_filter.mp this).1
      · intro hn
        exact h2 (GoMap.nodup_delete _ _ hn)
      · intro k hk
        by_cases hr : k ∈ rest.map Address.Addr
        · exact h3 k hr
        · rw [h4 k hr]
          rw [List.map_cons, List.mem_cons] at hk
          rcases hk with hk | hk
          · rw [hk]
            exact GoMap.get_delete_self _ _
          · exact absurd hk hr
      · intro k hk
        rw [List.map_cons, List.mem_cons, not_or] at hk
        rw [h4 k hk.2]
        exact GoMap.get_delete_ne _ _ _ hk.1

/-- What the first loop puts into `ws`: for a visited address the worker that existed, or a
new one; the other entries are as they were. -/
theorem tryUpdateWorks.addLoop_ws (l : List Address) :
    ∀ (m : MsgSelectMgr) (ws : GoMap work), (l.map Address.Addr).Nodup →
      ((GoMap.keys ws).Nodup → (GoMap.keys (tryUpdateWorks.addLoop l m ws).2).Nodup) ∧
      (∀ k, k ∉ l.map Address.Addr →
        GoMap.get (tryUpdateWorks.addLoop l m ws).2 k = GoMap.get ws k) ∧
      (∀ k, k ∈ l.map Address.Addr → ∀ w, GoMap.get m.works k = some w →
        GoMap.get (tryUpdateWorks.addLoop l m ws).2 k = some w) ∧
      (∀ k, k ∈ l.map Address.Addr → GoMap.get m.works k = none →
        ∃ p, m.nextPtr ≤ p ∧ p < (tryUpdateWorks.addLoop l m ws).1.nextPtr ∧
          GoMap.get (tryUpdateWorks.addLoop l m ws).2 k = some (newWork p k)) ∧
      m.nextPtr ≤ (tryUpdateWorks.addLoop l m ws).1.nextPtr := by
  induction l with
  | nil =>
    intro m ws _
    exact ⟨fun h => h, fun _ _ => rfl, fun k hk => (by cases hk), fun k hk => (by cases hk),
      Nat.le_refl _⟩
  | cons a rest ih =>
    intro m ws hnd
    rw [List.map_cons, List.nodup_cons] at hnd
    cases hg : GoMap.get m.works a.Addr with
    | none =>
      rw [tryUpdateWorks.addLoop_none a rest m ws hg]
      obtain ⟨h1, h2, h3, h4, h5⟩ := ih { m with nextPtr := m.nextPtr + 1 }
        (GoMap.set ws a.Addr (newWork m.nextPtr a.Addr)) hnd.2
      simp only at h3 h4 h5
      refine ⟨?_, ?_, ?_, ?_, ?_⟩
      · intro hn
        exact h1 (GoMap.nodup_set _ _ _ hn)
      · intro k hk
        rw [List.map_cons, List.mem_cons, not_or] at hk
        rw [h2 k hk.2]
        exact GoMap.get_set_ne _ _ _ _ hk.1
      · intro k hk w hw
        rw [List.map_cons, List.mem_cons] at hk
        rcases hk with hk | hk
        · rw [hk, hg] at hw
          cases hw
        · exact h3 k hk w hw
      · intro k hk hnone
        rw [List.map_cons, List.mem_cons] at hk
        by_cases hr : k ∈ rest.map Address.Addr
        · obtain ⟨p, hp1, hp2, hp3⟩ := h4 k hr hnone
          exact ⟨p, by omega, hp2, hp3⟩
        · rcases hk with hk | hk
          · refine ⟨m.nextPtr, Nat.le_refl _, by omega, ?_⟩
            rw [h2 k hr, hk]
            exact GoMap.get_set_self _ _ _
          · exact absurd hk hr
      · omega
    | some w0 =>
      rw [tryUpdateWorks.addLoop_some a rest m ws w0 hg]
      obtain ⟨h1, h2, h3, h4, h5⟩ := ih { m with works := GoMap.delete m.works a.Addr }
        (GoMap.set ws a.Addr w0) hnd.2
      simp only at h3 h4 h5
      refine ⟨?_, ?_, ?_, ?_, h5⟩
      · intro hn
        exact h1 (GoMap.nodup_set _ _ _ hn)
      · intro k hk
        rw [List.map_cons, List.mem_cons, not_or] at hk
        rw [h2 k hk.2]
        exact GoMap.get_set_ne _ _ _ _ hk.1
      · intro k hk w hw
        rw [List.map_cons, List.mem_cons] at hk
        by_cases hr : k ∈ rest.map Address.Addr
        · have hne : k ≠ a.Addr := by
            intro h
            rw [h] at hr
            exact hnd.1 hr
          exact h3 k hr w (by rw [GoMap.get_delete_ne _ _ _ hne]; exact hw)
        · rcases hk with hk | hk
          · rw [h2 k hr, hk]
            rw [hk, hg] at hw
            cases hw
            exact GoMap.get_set_self _ _ _
          · exact absurd hk hr
      · intro k hk hnone
        rw [List.map_cons, List.mem_cons] at hk
        by_cases hr : k ∈ rest.map Address.Addr
        · have hne : k ≠ a.Addr := by
            intro h
            rw [h] at hr
            exact hnd.1 hr
          exact h4 k hr (by rw [GoMap.get_delete_ne _ _ _ hne]; exact hnone)
        · rcases hk with hk | hk
          · rw [hk, hg] at hnone
            cases hnone
          · exact absurd hk hr

/-- The second loop, run over entries that are open and not in `ws`: it returns; an idle
worker is closed and gets no entry, a busy worker is put into `ws` as it is; the other
entries of `ws` are as they were. -/
theorem tryUpdateWorks.removeLoop_spec (snapshot : List (AddrKey × work)) :
    ∀ (works ws : GoMap work) (closed : List work),
      (GoMap.keys snapshot).Nodup →
      (∀ kw ∈ snapshot, kw.2.controlClosed = false) →
      (∀ kw ∈ snapshot, GoMap.get ws kw.1 = none) →
      ∃ works1 ws1,
        tryUpdateWorks.removeLoop snapshot works ws closed
          = Except.ok (works1, ws1,
              closed ++ (snapshot.filter (fun kw => kw.2.controlChan < 1)).map
                (fun kw => kw.2.removed)) ∧
        ((GoMap.keys ws).Nodup → (GoMap.keys ws1).Nodup) ∧
        (∀ k, k ∉ GoMap.keys snapshot → GoMap.get ws1 k = GoMap.get ws k) ∧
        (∀ kw ∈ snapshot, kw.2.controlChan < 1 → GoMap.get ws1 kw.1 = none) ∧
        (∀ kw ∈ snapshot, ¬ kw.2.controlChan < 1 → GoMap.get ws1 kw.1 = some kw.2) := by
  induction snapshot with
  | nil =>
    intro works ws closed _ _ _
    refine ⟨works, ws, ?_, fun h => h, fun _ _ => rfl, fun kw h => (by cases h),
      fun kw h => (by cases h)⟩
    simp [tryUpdateWorks.removeLoop]
  | cons kw rest ih =>
    obtain ⟨a, w⟩ := kw
    intro works ws closed hnd hopen hfree
    have hnd0 := hnd
    unfold GoMap.keys at hnd
    rw [List.map_cons, List.nodup_cons] at hnd
    have hwopen : w.controlClosed = false := hopen (a, w) (List.mem_cons_self _ _)
    have hwfree : GoMap.get ws a = none := hfree (a, w) (List.mem_cons_self _ _)
    have hne : ∀ kw ∈ rest, kw.1 ≠ a := by
      intro kw hkw h
      exact hnd.1 (List.mem_map.mpr ⟨kw, hkw, h⟩)
    rw [tryUpdateWorks.removeLoop]
    simp only [hwfree, hwopen, Bool.false_eq_true, if_false]
    by_cases hidle : w.controlChan < 1
    · rw [if_pos hidle]
      obtain ⟨works1, ws1, h1, h2, h3, h4, h5⟩ := ih (GoMap.delete works a) ws
        (closed ++ [w.removed]) hnd.2
        (fun kw hkw => hopen kw (List.mem_cons_of_mem _ hkw))
        (fun kw hkw => hfree kw (List.mem_cons_of_mem _ hkw))
      refine ⟨works1, ws1, ?_, h2, ?_, ?_, ?_⟩
      · rw [h1, List.filter_cons_of_pos (by simpa using hidle), List.map_cons,
          List.append_assoc]
        rfl
      · intro k hk
        unfold GoMap.keys at hk
        rw [List.map_cons, List.mem_cons, not_or] at hk
        exact h3 k hk.2
      · intro kw hkw hi
        rcases List.mem_cons.mp hkw with hkw | hkw
        · subst hkw
          rw [h3 a hnd.1]
          exact hwfree
        · exact h4 kw hkw hi
      · intro kw hkw hi
        rcases List.mem_cons.mp hkw with hkw | hkw
        · subst hkw
          exact absurd hidle hi
        · exact h5 kw hkw hi
    · rw [if_neg hidle]
      obtain ⟨works1, ws1, h1, h2, h3, h4, h5⟩ := ih works (GoMap.set ws a w) closed hnd.2
        (fun kw hkw => hopen kw (List.mem_cons_of_mem _ hkw))
        (fun kw hkw => by
          rw [GoMap.get_set_ne _ _ _ _ (hne kw hkw)]
          exact hfree kw (List.mem_cons_of_mem _ hkw))
      refine ⟨works1, ws1, ?_, ?_, ?_, ?_, ?_⟩
      · rw [h1, List.filter_cons_of_neg (by simpa using hidle)]
      · intro hn
        exact h2 (GoMap.nodup_set _ _ _ hn)
      · intro k hk
        unfold GoMap.keys at hk
        rw [List.map_cons, List.mem_cons, not_or] at hk
        rw [h3 k hk.2]
        exact GoMap.get_set_ne _ _ _ _ hk.1
      · intro kw hkw hi
        rcases List.mem_cons.mp hkw with hkw | hkw
        · subst hkw
          exact absurd hi hidle
        · exact h4 kw hkw hi
      · intro kw hkw hi
        rcases List.mem_cons.mp hkw with hkw | hkw
        · subst hkw
          rw [h3 a hnd.1]
          exact GoMap.get_set_self _ _ _
        · exact h5 kw hkw hi

theorem GoMap.mem_keys_set {V : Type} (m : GoMap V) (k k' : AddrKey) (v : V) :
    k' ∈ GoMap.keys (GoMap.set m k v) ↔ k' = k ∨ k' ∈ GoMap.keys m := by
  by_cases h : k' = k
  · subst h
    constructor
    · intro _
      exact Or.inl rfl
    · intro _
      by_contra hc
      have := (GoMap.get_eq_none _ _).mpr hc
      rw [GoMap.get_set_self] at this
      cases this
  · have h1 := GoMap.get_eq_none (GoMap.set m k v) k'
    have h2 := GoMap.get_eq_none m k'
    rw [GoMap.get_set_ne _ _ _ _ h] at h1
    constructor
    · intro hk
      refine Or.inr ?_
      by_contra hc
      exact (h1.mp (h2.mpr hc)) hk
    · intro hk
      rcases hk with hk | hk
      · exact absurd hk h
      · by_contra hc
        exact (h2.mp (h1.mpr hc)) hk

theorem GoMap.mem_set {V : Type} (m : GoMap V) (k : AddrKey) (v : V) (kv : AddrKey × V)
    (h : kv ∈ GoMap.set m k v) : kv ∈ m ∨ kv = (k, v) := by
  unfold GoMap.set GoMap.delete at h
  rcases List.mem_append.mp h with h | h
  · exact Or.inl (List.mem_filter.mp h).1
  · exact Or.inr (List.mem_singleton.mp h)

/-- The map built by `addressMap`, started from any map whose entries carry their own key:
a key occurs once, every entry carries its own key, and the keys are those of the start
together with the addresses of the list. -/
theorem addressMap.foldl_keys (addrList : List Address) :
    ∀ acc : GoMap Address, (GoMap.keys acc).Nodup → (∀ kv ∈ acc, kv.2.Addr = kv.1) →
      (GoMap.keys (addrList.foldl (fun addrs addr => GoMap.set addrs addr.Addr addr) acc)).Nodup ∧
      (∀ kv ∈ addrList.foldl (fun addrs addr => GoMap.set addrs addr.Addr addr) acc,
        kv.2.Addr = kv.1) ∧
      (∀ k, k ∈ GoMap.keys (addrList.foldl (fun addrs addr => GoMap.set addrs addr.Addr addr) acc)
        ↔ k ∈ GoMap.keys acc ∨ k ∈ addrList.map Address.Addr) := by
  induction addrList with
  | nil =>
    intro acc h1 h2
    refine ⟨h1, h2, ?_⟩
    intro k
    simp
  | cons a rest ih =>
    intro acc h1 h2
    rw [List.foldl_cons]
    obtain ⟨i1, i2, i3⟩ := ih (GoMap.set acc a.Addr a) (GoMap.nodup_set _ _ _ h1)
      (by
        intro kv hkv
        rcases GoMap.mem_set _ _ _ _ hkv with h | h
        · exact h2 kv h
        · rw [h])
    refine ⟨i1, i2, ?_⟩
    intro k
    rw [i3 k, GoMap.mem_keys_set, List.map_cons, List.mem_cons]
    constructor
    · rintro ((h | h) | h)
      · exact Or.inr (Or.inl h)
      · exact Or.inl h
      · exact Or.inr (Or.inr h)
    · rintro (h | h | h)
      · exact Or.inl (Or.inr h)
      · exact Or.inl (Or.inl h)
      · exact Or.inr h

theorem addressMap_spec (addrList : List Address) :
    (((addressMap addrList).map Prod.snd).map Address.Addr).Nodup ∧
    ∀ k, k ∈ ((addressMap addrList).map Prod.snd).map Address.Addr
      ↔ k ∈ addrList.map Address.Addr := by
  obtain ⟨h1, h2, h3⟩ := addressMap.foldl_keys addrList [] List.nodup_nil
    (fun kv h => by cases h)
  have hl : ((addressMap addrList).map Prod.snd).map Address.Addr
      = GoMap.keys (addressMap addrList) := by
    unfold GoMap.keys addressMap
    rw [List.map_map]
    apply List.map_congr_left
    intro kv hkv
    exact h2 kv hkv
  rw [hl]
  refine ⟨h1, ?_⟩
  intro k
  have := h3 k
  unfold addressMap
  rw [this]
  simp [GoMap.keys]

/-- The worker map after `tryUpdateWorks`, for any list of addresses visited by the first
loop in which no address occurs twice. -/
theorem MsgSelectMgr.tryUpdateWorks_get (m : MsgSelectMgr) (addrInfos : GoMap Address)
    (hwf : m.wf) (hnd : ((addrInfos.map Prod.snd).map Address.Addr).Nodup) :
    ∃ m1 closed, m.tryUpdateWorks addrInfos = Except.ok (m1, closed) ∧
      (GoMap.keys m1.works).Nodup ∧
      (∀ k, k ∈ (addrInfos.map Prod.snd).map Address.Addr →
        (∀ w, GoMap.get m.works k = some w → GoMap.get m1.works k = some w) ∧
        (GoMap.get m.works k = none →
          ∃ p, m.nextPtr ≤ p ∧ p < m1.nextPtr ∧ GoMap.get m1.works k = some (newWork p k))) ∧
      (∀ k, k ∉ (addrInfos.map Prod.snd).map Address.Addr →
        (∀ w, GoMap.get m.works k = some w →
          (w.controlChan < 1 → GoMap.get m1.works k = none ∧ w.removed ∈ closed) ∧
          (¬ w.controlChan < 1 → GoMap.get m1.works k = some w)) ∧
        (GoMap.get m.works k = none → GoMap.get m1.works k = none)) ∧
      (∀ c ∈ closed, ∃ k w, GoMap.get m.works k = some w ∧
        k ∉ (addrInfos.map Prod.snd).map Address.Addr ∧ w.controlChan < 1 ∧ c = w.removed) := by
  obtain ⟨a1, a2, a3, a4⟩ := tryUpdateWorks.addLoop_works (addrInfos.map Prod.snd) m []
  obtain ⟨b1, b2, b3, b4, b5⟩ := tryUpdateWorks.addLoop_ws (addrInfos.map Prod.snd) m [] hnd
  unfold MsgSelectMgr.tryUpdateWorks
  cases hadd : tryUpdateWorks.addLoop (addrInfos.map Prod.snd) m [] with
  | mk m1 ws =>
    rw [hadd] at a1 a2 a3 a4 b1 b2 b3 b4 b5
    simp only at a1 a2 a3 a4 b1 b2 b3 b4 b5 ⊢
    have hn1 : (GoMap.keys m1.works).Nodup := a2 hwf.1
    have hfree : ∀ kw ∈ m1.works, GoMap.get ws kw.1 = none := by
      intro kw hkw
      have hget := GoMap.get_of_mem m1.works kw.1 kw.2 hn1 hkw
      have hna : kw.1 ∉ (addrInfos.map Prod.snd).map Address.Addr := by
        intro h
        rw [a3 kw.1 h] at hget
        cases hget
      rw [b2 kw.1 hna]
      rfl
    obtain ⟨works1, ws1, r1, r2, r3, r4, r5⟩ := tryUpdateWorks.removeLoop_spec m1.works m1.works
      ws [] hn1 (fun kw hkw => hwf.2 kw (a1 kw hkw)) hfree
    rw [r1]
    refine ⟨_, _, rfl, r2 (b1 List.nodup_nil), ?_, ?_, ?_⟩
    · intro k hk
      have hk1 : k ∉ GoMap.keys m1.works := (GoMap.get_eq_none _ _).mp (a3 k hk)
      constructor
      · intro w hw
        rw [r3 k hk1]
        exact b3 k hk w hw
      · intro hnone
        obtain ⟨p, hp1, hp2, hp3⟩ := b4 k hk hnone
        refine ⟨p, hp1, hp2, ?_⟩
        rw [r3 k hk1]
        exact hp3
    · intro k hk
      constructor
      · intro w hw
        have hmem : (k, w) ∈ m1.works := GoMap.mem_of_get _ _ _ (by rw [a4 k hk]; exact hw)
        constructor
        · intro hidle
          refine ⟨r4 (k, w) hmem hidle, ?_⟩
          rw [List.nil_append]
          exact List.mem_map.mpr ⟨(k, w), List.mem_filter.mpr ⟨hmem, by simpa using hidle⟩, rfl⟩
        · intro hbusy
          exact r5 (k, w) hmem hbusy
      · intro hnone
        have hk1 : k ∉ GoMap.keys m1.works :=
          (GoMap.get_eq_none _ _).mp (by rw [a4 k hk]; exact hnone)
        rw [r3 k hk1, b2 k hk]
        rfl
    · intro c hc
      rw [List.nil_append] at hc
      obtain ⟨kw, hkw, hceq⟩ := List.mem_map.mp hc
      obtain ⟨hmem, hidle⟩ := List.mem_filter.mp hkw
      have hget := GoMap.get_of_mem m1.works kw.1 kw.2 hn1 hmem
      have hna : kw.1 ∉ (addrInfos.map Prod.snd).map Address.Addr := by
        intro h
        rw [a3 kw.1 h] at hget
        cases hget
      refine ⟨kw.1, kw.2, ?_, hna, by simpa using hidle, hceq.symm⟩
      rw [← a4 kw.1 hna]
      exact hget

/-- C17: for a well-formed worker map and the snapshot map of any list of active addresses,
`tryUpdateWorks` returns, and in the new worker map, which is well formed again: an active
address that had a worker has the same worker, and one that had none has a newly created
one; an address that is not active and had an idle worker has no worker, and that worker was
given the item and closed; an address that is not active and had a busy worker still has
that worker, as it was; an address that is not active and had no worker has none; and only
idle workers of addresses that are not active were closed. -/
theorem tryUpdateWorks_reconciles (m : MsgSelectMgr) (addrList : List Address) (hwf : m.wf) :
    ∃ m1 closed, m.tryUpdateWorks (addressMap addrList) = Except.ok (m1, closed) ∧
      m1.wf ∧
      (∀ k, k ∈ addrList.map Address.Addr →
        (∀ w, GoMap.get m.works k = some w → GoMap.get m1.works k = some w) ∧
        (GoMap.get m.works k = none →
          ∃ p, m.nextPtr ≤ p ∧ p < m1.nextPtr ∧ GoMap.get m1.works k = some (newWork p k))) ∧
      (∀ k, k ∉ addrList.map Address.Addr →
        (∀ w, GoMap.get m.works k = some w →
          (w.controlChan < 1 → GoMap.get m1.works k = none ∧ w.removed ∈ closed ∧
            w.removed.ctxDone = true) ∧
          (¬ w.controlChan < 1 → GoMap.get m1.works k = some w)) ∧
        (GoMap.get m.works k = none → GoMap.get m1.works k = none)) ∧
      (∀ c ∈ closed, ∃ k w, GoMap.get m.works k = some w ∧
        k ∉ addrList.map Address.Addr ∧ w.controlChan < 1 ∧ c = w.removed) := by
  obtain ⟨hnd, hmem⟩ := addressMap_spec addrList
  obtain ⟨m1, closed, h0, h1, h2, h3, h4⟩ :=
    MsgSelectMgr.tryUpdateWorks_get m (addressMap addrList) hwf hnd
  refine ⟨m1, closed, h0, ⟨h1, ?_⟩, ?_, ?_, ?_⟩
  · intro kw hkw
    obtain ⟨k, v⟩ := kw
    have hget := GoMap.get_of_mem m1.works k v h1 hkw
    simp only
    by_cases hk : k ∈ (List.map Prod.snd (addressMap addrList)).map Address.Addr
    · cases hg : GoMap.get m.works k with
      | none =>
        obtain ⟨p, -, -, hp⟩ := (h2 k hk).2 hg
        rw [hp] at hget
        injection hget with hv
        rw [← hv]
        rfl
      | some w =>
        rw [(h2 k hk).1 w hg] at hget
        injection hget with hv
        rw [← hv]
        exact hwf.2 (k, w) (GoMap.mem_of_get _ _ _ hg)
    · cases hg : GoMap.get m.works k with
      | none =>
        rw [(h3 k hk).2 hg] at hget
        cases hget
      | some w =>
        by_cases hidle : w.controlChan < 1
        · rw [(((h3 k hk).1 w hg).1 hidle).1] at hget
          cases hget
        · rw [((h3 k hk).1 w hg).2 hidle] at hget
          injection hget with hv
          rw [← hv]
          exact hwf.2 (k, w) (GoMap.mem_of_get _ _ _ hg)
  · intro k hk
    exact h2 k ((hmem k).mpr hk)
  · intro k hk
    have hk1 := fun h => hk ((hmem k).mp h)
    refine ⟨?_, (h3 k hk1).2⟩
    intro w hw
    refine ⟨?_, ((h3 k hk1).1 w hw).2⟩
    intro hidle
    obtain ⟨x, y⟩ := ((h3 k hk1).1 w hw).1 hidle
    exact ⟨x, y, rfl⟩
  · intro c hc
    obtain ⟨k, w, x1, x2, x3, x4⟩ := h4 c hc
    exact ⟨k, w, x1, fun h => x2 ((hmem k).mpr h), x3, x4⟩

/-- The manager `mgrDemo` with the active addresses `f1a` and `f1d`: the idle worker of
`f1a` is kept, a worker is created for `f1d`, the busy worker of `f1b` is kept, and the
idle worker of `f1c` is closed and removed. -/
theorem tryUpdateWorks_reconciles_witness :
    mgrDemo.tryUpdateWorks (addressMap activeDemo)
      = Except.ok
          ({ works := [("f1a", { addr := "f1a", ptr := 0 }), ("f1d", { addr := "f1d", ptr := 3 }),
                       ("f1b", { addr := "f1b", ptr := 1, controlChan := 1 })]
             nextPtr := 4 },
           [{ addr := "f1c", ptr := 2, controlChan := 1, ctxDone := true,
              controlClosed := true }]) ∧
    ∃ m1 closed, mgrDemo.tryUpdateWorks (addressMap activeDemo) = Except.ok (m1, closed) ∧
      m1.wf :=
  ⟨rfl,
    (tryUpdateWorks_reconciles mgrDemo activeDemo ⟨by decide, by decide⟩).elim
      (fun m1 h => h.elim (fun closed h2 => ⟨m1, closed, h2.1, h2.2.1⟩))⟩

/-! ## The address service: proofs -/

theorem AddressService.setAddressState_get_ne (s : AddressService) (a k : AddrKey)
    (st : AddressState) (h : k ≠ a) :
    (s.setAddressState a st).GetAddressInfo k = s.GetAddressInfo k := by
  unfold AddressService.setAddressState AddressService.GetAddressInfo
  cases GoMap.get s.addrInfo a with
  | none => rfl
  | some info => exact GoMap.get_set_ne _ _ _ _ h

theorem AddressService.setAddressState_get_self (s : AddressService) (a : AddrKey)
    (st : AddressState) :
    (s.setAddressState a st).GetAddressInfo a
      = (s.GetAddressInfo a).map (fun info => { info with State := st }) := by
  unfold AddressService.setAddressState AddressService.GetAddressInfo
  cases h : GoMap.get s.addrInfo a with
  | none =>
    simp only [Option.map_none']
    exact h
  | some info =>
    simp only [Option.map_some']
    exact GoMap.get_set_self _ _ _

theorem AddressService.setAddressState_repo (s : AddressService) (a : AddrKey)
    (st : AddressState) :
    (s.setAddressState a st).repo = s.repo ∧ (s.setAddressState a st).amendAddr = s.amendAddr := by
  unfold AddressService.setAddressState
  cases GoMap.get s.addrInfo a <;> exact ⟨rfl, rfl⟩

/-- The result of `DeleteAddress` by the statements that fail. -/
theorem AddressService.DeleteAddress_eq (env : AddrEnv) (s : AddressService) (a : AddrKey) :
    AddressService.DeleteAddress env s a
      = match env.UpdateAddressState a AddressState.Notfound with
        | some err => (some err, s)
        | none =>
          match env.UpdateUnFilledMessageStateByAddress a MessageState.NoWalletMsg with
          | some err =>
            (some err,
              AddressService.setAddressState
                { s with repo := s.repo.UpdateAddressState a AddressState.Notfound } a
                AddressState.Notfound)
          | none =>
            (none,
              { repo :=
                  (s.repo.UpdateAddressState a
                    AddressState.Notfound).UpdateUnFilledMessageStateByAddress a
                      MessageState.NoWalletMsg
                addrInfo := (s.setAddressState a AddressState.Notfound).addrInfo
                amendAddr := s.amendAddr ++ [a] }) := by
  unfold AddressService.DeleteAddress
  cases env.UpdateAddressState a AddressState.Notfound with
  | some err => rfl
  | none =>
    simp only
    cases env.UpdateUnFilledMessageStateByAddress a MessageState.NoWalletMsg with
    | some err => rfl
    | none =>
      simp only
      have h := AddressService.setAddressState_repo
        { s with repo := s.repo.UpdateAddressState a AddressState.Notfound } a
        AddressState.Notfound
      rw [h.1, h.2]
      congr 2
      unfold AddressService.setAddressState
      simp only
      cases GoMap.get s.addrInfo a <;> rfl

theorem AddressService.DeleteAddress_cache_ne (env : AddrEnv) (s : AddressService)
    (a k : AddrKey) (h : k ≠ a) :
    (AddressService.DeleteAddress env s a).2.GetAddressInfo k = s.GetAddressInfo k := by
  rw [AddressService.DeleteAddress_eq]
  cases env.UpdateAddressState a AddressState.Notfound with
  | some err => rfl
  | none =>
    simp only
    cases env.UpdateUnFilledMessageStateByAddress a MessageState.NoWalletMsg with
    | some err =>
      simp only
      exact AddressService.setAddressState_get_ne _ a k _ h
    | none =>
      simp only
      exact AddressService.setAddressState_get_ne s a k _ h

theorem Store.UpdateUnFilled_getElem (s : Store) (b : AddrKey) (st : MessageState)
    (i : Nat) (m : Message) (h : s.messages[i]? = some m) :
    (s.UpdateUnFilledMessageStateByAddress b st).messages[i]?
      = some (if m.Message.From = b ∧ m.State = MessageState.UnFillMsg then { m with State := st }
              else m) := by
  unfold Store.UpdateUnFilledMessageStateByAddress
  simp only [List.getElem?_map, h, Option.map_some']

/-- The messages of the store after any outcome of `DeleteAddress`: those of another sender
are as they were. -/
theorem AddressService.DeleteAddress_messages_ne (env : AddrEnv) (s : AddressService)
    (a : AddrKey) (i : Nat) (m : Message) (h : s.repo.messages[i]? = some m)
    (hne : m.Message.From ≠ a) :
    (AddressService.DeleteAddress env s a).2.repo.messages[i]? = some m := by
  rw [AddressService.DeleteAddress_eq]
  cases env.UpdateAddressState a AddressState.Notfound with
  | some err => exact h
  | none =>
    simp only
    cases env.UpdateUnFilledMessageStateByAddress a MessageState.NoWalletMsg with
    | some err =>
      simp only
      rw [(AddressService.setAddressState_repo _ a _).1]
      exact h
    | none =>
      simp only
      have h' : (s.repo.UpdateAddressState a AddressState.Notfound).messages[i]? = some m := h
      rw [Store.UpdateUnFilled_getElem _ a _ i m h', if_neg (fun hc => hne hc.1)]

theorem AddressService.DeleteAddress_rows (env : AddrEnv) (s : AddressService)
    (a b : AddrKey)
    (h : ∀ row ∈ s.repo.addresses, row.Addr = b → row.State = AddressState.Notfound) :
    ∀ row ∈ (AddressService.DeleteAddress env s a).2.repo.addresses, row.Addr = b →
      row.State = AddressState.Notfound := by
  rw [AddressService.DeleteAddress_eq]
  have hrows : ∀ row ∈ (s.repo.UpdateAddressState a AddressState.Notfound).addresses,
      row.Addr = b → row.State = AddressState.Notfound := by
    intro row hrow hb
    unfold Store.UpdateAddressState at hrow
    simp only at hrow
    obtain ⟨r0, hr0, hr⟩ := List.mem_map.mp hrow
    by_cases hc : r0.Addr = a
    · rw [if_pos hc] at hr
      subst hr
      rfl
    · rw [if_neg hc] at hr
      subst hr
      exact h _ hr0 hb
  cases env.UpdateAddressState a AddressState.Notfound with
  | some err => exact h
  | none =>
    simp only
    cases env.UpdateUnFilledMessageStateByAddress a MessageState.NoWalletMsg with
    | some err =>
      simp only
      rw [(AddressService.setAddressState_repo _ a _).1]
      exact hrows
    | none => exact hrows

theorem AddressService.DeleteAddress_amend_mono (env : AddrEnv) (s : AddressService)
    (a b : AddrKey) (h : b ∈ s.amendAddr) :
    b ∈ (AddressService.DeleteAddress env s a).2.amendAddr := by
  rw [AddressService.DeleteAddress_eq]
  cases env.UpdateAddressState a AddressState.Notfound with
  | some err => exact h
  | none =>
    simp only
    cases env.UpdateUnFilledMessageStateByAddress a MessageState.NoWalletMsg with
    | some err =>
      simp only
      rw [(AddressService.setAddressState_repo _ a _).2]
      exact h
    | none => exact List.mem_append_left _ h

/-- A call of `DeleteAddress` for another address keeps an address as it was. -/
theorem AddressService.DeleteAddress_sameFor (env : AddrEnv) (s0 s : AddressService)
    (a b : AddrKey) (hne : b ≠ a) (h : AddressService.sameFor s0 s b) :
    AddressService.sameFor s0 (AddressService.DeleteAddress env s a).2 b := by
  refine ⟨?_, ?_⟩
  · rw [AddressService.DeleteAddress_cache_ne env s a b hne]
    exact h.1
  · intro i m hm hfrom
    exact AddressService.DeleteAddress_messages_ne env s a i m (h.2 i m hm hfrom)
      (by rw [hfrom]; exact hne)

/-- A call of `DeleteAddress` for another address keeps a removed address removed. -/
theorem AddressService.DeleteAddress_removedFor (env : AddrEnv) (s0 s : AddressService)
    (a b : AddrKey) (hne : b ≠ a) (h : AddressService.removedFor s0 s b) :
    AddressService.removedFor s0 (AddressService.DeleteAddress env s a).2 b := by
  obtain ⟨h1, ⟨info, h2, h3⟩, h4, h5⟩ := h
  refine ⟨AddressService.DeleteAddress_rows env s a b h1, ⟨info, h2, ?_⟩, ?_,
    AddressService.DeleteAddress_amend_mono env s a b h5⟩
  · rw [AddressService.DeleteAddress_cache_ne env s a b hne]
    exact h3
  · intro i m hm hfrom
    exact AddressService.DeleteAddress_messages_ne env s a i _ (h4 i m hm hfrom)
      (by simp only; rw [hfrom]; exact hne)

/-- A successful call of `DeleteAddress` removes a cached address that was as at the
start. -/
theorem AddressService.DeleteAddress_removes (env : AddrEnv) (s0 s : AddressService)
    (a : AddrKey) (info : AddressInfo) (hinfo : s0.GetAddressInfo a = some info)
    (h : AddressService.sameFor s0 s a)
    (hok : (AddressService.DeleteAddress env s a).1 = none) :
    AddressService.removedFor s0 (AddressService.DeleteAddress env s a).2 a := by
  rw [AddressService.DeleteAddress_eq] at hok ⊢
  cases h1 : env.UpdateAddressState a AddressState.Notfound with
  | some err =>
    rw [h1] at hok
    cases hok
  | none =>
    rw [h1] at hok
    simp only at hok ⊢
    cases h2 : env.UpdateUnFilledMessageStateByAddress a MessageState.NoWalletMsg with
    | some err =>
      rw [h2] at hok
      cases hok
    | none =>
      simp only
      refine ⟨?_, ⟨info, hinfo, ?_⟩, ?_, ?_⟩
      · intro row hrow ha
        unfold Store.UpdateUnFilledMessageStateByAddress Store.UpdateAddressState at hrow
        simp only at hrow
        obtain ⟨r0, hr0, hr⟩ := List.mem_map.mp hrow
        by_cases hc : r0.Addr = a
        · rw [if_pos hc] at hr
          subst hr
          rfl
        · rw [if_neg hc] at hr
          subst hr
          exact absurd ha hc
      · have := AddressService.setAddressState_get_self s a AddressState.Notfound
        rw [h.1, hinfo] at this
        exact this
      · intro i m hm hfrom
        have h' : (s.repo.UpdateAddressState a AddressState.Notfound).messages[i]? = some m :=
          h.2 i m hm hfrom
        simp only
        rw [Store.UpdateUnFilled_getElem _ a _ i m h']
        by_cases hs : m.State = MessageState.UnFillMsg
        · rw [if_pos ⟨hfrom, hs⟩, if_pos hs]
        · rw [if_neg (fun hc => hs hc.2), if_neg hs]
      · exact List.mem_append_right _ (List.mem_singleton.mpr rfl)

/-- Whether `DeleteAddress` returns an error does not depend on the state of the service. -/
theorem AddressService.DeleteAddress_err (env : AddrEnv) (s s' : AddressService) (a : AddrKey) :
    (AddressService.DeleteAddress env s a).1 = (AddressService.DeleteAddress env s' a).1 := by
  rw [AddressService.DeleteAddress_eq, AddressService.DeleteAddress_eq]
  cases env.UpdateAddressState a AddressState.Notfound with
  | some err => rfl
  | none =>
    simp only
    cases env.UpdateUnFilledMessageStateByAddress a MessageState.NoWalletMsg <;> rfl

/-- One round of the first loop changes neither the messages nor the cache entry of another
address. -/
theorem ProcessWallet.syncOne_frame (env : AddrEnv) (walletID cli : Nat) (svc : AddressService)
    (addr : AddrKey) :
    (ProcessWallet.syncOne env walletID cli svc addr).repo.messages = svc.repo.messages ∧
    (ProcessWallet.syncOne env walletID cli svc addr).amendAddr = svc.amendAddr ∧
    ∀ a, a ≠ addr →
      (ProcessWallet.syncOne env walletID cli svc addr).GetAddressInfo a
        = svc.GetAddressInfo a := by
  unfold ProcessWallet.syncOne
  split
  · exact ⟨rfl, rfl, fun _ _ => rfl⟩
  · simp only
    split
    · exact ⟨rfl, rfl, fun _ _ => rfl⟩
    · split
      · split
        · exact ⟨rfl, rfl, fun _ _ => rfl⟩
        · exact ⟨rfl, rfl, fun a ha => GoMap.get_set_ne _ _ _ _ ha⟩
      · split
        · exact ⟨rfl, rfl, fun _ _ => rfl⟩
        · exact ⟨rfl, rfl, fun a ha => GoMap.get_set_ne _ _ _ _ ha⟩

/-- The first loop: `walletAddrs` loses the listed addresses, and an address that is not
listed is as it was. -/
theorem ProcessWallet.syncLoop_spec (env : AddrEnv) (walletID cli : Nat) (s0 : AddressService)
    (l : List AddrKey) :
    ∀ (svc : AddressService) (walletAddrs : List AddrKey),
      (∀ x, x ∈ (ProcessWallet.syncLoop env walletID cli l svc walletAddrs).2
        ↔ x ∈ walletAddrs ∧ x ∉ l) ∧
      (∀ a, a ∉ l → AddressService.sameFor s0 svc a →
        AddressService.sameFor s0 (ProcessWallet.syncLoop env walletID cli l svc walletAddrs).1
          a) := by
  induction l with
  | nil =>
    intro svc wa
    refine ⟨?_, fun a _ h => h⟩
    intro x
    simp [ProcessWallet.syncLoop]
  | cons addr rest ih =>
    intro svc wa
    rw [ProcessWallet.syncLoop]
    obtain ⟨i1, i2⟩ := ih (ProcessWallet.syncOne env walletID cli svc addr)
      (wa.filter (fun a => a != addr))
    obtain ⟨f1, -, f3⟩ := ProcessWallet.syncOne_frame env walletID cli svc addr
    refine ⟨?_, ?_⟩
    · intro x
      rw [i1 x, List.mem_filter, List.mem_cons, not_or]
      simp only [bne_iff_ne, ne_eq]
      tauto
    · intro a ha h
      rw [List.mem_cons, not_or] at ha
      refine i2 a ha.2 ⟨?_, ?_⟩
      · rw [f3 a ha.1]
        exact h.1
      · intro i m hm hfrom
        rw [f1]
        exact h.2 i m hm hfrom

theorem ProcessWallet.deleteLoop_skip (env : AddrEnv) (addr : AddrKey) (rest : List AddrKey)
    (run : SyncRun)
    (h : ∀ info, run.svc.GetAddressInfo addr = some info → info.State = AddressState.Notfound) :
    ProcessWallet.deleteLoop env (addr :: rest) run = ProcessWallet.deleteLoop env rest run := by
  rw [ProcessWallet.deleteLoop]
  cases hg : run.svc.GetAddressInfo addr with
  | none => rfl
  | some info =>
    simp only
    rw [if_pos (h info hg)]

theorem ProcessWallet.deleteLoop_call (env : AddrEnv) (addr : AddrKey) (rest : List AddrKey)
    (run : SyncRun) (info : AddressInfo) (hg : run.svc.GetAddressInfo addr = some info)
    (h : info.State ≠ AddressState.Notfound) :
    ProcessWallet.deleteLoop env (addr :: rest) run
      = ProcessWallet.deleteLoop env rest
          { run with
            svc := (AddressService.DeleteAddress env run.svc addr).2
            deleted := run.deleted ++ [addr] } := by
  rw [ProcessWallet.deleteLoop]
  simp only [hg]
  rw [if_neg h]

/-- The second loop: the addresses handed to `DeleteAddress` are those of the list that are
cached and not `Notfound`; a removed address stays removed; and an address of the list that
is as at the start, cached and not `Notfound`, and whose `DeleteAddress` succeeds, is
removed. -/
theorem ProcessWallet.deleteLoop_spec (env : AddrEnv) (s0 : AddressService)
    (l : List AddrKey) :
    ∀ run : SyncRun,
      (∀ x, x ∈ (ProcessWallet.deleteLoop env l run).deleted ↔
        x ∈ run.deleted ∨
          (x ∈ l ∧ ∃ info, run.svc.GetAddressInfo x = some info ∧
            info.State ≠ AddressState.Notfound)) ∧
      (∀ a, AddressService.removedFor s0 run.svc a →
        AddressService.removedFor s0 (ProcessWallet.deleteLoop env l run).svc a) ∧
      (∀ a info, a ∈ l → AddressService.sameFor s0 run.svc a →
        s0.GetAddressInfo a = some info → info.State ≠ AddressState.Notfound →
        (AddressService.DeleteAddress env s0 a).1 = none →
        AddressService.removedFor s0 (ProcessWallet.deleteLoop env l run).svc a) ∧
      (ProcessWallet.deleteLoop env l run).err = run.err := by
  induction l with
  | nil =>
    intro run
    refine ⟨?_, fun a h => h, fun a info ha => (by cases ha), rfl⟩
    intro x
    simp [ProcessWallet.deleteLoop]
  | cons b rest ih =>
    intro run
    by_cases hskip : ∀ info, run.svc.GetAddressInfo b = some info →
        info.State = AddressState.Notfound
    · rw [ProcessWallet.deleteLoop_skip env b rest run hskip]
      obtain ⟨i1, i2, i3, i4⟩ := ih run
      refine ⟨?_, i2, ?_, i4⟩
      · intro x
        rw [i1 x, List.mem_cons]
        constructor
        · rintro (h | ⟨h, h'⟩)
          · exact Or.inl h
          · exact Or.inr ⟨Or.inr h, h'⟩
        · rintro (h | ⟨h | h, info, h1, h2⟩)
          · exact Or.inl h
          · subst h
            exact absurd (hskip info h1) h2
          · exact Or.inr ⟨h, info, h1, h2⟩
      · intro a info ha hsame hinfo hst hok
        rcases List.mem_cons.mp ha with h | h
        · subst h
          have := hskip info (by rw [hsame.1]; exact hinfo)
          exact absurd this hst
        · exact i3 a info h hsame hinfo hst hok
    · have hcall : ∃ info, run.svc.GetAddressInfo b = some info ∧
          info.State ≠ AddressState.Notfound := by
        by_contra hc
        apply hskip
        intro info hinfo
        by_contra hst
        exact hc ⟨info, hinfo, hst⟩
      obtain ⟨binfo, hb1, hb2⟩ := hcall
      rw [ProcessWallet.deleteLoop_call env b rest run binfo hb1 hb2]
      obtain ⟨i1, i2, i3, i4⟩ := ih
        { run with
          svc := (AddressService.DeleteAddress env run.svc b).2
          deleted := run.deleted ++ [b] }
      simp only at i1 i2 i3 i4
      refine ⟨?_, ?_, ?_, i4⟩
      · intro x
        rw [i1 x, List.mem_cons, List.mem_append, List.mem_singleton]
        by_cases hx : x = b
        · subst hx
          constructor
          · intro _
            exact Or.inr ⟨Or.inl rfl, binfo, hb1, hb2⟩
          · intro _
            exact Or.inl (Or.inr rfl)
        · rw [AddressService.DeleteAddress_cache_ne env run.svc b x hx]
          constructor
          · rintro ((h | h) | ⟨h, h'⟩)
            · exact Or.inl h
            · exact absurd h hx
            · exact Or.inr ⟨Or.inr h, h'⟩
          · rintro (h | ⟨h | h, h'⟩)
            · exact Or.inl (Or.inl h)
            · exact absurd h hx
            · exact Or.inr ⟨h, h'⟩
      · intro a hrem
        have hne : a ≠ b := by
          intro h
          subst h
          obtain ⟨-, ⟨info, -, h3⟩, -, -⟩ := hrem
          rw [hb1] at h3
          injection h3 with h3
          rw [h3] at hb2
          exact hb2 rfl
        exact i2 a (AddressService.DeleteAddress_removedFor env s0 run.svc b a hne hrem)
      · intro a info ha hsame hinfo hst hok
        by_cases hab : a = b
        · subst hab
          apply i2
          exact AddressService.DeleteAddress_removes env s0 run.svc a info hinfo hsame
            (by rw [AddressService.DeleteAddress_err env run.svc s0 a]; exact hok)
        · rcases List.mem_cons.mp ha with h | h
          · exact absurd h hab
          · exact i3 a info h
              (AddressService.DeleteAddress_sameFor env s0 run.svc b a hab hsame) hinfo hst hok

theorem AddressService.mem_ListOneWalletAddress (svc : AddressService) (walletId : Nat)
    (hmap : (GoMap.keys svc.addrInfo).Nodup) (x : AddrKey) :
    x ∈ svc.ListOneWalletAddress walletId ↔
      ∃ info, svc.GetAddressInfo x = some info ∧ info.WalletId = walletId := by
  unfold AddressService.ListOneWalletAddress AddressService.GetAddressInfo
  constructor
  · intro h
    obtain ⟨kv, hkv, hx⟩ := List.mem_map.mp h
    obtain ⟨hmem, hw⟩ := List.mem_filter.mp hkv
    obtain ⟨k, info⟩ := kv
    simp only at hx hw
    subst hx
    exact ⟨info, GoMap.get_of_mem _ _ _ hmap hmem, by simpa using hw⟩
  · rintro ⟨info, hget, hw⟩
    exact List.mem_map.mpr ⟨(x, info),
      List.mem_filter.mpr ⟨GoMap.mem_of_get _ _ _ hget, by simpa using hw⟩, rfl⟩

/-- C19: in a wallet sync tick whose wallet listing succeeds, the addresses handed to
`DeleteAddress` are exactly those cached for the wallet, absent from the listing and not
`Notfound`; and for each of them whose `DeleteAddress` returns no error, after the tick every
repository row of the address and its cache entry have the state `Notfound`, each of its
messages that was `UnFillMsg` is `NoWalletMsg` and each other message of it is as it was,
and the address is in `amendAddr`. -/
theorem ProcessWallet_removes (env : AddrEnv) (svc : AddressService) (walletID cli : Nat)
    (addrs : List AddrKey) (hlist : env.WalletList cli = Except.ok addrs)
    (hmap : (GoMap.keys svc.addrInfo).Nodup) :
    (∀ a, a ∈ (svc.ProcessWallet env walletID cli).deleted ↔
      ∃ info, svc.GetAddressInfo a = some info ∧ info.WalletId = walletID ∧ a ∉ addrs ∧
        info.State ≠ AddressState.Notfound) ∧
    (∀ a info, svc.GetAddressInfo a = some info → info.WalletId = walletID → a ∉ addrs →
      info.State ≠ AddressState.Notfound →
      (AddressService.DeleteAddress env svc a).1 = none →
      (∀ row ∈ (svc.ProcessWallet env walletID cli).svc.repo.addresses, row.Addr = a →
        row.State = AddressState.Notfound) ∧
      (svc.ProcessWallet env walletID cli).svc.GetAddressInfo a
        = some { info with State := AddressState.Notfound } ∧
      (∀ (i : Nat) (m : Message), svc.repo.messages[i]? = some m → m.Message.From = a →
        (svc.ProcessWallet env walletID cli).svc.repo.messages[i]? = some
          { m with
            State := if m.State = MessageState.UnFillMsg then MessageState.NoWalletMsg
                     else m.State }) ∧
      a ∈ (svc.ProcessWallet env walletID cli).svc.amendAddr) := by
  unfold AddressService.ProcessWallet
  rw [hlist]
  simp only
  obtain ⟨s1, s2⟩ := ProcessWallet.syncLoop_spec env walletID cli svc addrs svc
    (svc.ListOneWalletAddress walletID)
  cases hsync : ProcessWallet.syncLoop env walletID cli addrs svc
      (svc.ListOneWalletAddress walletID) with
  | mk svc1 walletAddrs =>
    rw [hsync] at s1 s2
    simp only at s1 s2 ⊢
    obtain ⟨d1, -, d3, -⟩ := ProcessWallet.deleteLoop_spec env svc walletAddrs { svc := svc1 }
    simp only at d1 d3
    have hsame : ∀ a, a ∉ addrs → AddressService.sameFor svc svc1 a :=
      fun a ha => s2 a ha ⟨rfl, fun i m hm _ => hm⟩
    refine ⟨?_, ?_⟩
    · intro a
      rw [d1 a, s1 a, AddressService.mem_ListOneWalletAddress svc walletID hmap a]
      constructor
      · rintro (h | ⟨⟨⟨info, h1, h2⟩, h3⟩, info', h4, h5⟩)
        · cases h
        · rw [(hsame a h3).1, h1] at h4
          injection h4 with h4
          subst h4
          exact ⟨info, h1, h2, h3, h5⟩
      · rintro ⟨info, h1, h2, h3, h5⟩
        exact Or.inr ⟨⟨⟨info, h1, h2⟩, h3⟩, info, by rw [(hsame a h3).1]; exact h1, h5⟩
    · intro a info hinfo hw ha hst hok
      have hmem : a ∈ walletAddrs :=
        (s1 a).mpr ⟨(AddressService.mem_ListOneWalletAddress svc walletID hmap a).mpr
          ⟨info, hinfo, hw⟩, ha⟩
      obtain ⟨r1, ⟨info', r2, r3⟩, r4, r5⟩ := d3 a info hmem (hsame a ha) hinfo hst hok
      rw [hinfo] at r2
      injection r2 with r2
      subst r2
      exact ⟨r1, r3, r4, r5⟩

/-- The tick of `svcDemo` for the wallet 1 that lists `f1a` only: `f1b` is handed to
`DeleteAddress` and `f1c`, which is `Notfound` already, is not; afterwards the unfilled
message of `f1b` is `NoWalletMsg`, its filled message is `FillMsg` still, and `f1b` awaits
amendment. -/
theorem ProcessWallet_removes_witness :
    (svcDemo.ProcessWallet addrEnvDemo 1 0).deleted = ["f1b"] ∧
    (svcDemo.ProcessWallet addrEnvDemo 1 0).svc.repo.messages.map (fun m => (m.ID, m.State))
      = [("u1", MessageState.NoWalletMsg), ("s1", MessageState.FillMsg),
         ("u2", MessageState.UnFillMsg)] ∧
    (svcDemo.ProcessWallet addrEnvDemo 1 0).svc.repo.addresses.map (fun r => (r.Addr, r.State))
      = [("f1a", AddressState.Alive), ("f1b", AddressState.Notfound),
         ("f1c", AddressState.Notfound)] ∧
    (svcDemo.ProcessWallet addrEnvDemo 1 0).svc.amendAddr = ["f1b"] ∧
    ∀ a, a ∈ (svcDemo.ProcessWallet addrEnvDemo 1 0).deleted ↔
      ∃ info, svcDemo.GetAddressInfo a = some info ∧ info.WalletId = 1 ∧ a ∉ ["f1a"] ∧
        info.State ≠ AddressState.Notfound :=
  ⟨by decide, by decide, by decide, by decide,
    (ProcessWallet_removes addrEnvDemo svcDemo 1 0 ["f1a"] rfl (by decide)).1⟩

theorem Store.ListFilledMessageByAddress_ne_nil (s : Store) (addr : AddrKey)
    (h : ∃ m ∈ s.messages, m.Message.From = addr ∧ m.State = MessageState.FillMsg) :
    (s.ListFilledMessageByAddress addr).length ≠ 0 := by
  obtain ⟨m, hm, h1, h2⟩ := h
  have : m ∈ s.ListFilledMessageByAddress addr := by
    unfold Store.ListFilledMessageByAddress
    exact List.mem_filter.mpr ⟨hm, by simp [h1, h2]⟩
  intro hlen
  rw [List.length_eq_zero] at hlen
  rw [hlen] at this
  cases this

theorem Store.ListFilledMessageByAddress_nil (s : Store) (addr : AddrKey)
    (h : (s.ListFilledMessageByAddress addr).length = 0) :
    ∀ m ∈ s.messages, m.Message.From = addr → m.State ≠ MessageState.FillMsg := by
  intro m hm hfrom hst
  exact Store.ListFilledMessageByAddress_ne_nil s addr ⟨m, hm, hfrom, hst⟩ h

theorem Store.DelAddress_HasAddress (s : Store) (addr : AddrKey) :
    (s.DelAddress addr).HasAddress addr = false := by
  unfold Store.DelAddress Store.HasAddress
  simp only [List.any_eq_false, List.mem_filter]
  intro a ha
  simpa using ha.2

/-- The round of the amendment loop when the listing fails or is not empty. -/
theorem checkAddressState.amend_pending (env : AddrEnv) (svc : AddressService) (addr : AddrKey)
    (h : env.ListFilledMessageByAddress addr ≠ none ∨
      (svc.repo.ListFilledMessageByAddress addr).length ≠ 0) :
    checkAddressState.amend env svc addr = { svc := svc, isDeleted := false, resend := true } := by
  unfold checkAddressState.amend
  cases hl : env.ListFilledMessageByAddress addr with
  | some e => rfl
  | none =>
    rcases h with h | h
    · exact absurd hl h
    · simp only [if_neg h]
      rfl

/-- The round of the amendment loop when the listing succeeds and is empty. -/
theorem checkAddressState.amend_empty (env : AddrEnv) (svc : AddressService) (addr : AddrKey)
    (h1 : env.ListFilledMessageByAddress addr = none)
    (h2 : (svc.repo.ListFilledMessageByAddress addr).length = 0) :
    checkAddressState.amend env svc addr
      = if (match env.GetAddress addr, svc.repo.GetAddress addr with
            | none, some addrInfo => addrInfo.State == AddressState.Alive
            | _, _ => false) then { svc := svc, isDeleted := true }
        else
          match env.DelAddress addr with
          | some _ => { svc := svc, isDeleted := false, resend := true }
          | none =>
            { svc := AddressService.RemoveAddressInfo
                { svc with repo := svc.repo.DelAddress addr } addr
              isDeleted := true } := by
  unfold checkAddressState.amend
  simp only [h1, h2, if_true]
  split
  · rfl
  · cases env.DelAddress addr <;> rfl

/-- One round of the amendment loop for an address.  When the listing of its filled
messages fails, or the repository holds a message of it in the state `FillMsg`, the service
is as before and a delayed sender is started.  When the listing succeeds and is empty: an
address whose row is read as `Alive` is left as it is and no sender is started; otherwise
the row is deleted, and when that succeeds the address has no row and no cache entry and no
sender is started, and when it fails nothing is changed and a sender is started.  So
whenever the repository or the cache is changed, the listing succeeded and no message of
the address is in the state `FillMsg`. -/
theorem checkAddressState.amend_rounds (env : AddrEnv) (svc : AddressService) (addr : AddrKey) :
    ((env.ListFilledMessageByAddress addr ≠ none ∨
        ∃ m ∈ svc.repo.messages, m.Message.From = addr ∧ m.State = MessageState.FillMsg) →
      (checkAddressState.amend env svc addr).svc = svc ∧
      (checkAddressState.amend env svc addr).resend = true) ∧
    (env.ListFilledMessageByAddress addr = none →
      (svc.repo.ListFilledMessageByAddress addr).length = 0 →
      (env.GetAddress addr = none →
        (∃ row, svc.repo.GetAddress addr = some row ∧ row.State = AddressState.Alive) →
        (checkAddressState.amend env svc addr).svc = svc ∧
        (checkAddressState.amend env svc addr).resend = false) ∧
      ((env.GetAddress addr ≠ none ∨
          ∀ row, svc.repo.GetAddress addr = some row → row.State ≠ AddressState.Alive) →
        (env.DelAddress addr = none →
          (checkAddressState.amend env svc addr).svc.repo = svc.repo.DelAddress addr ∧
          (checkAddressState.amend env svc addr).svc.repo.HasAddress addr = false ∧
          (checkAddressState.amend env svc addr).svc.GetAddressInfo addr = none ∧
          (checkAddressState.amend env svc addr).svc.amendAddr = svc.amendAddr ∧
          (checkAddressState.amend env svc addr).resend = false) ∧
        (env.DelAddress addr ≠ none →
          (checkAddressState.amend env svc addr).svc = svc ∧
          (checkAddressState.amend env svc addr).resend = true))) ∧
    (((checkAddressState.amend env svc addr).svc.repo ≠ svc.repo ∨
        (checkAddressState.amend env svc addr).svc.addrInfo ≠ svc.addrInfo) →
      env.ListFilledMessageByAddress addr = none ∧
      ∀ m ∈ svc.repo.messages, m.Message.From = addr → m.State ≠ MessageState.FillMsg) := by
  have hpend : (env.ListFilledMessageByAddress addr ≠ none ∨
      (svc.repo.ListFilledMessageByAddress addr).length ≠ 0) →
      (checkAddressState.amend env svc addr).svc = svc ∧
      (checkAddressState.amend env svc addr).resend = true := by
    intro h
    rw [checkAddressState.amend_pending env svc addr h]
    exact ⟨rfl, rfl⟩
  refine ⟨?_, ?_, ?_⟩
  · intro h
    apply hpend
    rcases h with h | h
    · exact Or.inl h
    · exact Or.inr (Store.ListFilledMessageByAddress_ne_nil svc.repo addr h)
  · intro h1 h2
    rw [checkAddressState.amend_empty env svc addr h1 h2]
    constructor
    · rintro hg ⟨row, hrow, hst⟩
      simp only [hg, hrow, hst, beq_self_eq_true, if_true]
      trivial
    · intro hnot
      have hcond : (match env.GetAddress addr, svc.repo.GetAddress addr with
            | none, some addrInfo => addrInfo.State == AddressState.Alive
            | _, _ => false) = false := by
        split
        · rename_i row hg hrow
          rcases hnot with h | h
          · exact absurd hg h
          · simpa using h row hrow
        · rfl
      rw [hcond]
      simp only [Bool.false_eq_true, if_false]
      constructor
      · intro hd
        rw [hd]
        exact ⟨rfl, Store.DelAddress_HasAddress _ _, GoMap.get_delete_self _ _, rfl, rfl⟩
      · intro hd
        cases hdel : env.DelAddress addr with
        | none => exact absurd hdel hd
        | some e => exact ⟨rfl, rfl⟩
  · intro hchg
    by_cases h : env.ListFilledMessageByAddress addr ≠ none ∨
        (svc.repo.ListFilledMessageByAddress addr).length ≠ 0
    · obtain ⟨x1, -⟩ := hpend h
      rcases hchg with hc | hc
      · exact absurd (by rw [x1]) hc
      · exact absurd (by rw [x1]) hc
    · rw [not_or, not_not, not_not] at h
      exact ⟨h.1, Store.ListFilledMessageByAddress_nil svc.repo addr h.2⟩

/-- A round for an address whose listing fails or is not empty, followed by the wake of a
delayed sender with no other round in between: the sender sends that address. -/
theorem checkAddressState.resend_alone (env : AddrEnv) (l : AmendLoop) (addr : AddrKey)
    (rest : List AddrKey) (hq : l.svc.amendAddr = addr :: rest)
    (h : env.ListFilledMessageByAddress addr ≠ none ∨
      ∃ m ∈ l.svc.repo.messages, m.Message.From = addr ∧ m.State = MessageState.FillMsg) :
    checkAddressState.run env l [AmendEvent.receive, AmendEvent.wake]
      = { svc := { l.svc with amendAddr := rest ++ [addr] }, addr := addr
          sleeping := l.sleeping } := by
  have h1 : env.ListFilledMessageByAddress addr ≠ none ∨
      (({ l.svc with amendAddr := rest } : AddressService).repo.ListFilledMessageByAddress
        addr).length ≠ 0 := by
    rcases h with h | h
    · exact Or.inl h
    · exact Or.inr (Store.ListFilledMessageByAddress_ne_nil l.svc.repo addr h)
  simp only [checkAddressState.run, List.foldl_cons, List.foldl_nil, checkAddressState.step, hq,
    checkAddressState.amend_pending env _ addr h1]
  simp

/-- C20, the failing run: the wallet no longer lists `f1b` and `f1d`, which have a filled
message each, and the sync tick sends both to `amendAddr`.  The loop runs a round for each
while the messages are listed: the rows stay and two delayed senders sleep, the loop
variable holding `f1d`.  When the senders wake, both send `f1d`: `f1b` is not sent to
`amendAddr` again.  Once the messages are on chain the two rounds that follow remove the
row and the cache entry of `f1d`; `f1b` keeps its `Notfound` row and cache entry, the
channel is empty and no sender sleeps. -/
theorem amend_resends_loop_variable :
    amendDemo.svc.amendAddr = ["f1b", "f1d"] ∧
    (amendDemo.svc.repo.ListFilledMessageByAddress "f1b").map (fun m => m.ID) = ["s1"] ∧
    amendDemoRounds.svc.repo.addresses.map (fun r => (r.Addr, r.State))
      = [("f1a", AddressState.Alive), ("f1b", AddressState.Notfound),
         ("f1d", AddressState.Notfound)] ∧
    (amendDemoRounds.svc.amendAddr, amendDemoRounds.addr, amendDemoRounds.sleeping)
      = ([], "f1d", 2) ∧
    (amendDemoWoken.svc.amendAddr, amendDemoWoken.addr, amendDemoWoken.sleeping)
      = (["f1d", "f1d"], "f1d", 0) ∧
    "f1b" ∉ amendDemoWoken.svc.amendAddr ∧
    amendDemoLater.svc.repo.addresses.map (fun r => (r.Addr, r.State))
      = [("f1a", AddressState.Alive), ("f1b", AddressState.Notfound)] ∧
    amendDemoLater.svc.addrInfo.map (fun e => (e.1, e.2.State))
      = [("f1a", AddressState.Alive), ("f1b", AddressState.Notfound)] ∧
    (amendDemoLater.svc.repo.ListFilledMessageByAddress "f1b").length = 0 ∧
    (amendDemoLater.svc.amendAddr, amendDemoLater.sleeping) = ([], 0) := by
  decide

/-! ## Start-up, fee cap, and the failing cases of the gas policy and the address service -/

/-- C21, the failing start-up: with the block delay 30 s and the configured duration 8 s
the test compares 30 with the 8 000 000 000 nanoseconds of the duration, and the duration
is raised to 15 s. -/
theorem runAction_stable_duration_raised :
    runAction.WaitingChainHeadStableDuration none 30 (8 * Second) = Except.ok (15 * Second) := by
  rfl

theorem toUint64_of_nonneg (x : Int) (h0 : 0 ≤ x) (h1 : x < 18446744073709551616) :
    (toUint64 x : Int) = x := by
  unfold toUint64
  rw [Int.emod_eq_of_lt h0 h1]
  exact Int.toNat_of_nonneg h0

theorem toInt64_of_range (x : Int) (h0 : -9223372036854775808 ≤ x)
    (h1 : x < 9223372036854775808) : toInt64 x = x := by
  unfold toInt64
  rw [Int.emod_eq_of_lt (by omega) (by omega)]
  omega

/-- The adjustment for a duration of `k` whole seconds, `k ≥ 1`, and a block delay below
`10^9` seconds: the duration becomes half the block delay whatever `k` is. -/
theorem runAction.WaitingChainHeadStableDuration_seconds (d k : Nat) (hk : 1 ≤ k)
    (hk2 : k ≤ 9000000000) (hd : d < 1000000000) :
    runAction.WaitingChainHeadStableDuration none d (k * Second)
      = Except.ok ((d / 2 : Nat) * Second) := by
  unfold runAction.WaitingChainHeadStableDuration
  have hc : (toUint64 (k * Second) : Int) = k * Second :=
    toUint64_of_nonneg _ (by unfold Second; omega) (by unfold Second; omega)
  have hle : d ≤ toUint64 (k * Second) := by
    have : (d : Int) ≤ (toUint64 (k * Second) : Int) := by
      rw [hc]
      unfold Second
      omega
    exact_mod_cast this
  rw [if_pos hle]
  simp only
  have h2 : d / 2 < 1000000000 := by omega
  rw [toInt64_of_range ((d / 2 : Nat) : Int) (by omega) (by omega)]
  rw [toInt64_of_range _ (by unfold Second; omega) (by unfold Second; omega)]

/-- Without a global spec, and with no `GasOverPremium` on the message and on the address,
`mergeMsgSpec` dereferences the nil global spec. -/
theorem mergeMsgSpec_nil_deref (sendSpec : SendSpec) (addrInfo : Address) (msg : Message)
    (hs : sendSpec.GasOverPremium.isZero = true) (ha : addrInfo.GasOverPremium.isZero = true) :
    mergeMsgSpec none sendSpec addrInfo msg
      = Except.error (Fault.panic "nil pointer dereference") := by
  rw [mergeMsgSpec_blocks]
  unfold mergeMsgSpec.overPremium
  simp only [hs, ha, if_true, Bool.not_true, Bool.false_eq_true, if_false]

/-- C29, the failing tick: `f1a` is forbidden in the repository and in the cache and the
wallet still lists it; after the tick the row of `f1a` and its cache entry are `Alive`. -/
theorem ProcessWallet_undoes_forbid :
    (svcForbidden.ProcessWallet addrEnvDemo 1 0).svc.repo.addresses.map
        (fun r => (r.Addr, r.State)) = [("f1a", AddressState.Alive)] ∧
    ((svcForbidden.ProcessWallet addrEnvDemo 1 0).svc.GetAddressInfo "f1a").map
        (fun info => info.State) = some AddressState.Alive := by
  decide

/-- C30, the failing call: the second statement of `DeleteAddress` fails; the error is
returned, the row and the cache entry of `f1b` are `Notfound` already, its messages are as
they were, and `f1b` is not in `amendAddr`. -/
theorem DeleteAddress_error_leaves_notfound :
    (AddressService.DeleteAddress addrEnvFail svcDemo "f1b").1
      = some (GoError.plain "deadlock") ∧
    (AddressService.DeleteAddress addrEnvFail svcDemo "f1b").2.repo.addresses.map
        (fun r => (r.Addr, r.State))
      = [("f1a", AddressState.Alive), ("f1b", AddressState.Notfound),
         ("f1c", AddressState.Notfound)] ∧
    ((AddressService.DeleteAddress addrEnvFail svcDemo "f1b").2.GetAddressInfo "f1b").map
        (fun info => info.State) = some AddressState.Notfound ∧
    (AddressService.DeleteAddress addrEnvFail svcDemo "f1b").2.repo.messages
      = svcDemo.repo.messages ∧
    (AddressService.DeleteAddress addrEnvFail svcDemo "f1b").2.amendAddr = [] := by
  decide

/-- `CapGasFee` without a fee limit leaves the message as it is. -/
theorem CapGasFee_unlimited (msg : ChainMessage) (maxFee : BigInt)
    (h : BigInt.NilOrZero maxFee = true) : CapGasFee msg maxFee = Except.ok msg := by
  unfold CapGasFee
  rw [if_pos h]

/-- `CapGasFee` on a message whose fee is within the limit leaves it as it is. -/
theorem CapGasFee_within (msg : ChainMessage) (feeCap fee : Int)
    (hcap : msg.GasFeeCap = some feeCap)
    (h : feeCap * (toUint64 msg.GasLimit : Int) ≤ fee) :
    CapGasFee msg (some fee) = Except.ok msg := by
  unfold CapGasFee
  split
  · rfl
  · simp only [hcap]
    rw [if_pos h]

/-- `CapGasFee` on a message whose fee exceeds the limit. -/
theorem CapGasFee_lowered (msg : ChainMessage) (feeCap premium fee : Int)
    (hcap : msg.GasFeeCap = some feeCap) (hprem : msg.GasPremium = some premium)
    (hfee : fee ≠ 0) (hgl : (toUint64 msg.GasLimit : Int) ≠ 0)
    (h : ¬ feeCap * (toUint64 msg.GasLimit : Int) ≤ fee) :
    CapGasFee msg (some fee) = Except.ok
      { msg with
        GasFeeCap := some (Int.ediv fee (toUint64 msg.GasLimit))
        GasPremium := some (if Int.ediv fee (toUint64 msg.GasLimit) < premium then
          Int.ediv fee (toUint64 msg.GasLimit) else premium) } := by
  unfold CapGasFee
  have hz : BigInt.NilOrZero (some fee) = false := by
    unfold BigInt.NilOrZero
    simpa using hfee
  rw [if_neg (by rw [hz]; decide)]
  simp only [hcap, hprem]
  rw [if_neg h, if_neg hgl]

/-- C28: for a message with a positive gas limit, a fee cap and a premium, and a positive
`maxFee`, `CapGasFee` returns a message that differs from the given one at most in the fee
cap and the premium; its fee cap times the gas limit is at most `maxFee`; when the fee cap
was lowered the premium is at most the new fee cap; the message is unchanged when the fee
was within the limit already; and `CapGasFee` applied to the result returns the result.
Without a limit (`maxFee` nil or zero) any message is returned unchanged. -/
theorem CapGasFee_caps (msg : ChainMessage) (feeCap premium fee : Int)
    (hgl : 0 < msg.GasLimit) (hgl2 : msg.GasLimit < 9223372036854775808)
    (hcap : msg.GasFeeCap = some feeCap) (hprem : msg.GasPremium = some premium)
    (hfee : 0 < fee) :
    (∃ out newCap newPremium, CapGasFee msg (some fee) = Except.ok out ∧
      out = { msg with GasFeeCap := some newCap, GasPremium := some newPremium } ∧
      newCap * msg.GasLimit ≤ fee ∧
      newCap ≤ feeCap ∧
      (newCap < feeCap → newPremium ≤ newCap ∧ newPremium ≤ premium) ∧
      (feeCap * msg.GasLimit ≤ fee → out = msg) ∧
      CapGasFee out (some fee) = Except.ok out) ∧
    (∀ (m : ChainMessage) (maxFee : BigInt), BigInt.NilOrZero maxFee = true →
      CapGasFee m maxFee = Except.ok m) := by
  have hu : (toUint64 msg.GasLimit : Int) = msg.GasLimit :=
    toUint64_of_nonneg _ (by omega) (by omega)
  refine ⟨?_, CapGasFee_unlimited⟩
  by_cases h : feeCap * msg.GasLimit ≤ fee
  · have hsame : CapGasFee msg (some fee) = Except.ok msg :=
      CapGasFee_within msg feeCap fee hcap (by rw [hu]; exact h)
    refine ⟨msg, feeCap, premium, hsame, ?_, h, Int.le_refl _, ?_, fun _ => rfl, hsame⟩
    · cases msg
      simp only at hcap hprem
      subst hcap
      subst hprem
      rfl
    · intro hlt
      exact absurd hlt (Int.lt_irrefl _)
  · have hlow := CapGasFee_lowered msg feeCap premium fee hcap hprem (by omega)
      (by rw [hu]; omega) (by rw [hu]; exact h)
    rw [hu] at hlow
    have hdiv : Int.ediv fee msg.GasLimit * msg.GasLimit ≤ fee :=
      Int.ediv_mul_le fee (by omega)
    have hlt : Int.ediv fee msg.GasLimit < feeCap := by
      by_contra hc
      rw [Int.not_lt] at hc
      have := Int.mul_le_mul_of_nonneg_right hc (Int.le_of_lt hgl)
      exact h (Int.le_trans this hdiv)
    refine ⟨_, _, _, hlow, rfl, hdiv, Int.le_of_lt hlt, ?_, fun hc => absurd hc h, ?_⟩
    · intro _
      split
      · exact ⟨Int.le_refl _, by omega⟩
      · exact ⟨by omega, Int.le_refl _⟩
    · apply CapGasFee_within _ (Int.ediv fee msg.GasLimit) fee rfl
      simp only
      rw [hu]
      exact hdiv

/-- The message `feeDemo` (gas limit 1000, fee cap 50, premium 30) with the limit 20000: the
fee cap becomes 20 and the premium 20, and a second application changes nothing. -/
theorem CapGasFee_caps_witness :
    CapGasFee feeDemo (some 20000)
      = Except.ok { feeDemo with GasFeeCap := some 20, GasPremium := some 20 } ∧
    ∃ out newCap newPremium, CapGasFee feeDemo (some 20000) = Except.ok out ∧
      out = { feeDemo with GasFeeCap := some newCap, GasPremium := some newPremium } ∧
      newCap * feeDemo.GasLimit ≤ 20000 ∧
      newCap ≤ 50 ∧
      (newCap < 50 → newPremium ≤ newCap ∧ newPremium ≤ 30) ∧
      (50 * feeDemo.GasLimit ≤ 20000 → out = feeDemo) ∧
      CapGasFee out (some 20000) = Except.ok out :=
  ⟨rfl, (CapGasFee_caps feeDemo 50 30 20000 (by decide) (by decide) rfl rfl (by decide)).1⟩

/-! ## The selection tick of the manager: proofs -/

theorem addrSelectMsgNum.step_isSome (d : Nat) (m : NumMap) (a : Address) (k : AddrKey)
    (h : (m k).isSome = true ∨ k = a.Addr) : ((addrSelectMsgNum.step d m a) k).isSome = true := by
  unfold addrSelectMsgNum.step NumMap.set
  by_cases hk : k = a.Addr
  · subst hk
    cases hm : m a.Addr with
    | none =>
      simp only
      split <;> simp
    | some num =>
      simp only
      split
      · simp
      · rw [hm]
        rfl
  · rcases h with h | h
    · cases hm : m a.Addr with
      | none =>
        simp only
        split <;> simp [hk, h]
      | some num =>
        simp only
        split
        · simp [hk, h]
        · exact h
    · exact absurd h hk

theorem addrSelectMsgNum.foldl_isSome (d : Nat) (k : AddrKey) (l : List Address) :
    ∀ m : NumMap, ((m k).isSome = true ∨ k ∈ l.map Address.Addr) →
      ((l.foldl (addrSelectMsgNum.step d) m) k).isSome = true := by
  induction l with
  | nil =>
    intro m h
    rcases h with h | h
    · exact h
    · cases h
  | cons a rest ih =>
    intro m h
    rw [List.foldl_cons]
    apply ih
    rcases h with h | h
    · exact Or.inl (addrSelectMsgNum.step_isSome d m a k (Or.inl h))
    · rw [List.map_cons, List.mem_cons] at h
      rcases h with h | h
      · exact Or.inl (addrSelectMsgNum.step_isSome d m a k (Or.inr h))
      · exact Or.inr h

/-- The entries of the snapshot map are records of the list. -/
theorem addressMap.foldl_mem (addrList : List Address) :
    ∀ acc : GoMap Address,
      ∀ kv ∈ addrList.foldl (fun addrs addr => GoMap.set addrs addr.Addr addr) acc,
        kv.2 ∈ addrList ∨ kv ∈ acc := by
  induction addrList with
  | nil =>
    intro acc kv hkv
    exact Or.inr hkv
  | cons a rest ih =>
    intro acc kv hkv
    rw [List.foldl_cons] at hkv
    rcases ih (GoMap.set acc a.Addr a) kv hkv with h | h
    · exact Or.inl (List.mem_cons_of_mem _ h)
    · rcases GoMap.mem_set _ _ _ _ h with h | h
      · exact Or.inr h
      · rw [h]
        exact Or.inl (List.mem_cons_self _ _)

/-- The snapshot of an active address is a record of the list with that address; an address
that is not active has none. -/
theorem addressMap_get (addrList : List Address) (k : AddrKey) :
    (k ∈ addrList.map Address.Addr →
      ∃ a, GoMap.get (addressMap addrList) k = some a ∧ a.Addr = k ∧ a ∈ addrList) ∧
    (k ∉ addrList.map Address.Addr → GoMap.get (addressMap addrList) k = none) := by
  obtain ⟨h1, h2, h3⟩ := addressMap.foldl_keys addrList [] List.nodup_nil
    (fun kv h => (by cases h))
  have hk : k ∈ GoMap.keys (addressMap addrList) ↔ k ∈ addrList.map Address.Addr := by
    unfold addressMap
    rw [h3 k]
    simp [GoMap.keys]
  constructor
  · intro h
    cases hg : GoMap.get (addressMap addrList) k with
    | none => exact absurd (hk.mpr h) ((GoMap.get_eq_none _ _).mp hg)
    | some a =>
      have hmem := GoMap.mem_of_get _ _ _ hg
      refine ⟨a, rfl, h2 (k, a) hmem, ?_⟩
      rcases addressMap.foldl_mem addrList [] (k, a) hmem with h | h
      · exact h
      · cases h
  · intro h
    exact (GoMap.get_eq_none _ _).mpr (fun hc => h (hk.mp hc))

/-- A call of `startSelectMessage` on a worker whose pipeline is in flight does nothing. -/
theorem work.startSelectMessage_busy (env : Env) (faults : WriteFaults) (store : Store)
    (recv : MessageReceiver) (w : work) (applied : NonceMap) (addrInfo : Option Address)
    (ts : TipSet) (cap : Nat) (sp : Option SharedSpec)
    (hopen : w.controlClosed = false) (hbusy : w.controlChan ≥ 1) :
    work.startSelectMessage env faults store recv w applied addrInfo ts cap sp
      = { w := w, store := store, msgReceiver := recv } := by
  unfold work.startSelectMessage
  by_cases hctx : w.ctxDone = true
  · rw [if_pos hctx]
  · rw [if_neg hctx, if_neg (by rw [hopen]; decide), if_pos hbusy]

/-- C27, the failing tick: with a busy worker for `f1b` in the map and the active addresses
`f1a` and `f1d`, the worker of `f1b` is still in the map after the reconciliation and is
sent the tick with a nil address record and the cap 0.  Its pipeline then finishes, and the
call of that tick takes the token, enters `selectMessage` and dereferences the nil
record. -/
theorem SelectMessage_nil_snapshot :
    (SelectTicks.ticksD (mgrDemo.SelectMessage (Except.ok (some {})) (Except.ok activeDemo)
        (Except.ok []))).map
        (fun t => (t.w.addr, t.w.controlChan, t.addrInfo.isSome, t.maxAllowPendingMessage))
      = [("f1a", 0, true, 0), ("f1d", 0, true, 0), ("f1b", 1, false, 0)] ∧
    ((SelectTicks.ticksD (mgrDemo.SelectMessage (Except.ok (some {})) (Except.ok activeDemo)
        (Except.ok []))).filter (fun t => t.w.addr == "f1b")).map
        (fun t =>
          ((t.start envDemo noFaults storeDemo recvDemo (work.finish t.w) NewNonceMap
              {}).started,
            (t.start envDemo noFaults storeDemo recvDemo (work.finish t.w) NewNonceMap
              {}).fault))
      = [(true, some (Fault.panic "nil pointer dereference"))] := by
  decide

theorem addrSelectMsgNum.foldl_none (d : Nat) (k : AddrKey) (l : List Address) :
    ∀ m : NumMap, k ∉ l.map Address.Addr → (l.foldl (addrSelectMsgNum.step d) m) k = m k := by
  induction l with
  | nil => intro m _; rfl
  | cons a rest ih =>
    intro m h
    rw [List.map_cons, List.mem_cons, not_or] at h
    rw [List.foldl_cons, ih _ h.2]
    unfold addrSelectMsgNum.step NumMap.set
    cases m a.Addr with
    | none =>
      simp only
      split <;> simp [h.1]
    | some num =>
      simp only
      split
      · simp [h.1]
      · rfl

/-- The entries of the worker map after `tryUpdateWorks` with the snapshot map of a list:
the worker of an active address is the one that existed or a new one for that address; the
worker of an address that is not active is one that existed and was busy. -/
theorem MsgSelectMgr.tryUpdateWorks_entries (m : MsgSelectMgr) (addrList : List Address)
    (hwf : m.wf) :
    ∃ m1 closed, m.tryUpdateWorks (addressMap addrList) = Except.ok (m1, closed) ∧
      (GoMap.keys m1.works).Nodup ∧
      ∀ kw ∈ m1.works,
        (kw.1 ∈ addrList.map Address.Addr ∧
          (GoMap.get m.works kw.1 = some kw.2 ∨ ∃ p, kw.2 = newWork p kw.1)) ∨
        (kw.1 ∉ addrList.map Address.Addr ∧ GoMap.get m.works kw.1 = some kw.2 ∧
          kw.2.controlChan ≥ 1) := by
  obtain ⟨hnd, hmem⟩ := addressMap_spec addrList
  obtain ⟨m1, closed, h0, h1, h2, h3, -⟩ :=
    MsgSelectMgr.tryUpdateWorks_get m (addressMap addrList) hwf hnd
  refine ⟨m1, closed, h0, h1, ?_⟩
  intro kw hkw
  obtain ⟨k, v⟩ := kw
  have hget := GoMap.get_of_mem m1.works k v h1 hkw
  simp only
  by_cases hk : k ∈ addrList.map Address.Addr
  · refine Or.inl ⟨hk, ?_⟩
    have hk1 := (hmem k).mpr hk
    cases hg : GoMap.get m.works k with
    | none =>
      obtain ⟨p, -, -, hp⟩ := (h2 k hk1).2 hg
      rw [hp] at hget
      injection hget with hv
      exact Or.inr ⟨p, hv.symm⟩
    | some w =>
      rw [(h2 k hk1).1 w hg] at hget
      exact Or.inl hget
  · refine Or.inr ⟨hk, ?_⟩
    have hk1 := fun h => hk ((hmem k).mp h)
    cases hg : GoMap.get m.works k with
    | none =>
      rw [(h3 k hk1).2 hg] at hget
      cases hget
    | some w =>
      by_cases hidle : w.controlChan < 1
      · rw [(((h3 k hk1).1 w hg).1 hidle).1] at hget
        cases hget
      · rw [((h3 k hk1).1 w hg).2 hidle] at hget
        injection hget with hv
        rw [← hv]
        exact ⟨rfl, by omega⟩

/-- The ticks of `SelectMessage` for a well-formed worker map whose workers are stored
under their own address: one tick for every worker of the reconciled map, with the cap the
per-address table holds for the address of the worker (0 when it holds none).  A worker
whose address is in the active-address list is given the snapshot of its own address, a
record of that list, and the table holds a cap for it.  A worker whose address is missing
from that list is a worker of the old map whose pipeline was in flight at the
reconciliation; it is given a nil record and the cap 0, and the call of the tick returns
without entering `selectMessage` if the worker is still in that state when it runs. -/
theorem MsgSelectMgr.SelectMessage_entries (mgr : MsgSelectMgr) (sp : SharedSpec) (activeAddrs : List Address)
    (msgs : List ChainMessage) (hwf : mgr.wf) (hkeyed : mgr.keyed) :
    ∃ r, mgr.SelectMessage (Except.ok (some sp)) (Except.ok activeAddrs) (Except.ok msgs)
        = Except.ok r ∧
      r.mgr.wf ∧ r.mgr.keyed ∧
      r.ticks.map (fun t => t.w) = r.mgr.works.map Prod.snd ∧
      ∀ t ∈ r.ticks,
        t.maxAllowPendingMessage
          = (addrSelectMsgNum activeAddrs sp.SelMsgNum t.w.addr).getD 0 ∧
        (t.w.addr ∈ activeAddrs.map Address.Addr →
          (∃ a, t.addrInfo = some a ∧ a.Addr = t.w.addr ∧ a ∈ activeAddrs) ∧
          (addrSelectMsgNum activeAddrs sp.SelMsgNum t.w.addr).isSome = true) ∧
        (t.w.addr ∉ activeAddrs.map Address.Addr →
          t.addrInfo = none ∧ t.maxAllowPendingMessage = 0 ∧
          GoMap.get mgr.works t.w.addr = some t.w ∧ t.w.controlChan ≥ 1 ∧
          ∀ (env : Env) (faults : WriteFaults) (store : Store) (recv : MessageReceiver)
            (ts : TipSet),
            t.start env faults store recv t.w r.appliedNonce ts
              = { w := t.w, store := store, msgReceiver := recv }) := by
  obtain ⟨m1, closed, h0, h1, h2⟩ := MsgSelectMgr.tryUpdateWorks_entries mgr activeAddrs hwf
  have hkey1 : ∀ kw ∈ m1.works, kw.2.addr = kw.1 := by
    intro kw hkw
    rcases h2 kw hkw with ⟨-, h | ⟨p, h⟩⟩ | ⟨-, h, -⟩
    · exact hkeyed (kw.1, kw.2) (GoMap.mem_of_get _ _ _ h)
    · rw [h]
      rfl
    · exact hkeyed (kw.1, kw.2) (GoMap.mem_of_get _ _ _ h)
  have hopen1 : ∀ kw ∈ m1.works, kw.2.controlClosed = false := by
    intro kw hkw
    rcases h2 kw hkw with ⟨-, h | ⟨p, h⟩⟩ | ⟨-, h, -⟩
    · exact hwf.2 (kw.1, kw.2) (GoMap.mem_of_get _ _ _ h)
    · rw [h]
      rfl
    · exact hwf.2 (kw.1, kw.2) (GoMap.mem_of_get _ _ _ h)
  unfold MsgSelectMgr.SelectMessage
  simp only [h0, getNonceInTipset]
  refine ⟨_, rfl, ⟨h1, hopen1⟩, hkey1, ?_, ?_⟩
  · simp only [List.map_map]
    rfl
  · intro t ht
    simp only [List.mem_map] at ht
    obtain ⟨kw, hkw, ht⟩ := ht
    subst ht
    simp only
    have hkey := hkey1 kw hkw
    refine ⟨trivial, ?_, ?_⟩
    · intro hact
      refine ⟨?_, ?_⟩
      · obtain ⟨a, x1, x2, x3⟩ := (addressMap_get activeAddrs kw.2.addr).1 hact
        exact ⟨a, x1, x2, x3⟩
      · exact addrSelectMsgNum.foldl_isSome _ _ activeAddrs _ (Or.inr hact)
    · intro hna
      have hnone : addrSelectMsgNum activeAddrs sp.SelMsgNum kw.2.addr = none :=
        addrSelectMsgNum.foldl_none _ _ activeAddrs _ hna
      rcases h2 kw hkw with ⟨h, -⟩ | ⟨-, hold, hbusy⟩
      · rw [hkey] at hna
        exact absurd h hna
      · refine ⟨(addressMap_get activeAddrs kw.2.addr).2 hna, by rw [hnone]; rfl, ?_, hbusy, ?_⟩
        · rw [hkey]
          exact hold
        · intro env faults store recv ts
          unfold Tick.start
          exact work.startSelectMessage_busy env faults store recv kw.2 _ _ ts _ _
            (hopen1 kw hkw) hbusy

/-! ## Stored rows of actor configurations: proofs -/

theorem mtypes.SafeFromGo_some (v : Int) : mtypes.SafeFromGo (some v) = some v := rfl

/-- The conversion to a row and back gives the record again when its big integers are not
nil. -/
theorem fromActorCfg_ActorCfg (a : ActorCfg) (h1 : a.SelectSpec.MaxFee ≠ none)
    (h2 : a.SelectSpec.GasFeeCap ≠ none) (h3 : a.SelectSpec.BaseFee ≠ none) :
    (fromActorCfg a).ActorCfg = a := by
  obtain ⟨id, nv, ⟨cc, me⟩, ⟨goe, mf, gfc, gop, bf, smn⟩, ca, ua⟩ := a
  simp only at h1 h2 h3
  cases mf with
  | none => exact absurd rfl h1
  | some mf =>
    cases gfc with
    | none => exact absurd rfl h2
    | some gfc =>
      cases bf with
      | none => exact absurd rfl h3
      | some bf => rfl

/-- The row that is read after a successful `Save`, by primary key and by the pair of the
unique index, is the saved row with the stored times. -/
theorem ActorCfgTable.Save_find (table table1 : ActorCfgTable) (stamps : Nat × Nat)
    (row : mysqlActorCfg) (h : table.Save stamps row = Except.ok table1) :
    table1.find? (fun r => r.ID == row.ID)
      = some { row with CreatedAt := stamps.1, UpdatedAt := stamps.2 } ∧
    table1.find? (fun r => r.CodeCid.Cid == row.CodeCid.Cid && r.Method == row.Method)
      = some { row with CreatedAt := stamps.1, UpdatedAt := stamps.2 } := by
  unfold ActorCfgTable.Save at h
  split at h
  · cases h
  · rename_i huniq
    have hu : ∀ r ∈ table, r.CodeCid.Cid = row.CodeCid.Cid → r.Method = row.Method →
        r.ID = row.ID := by
      intro r hr hc hm
      by_contra hid
      apply huniq
      rw [List.any_eq_true]
      refine ⟨r, hr, ?_⟩
      have hcc : r.CodeCid = row.CodeCid := by
        cases hx : r.CodeCid
        cases hy : row.CodeCid
        rw [hx, hy] at hc
        simp only [mtypes.DBCid.Cid] at hc
        rw [hc]
      simp [hid, hcc, hm]
    split at h
    · rename_i hex
      injection h with h
      subst h
      rw [List.any_eq_true] at hex
      obtain ⟨r0, hr0, hid0⟩ := hex
      have hid0 : r0.ID = row.ID := by simpa using hid0
      constructor
      · clear hu huniq
        induction table with
        | nil => cases hr0
        | cons r rest ih =>
          rw [List.map_cons]
          by_cases hr : r.ID = row.ID
          · rw [if_pos hr, List.find?_cons_of_pos]
            simp
          · rw [if_neg hr, List.find?_cons_of_neg]
            · rcases List.mem_cons.mp hr0 with h | h
              · rw [h] at hid0
                exact absurd hid0 hr
              · exact ih h
            · simpa using hr
      · clear huniq
        induction table with
        | nil => cases hr0
        | cons r rest ih =>
          rw [List.map_cons]
          by_cases hr : r.ID = row.ID
          · rw [if_pos hr, List.find?_cons_of_pos]
            simp
          · rw [if_neg hr, List.find?_cons_of_neg]
            · rcases List.mem_cons.mp hr0 with h | h
              · rw [h] at hid0
                exact absurd hid0 hr
              · exact ih (fun x hx => hu x (List.mem_cons_of_mem _ hx)) h
            · intro hc
              simp only [Bool.and_eq_true, beq_iff_eq] at hc
              exact hr (hu r (List.mem_cons_self _ _) hc.1 hc.2)
    · rename_i hnex
      injection h with h
      subst h
      have hno : ∀ r ∈ table, r.ID ≠ row.ID := by
        intro r hr hid
        apply hnex
        rw [List.any_eq_true]
        exact ⟨r, hr, by simpa using hid⟩
      constructor
      · rw [List.find?_append]
        have : table.find? (fun r => r.ID == row.ID) = none := by
          rw [List.find?_eq_none]
          intro r hr
          simpa using hno r hr
        rw [this]
        simp
      · rw [List.find?_append]
        have : table.find? (fun r => r.CodeCid.Cid == row.CodeCid.Cid && r.Method == row.Method)
            = none := by
          rw [List.find?_eq_none]
          intro r hr hc
          simp only [Bool.and_eq_true, beq_iff_eq] at hc
          exact hno r hr (hu r hr hc.1 hc.2)
        rw [this]
        simp

/-- C22: for an actor configuration whose `MaxFee`, `GasFeeCap` and `BaseFee` are not nil,
`fromActorCfg` followed by `ActorCfg` gives the configuration again; and after a
`SaveActorCfg` that succeeds, `GetActorCfgByID` and `GetActorCfgByMethodType` return a
record equal to it in `ID`, `NVersion`, `MethodType` and `SelectSpec`. -/
theorem actorCfg_roundtrip (a : ActorCfg) (h1 : a.SelectSpec.MaxFee ≠ none)
    (h2 : a.SelectSpec.GasFeeCap ≠ none) (h3 : a.SelectSpec.BaseFee ≠ none) :
    (fromActorCfg a).ActorCfg = a ∧
    ∀ (table table1 : ActorCfgTable) (stamps : Nat × Nat),
      mysqlActorCfgRepo.SaveActorCfg table stamps a = Except.ok table1 →
      (∃ b, mysqlActorCfgRepo.GetActorCfgByID table1 a.ID = Except.ok b ∧
        b.ID = a.ID ∧ b.NVersion = a.NVersion ∧ b.MethodType = a.MethodType ∧
        b.SelectSpec = a.SelectSpec) ∧
      (∃ b, mysqlActorCfgRepo.GetActorCfgByMethodType table1 a.MethodType = Except.ok b ∧
        b.ID = a.ID ∧ b.NVersion = a.NVersion ∧ b.MethodType = a.MethodType ∧
        b.SelectSpec = a.SelectSpec) := by
  have hrt := fromActorCfg_ActorCfg a h1 h2 h3
  refine ⟨hrt, ?_⟩
  intro table table1 stamps hsave
  obtain ⟨f1, f2⟩ := ActorCfgTable.Save_find table table1 stamps (fromActorCfg a) hsave
  have hb : ∀ b : ActorCfg,
      b = mysqlActorCfg.ActorCfg
        { fromActorCfg a with CreatedAt := stamps.1, UpdatedAt := stamps.2 } →
      b.ID = a.ID ∧ b.NVersion = a.NVersion ∧ b.MethodType = a.MethodType ∧
        b.SelectSpec = a.SelectSpec := by
    intro b hb
    have e1 : b.ID = (fromActorCfg a).ActorCfg.ID := by rw [hb]; rfl
    have e2 : b.NVersion = (fromActorCfg a).ActorCfg.NVersion := by rw [hb]; rfl
    have e3 : b.MethodType = (fromActorCfg a).ActorCfg.MethodType := by rw [hb]; rfl
    have e4 : b.SelectSpec = (fromActorCfg a).ActorCfg.SelectSpec := by rw [hb]; rfl
    rw [hrt] at e1 e2 e3 e4
    exact ⟨e1, e2, e3, e4⟩
  constructor
  · unfold mysqlActorCfgRepo.GetActorCfgByID
    have : (fromActorCfg a).ID = a.ID := rfl
    rw [this] at f1
    rw [f1]
    exact ⟨_, rfl, hb _ rfl⟩
  · unfold mysqlActorCfgRepo.GetActorCfgByMethodType
    have e1 : (fromActorCfg a).CodeCid.Cid = a.MethodType.CodeCid := rfl
    have e2 : (fromActorCfg a).Method = a.MethodType.Method := rfl
    rw [e1, e2] at f2
    rw [f2]
    exact ⟨_, rfl, hb _ rfl⟩

/-- The configuration `actorCfgDemo` saved into a table that holds another configuration:
it is read back by its identifier with the same version, method type and select spec. -/
theorem actorCfg_roundtrip_witness :
    (mysqlActorCfgRepo.SaveActorCfg
        [fromActorCfg { actorCfgDemo with ID := "a0", MethodType := { CodeCid := Cid.ofMessage {}, Method := 6 } }]
        (3, 4) actorCfgDemo).toOption.map (fun t => t.map (fun r => (r.ID, r.Method, r.UpdatedAt)))
      = some [("a0", 6, 1), ("a1", 5, 4)] ∧
    (fromActorCfg actorCfgDemo).ActorCfg = actorCfgDemo :=
  ⟨by decide,
    (actorCfg_roundtrip actorCfgDemo (by decide) (by decide) (by decide)).1⟩

theorem mysqlActorCfg.setColumn_gas_fee_cap (r : mysqlActorCfg) (v : Int) :
    r.setColumn ("gas_fee_cap", ColumnValue.decimal v)
      = { r with SelectSpec := { r.SelectSpec with GasFeeCap := some v } } := rfl

theorem mysqlActorCfg.setColumn_base_fee (r : mysqlActorCfg) (v : Int) :
    r.setColumn ("base_fee", ColumnValue.decimal v)
      = { r with SelectSpec := { r.SelectSpec with BaseFee := some v } } := rfl

theorem mysqlActorCfg.setColumn_max_fee (r : mysqlActorCfg) (v : Int) :
    r.setColumn ("max_fee", ColumnValue.decimal v)
      = { r with SelectSpec := { r.SelectSpec with MaxFee := some v } } := rfl

theorem mysqlActorCfg.setColumn_sel_msg_num (r : mysqlActorCfg) (v : Nat) :
    r.setColumn ("sel_msg_num", ColumnValue.u64 v)
      = { r with SelectSpec := { r.SelectSpec with SelMsgNum := v } } := rfl

theorem mysqlActorCfg.setColumn_gas_over_estimation (r : mysqlActorCfg) (v : Float64) :
    r.setColumn ("gas_over_estimation", ColumnValue.f64 v)
      = { r with SelectSpec := { r.SelectSpec with GasOverEstimation := v } } := rfl

theorem mysqlActorCfg.setColumn_gas_over_premium (r : mysqlActorCfg) (v : Float64) :
    r.setColumn ("gas_over_premium", ColumnValue.f64 v)
      = { r with SelectSpec := { r.SelectSpec with GasOverPremium := v } } := rfl

theorem mysqlActorCfg.setColumn_updated_at (r : mysqlActorCfg) (v : Nat) :
    r.setColumn ("updated_at", ColumnValue.time v) = { r with UpdatedAt := v } := rfl

/-- The row after the columns of `UpdateSelectSpecById` and `updated_at` are assigned. -/
theorem UpdateSelectSpecById.row (spec : ChangeSelectSpecParams) (now : Nat)
    (r : mysqlActorCfg) :
    (UpdateSelectSpecById.updateColumns spec ++ [("updated_at", ColumnValue.time now)]).foldl
        mysqlActorCfg.setColumn r
      = { r with
          SelectSpec :=
            { SelMsgNum := spec.SelMsgNum.getD r.SelectSpec.SelMsgNum
              GasOverEstimation := spec.GasOverEstimation.getD r.SelectSpec.GasOverEstimation
              GasOverPremium := spec.GasOverPremium.getD r.SelectSpec.GasOverPremium
              MaxFee := if spec.MaxFee = none then r.SelectSpec.MaxFee else spec.MaxFee
              GasFeeCap := if spec.GasFeeCap = none then r.SelectSpec.GasFeeCap else spec.GasFeeCap
              BaseFee := if spec.BaseFee = none then r.SelectSpec.BaseFee else spec.BaseFee }
          UpdatedAt := now } := by
  obtain ⟨goe, mf, gfc, gop, bf, smn⟩ := spec
  cases goe <;> cases mf <;> cases gfc <;> cases gop <;> cases bf <;> cases smn <;>
    simp only [UpdateSelectSpecById.updateColumns, List.nil_append, List.cons_append,
      List.foldl_cons, List.foldl_nil, mysqlActorCfg.setColumn_gas_fee_cap,
      mysqlActorCfg.setColumn_base_fee, mysqlActorCfg.setColumn_max_fee,
      mysqlActorCfg.setColumn_sel_msg_num, mysqlActorCfg.setColumn_gas_over_estimation,
      mysqlActorCfg.setColumn_gas_over_premium, mysqlActorCfg.setColumn_updated_at,
      Option.getD_none, Option.getD_some, if_true, if_false, reduceCtorEq]

/-- `UpdateSelectSpecById` writes nothing exactly when the parameters supply no field. -/
theorem UpdateSelectSpecById.updateColumns_nil (spec : ChangeSelectSpecParams) :
    (UpdateSelectSpecById.updateColumns spec).length = 0 ↔ spec = {} := by
  obtain ⟨goe, mf, gfc, gop, bf, smn⟩ := spec
  cases goe <;> cases mf <;> cases gfc <;> cases gop <;> cases bf <;> cases smn <;>
    simp [UpdateSelectSpecById.updateColumns]

/-- C23: `UpdateSelectSpecById` with parameters that supply no field returns no error and
leaves the table as it is, `updated_at` included, whatever the database would answer.
Otherwise, when the statement succeeds, every record with another identifier is as it was,
and in every record with the identifier each select-spec field that the parameters supply
has the supplied value (a `SelMsgNum` of 0 included), every other select-spec field, the
identifier, the version, the code cid, the method and `created_at` are as they were, and
`updated_at` is the time of the call; when the statement fails the error is returned and
the table is as it was. -/
theorem UpdateSelectSpecById_frame (table : ActorCfgTable) (now : Nat) (id : String)
    (spec : ChangeSelectSpecParams) :
    (spec = {} → ∀ dbErr,
      mysqlActorCfgRepo.UpdateSelectSpecById dbErr table now id spec = (none, table)) ∧
    (∀ err, spec ≠ {} →
      mysqlActorCfgRepo.UpdateSelectSpecById (some err) table now id spec = (some err, table)) ∧
    (spec ≠ {} →
      (mysqlActorCfgRepo.UpdateSelectSpecById none table now id spec).1 = none ∧
      (mysqlActorCfgRepo.UpdateSelectSpecById none table now id spec).2.length = table.length ∧
      ∀ (i : Nat) (r : mysqlActorCfg), table[i]? = some r →
        (r.ID ≠ id →
          (mysqlActorCfgRepo.UpdateSelectSpecById none table now id spec).2[i]? = some r) ∧
        (r.ID = id →
          ∃ r1, (mysqlActorCfgRepo.UpdateSelectSpecById none table now id spec).2[i]? = some r1 ∧
            r1.ID = r.ID ∧ r1.NVersion = r.NVersion ∧ r1.CodeCid = r.CodeCid ∧
            r1.Method = r.Method ∧ r1.CreatedAt = r.CreatedAt ∧ r1.UpdatedAt = now ∧
            r1.SelectSpec.MaxFee
              = (if spec.MaxFee = none then r.SelectSpec.MaxFee else spec.MaxFee) ∧
            r1.SelectSpec.GasFeeCap
              = (if spec.GasFeeCap = none then r.SelectSpec.GasFeeCap else spec.GasFeeCap) ∧
            r1.SelectSpec.BaseFee
              = (if spec.BaseFee = none then r.SelectSpec.BaseFee else spec.BaseFee) ∧
            r1.SelectSpec.SelMsgNum = spec.SelMsgNum.getD r.SelectSpec.SelMsgNum ∧
            r1.SelectSpec.GasOverEstimation
              = spec.GasOverEstimation.getD r.SelectSpec.GasOverEstimation ∧
            r1.SelectSpec.GasOverPremium
              = spec.GasOverPremium.getD r.SelectSpec.GasOverPremium)) := by
  refine ⟨?_, ?_, ?_⟩
  · intro h dbErr
    unfold mysqlActorCfgRepo.UpdateSelectSpecById
    simp only
    rw [if_pos ((UpdateSelectSpecById.updateColumns_nil spec).mpr h)]
  · intro err h
    unfold mysqlActorCfgRepo.UpdateSelectSpecById
    simp only
    rw [if_neg (fun hc => h ((UpdateSelectSpecById.updateColumns_nil spec).mp hc))]
  · intro h
    have heq : mysqlActorCfgRepo.UpdateSelectSpecById none table now id spec
        = (none, table.UpdateColumns id
            (UpdateSelectSpecById.updateColumns spec ++ [("updated_at", ColumnValue.time now)])) := by
      unfold mysqlActorCfgRepo.UpdateSelectSpecById
      simp only
      rw [if_neg (fun hc => h ((UpdateSelectSpecById.updateColumns_nil spec).mp hc))]
    rw [heq]
    refine ⟨rfl, ?_, ?_⟩
    · unfold ActorCfgTable.UpdateColumns
      simp only [List.length_map]
    · intro i r hr
      unfold ActorCfgTable.UpdateColumns
      simp only [List.getElem?_map, hr, Option.map_some']
      constructor
      · intro hne
        rw [if_neg hne]
      · intro hid
        rw [if_pos hid, UpdateSelectSpecById.row]
        exact ⟨_, rfl, rfl, rfl, rfl, rfl, rfl, rfl, rfl, rfl, rfl, rfl, rfl, rfl⟩

/-- The row of `actorCfgDemo` with `SelMsgNum` set to 0 and nothing else supplied, and
with nothing supplied at all. -/
theorem UpdateSelectSpecById_frame_witness :
    (mysqlActorCfgRepo.UpdateSelectSpecById none [fromActorCfg actorCfgDemo] 9 "a1"
        { SelMsgNum := some 0 }).2.map
        (fun r => (r.SelectSpec.SelMsgNum, r.SelectSpec.MaxFee, r.UpdatedAt))
      = [(0, some 100, 9)] ∧
    mysqlActorCfgRepo.UpdateSelectSpecById (some (GoError.plain "gone"))
        [fromActorCfg actorCfgDemo] 9 "a1" {}
      = (none, [fromActorCfg actorCfgDemo]) :=
  ⟨by decide,
    (UpdateSelectSpecById_frame [fromActorCfg actorCfgDemo] 9 "a1" {}).1 rfl
      (some (GoError.plain "gone"))⟩

/-! ## Stored rows of messages: proofs -/

theorem toInt64_toUint64 (x : Int) (h0 : -9223372036854775808 ≤ x)
    (h1 : x < 9223372036854775808) : toInt64 (toUint64 x) = x := by
  unfold toUint64 toInt64
  omega

/-- The rows after `UpdateColumns`. -/
theorem MessageTable.UpdateColumns_mem (table : MessageTable) (dbErr : Option GoError)
    (selected : mysqlMessage → Bool) (update : mysqlMessage → mysqlMessage)
    (r1 : mysqlMessage) (h : r1 ∈ (table.UpdateColumns dbErr selected update).2) :
    r1 ∈ table ∨ ∃ r ∈ table, selected r = true ∧ r1 = update r := by
  unfold MessageTable.UpdateColumns at h
  cases dbErr with
  | some err => exact Or.inl h
  | none =>
    simp only [List.mem_map] at h
    obtain ⟨r, hr, heq⟩ := h
    by_cases hs : selected r = true
    · rw [if_pos hs] at heq
      exact Or.inr ⟨r, hr, hs, heq.symm⟩
    · rw [if_neg hs] at heq
      rw [← heq]
      exact Or.inl hr

/-- A statement that writes only the state and `updated_at` keeps the invariant when no row
it selects enters or leaves `OnChainMsg`. -/
theorem MessageTable.UpdateColumns_state (table : MessageTable) (dbErr : Option GoError)
    (selected : mysqlMessage → Bool) (state : MessageState) (now : Nat)
    (hinv : table.chainLinked)
    (hsame : ∀ r ∈ table, selected r = true →
      (r.State = MessageState.OnChainMsg ↔ state = MessageState.OnChainMsg)) :
    MessageTable.chainLinked
      (table.UpdateColumns dbErr selected
        (fun r => { r with State := state, UpdatedAt := now })).2 := by
  intro r1 hr1
  rcases MessageTable.UpdateColumns_mem _ _ _ _ r1 hr1 with h | ⟨r, hr, hs, heq⟩
  · exact hinv r1 h
  · subst heq
    obtain ⟨i1, i2⟩ := hinv r hr
    have := hsame r hr hs
    exact ⟨i1.trans this, i2.trans this⟩

theorem mysqlMessageRepo.ExpireMessage_chainLinked (dbErr : String → Option GoError)
    (now : Nat) (msgs : List Message) :
    ∀ table : MessageTable, table.chainLinked →
      (∀ r ∈ table, r.ID ∈ msgs.map (fun m => m.ID) → r.State ≠ MessageState.OnChainMsg) →
      MessageTable.chainLinked (mysqlMessageRepo.ExpireMessage dbErr now table msgs).2 := by
  induction msgs with
  | nil => intro table h _; exact h
  | cons msg rest ih =>
    intro table hinv hno
    rw [mysqlMessageRepo.ExpireMessage]
    have hstep := MessageTable.UpdateColumns_state table (dbErr msg.ID)
      (fun r => r.ID == msg.ID) MessageState.FailedMsg now hinv
      (by
        intro r hr hs
        have hid : r.ID = msg.ID := by simpa using hs
        have := hno r hr (by rw [hid]; exact List.mem_map.mpr ⟨msg, List.mem_cons_self _ _, rfl⟩)
        constructor
        · intro h
          exact absurd h this
        · intro h
          cases h)
    cases hres : table.UpdateColumns (dbErr msg.ID) (fun r => r.ID == msg.ID)
        (fun r => { r with State := MessageState.FailedMsg, UpdatedAt := now }) with
    | mk e table1 =>
      rw [hres] at hstep
      cases e with
      | some err => exact hstep
      | none =>
        simp only
        apply ih table1 hstep
        intro r1 hr1 hid
        have hmem : r1 ∈ (table.UpdateColumns (dbErr msg.ID) (fun r => r.ID == msg.ID)
            (fun r => { r with State := MessageState.FailedMsg, UpdatedAt := now })).2 := by
          rw [hres]
          exact hr1
        rcases MessageTable.UpdateColumns_mem _ _ _ _ r1 hmem with h | ⟨r, hr, hs, heq⟩
        · exact hno r1 h (by
            rw [List.map_cons]
            exact List.mem_cons_of_mem _ hid)
        · subst heq
          intro hc
          cases hc

/-- C24, as stated, fails: the table `tableDemo` satisfies the invariant; after
`MarkBadMessage` its message is `FailedMsg` with the height 5 and a tipset key; after
`UpdateMessageStateByCid` with `FillMsg` likewise; and after `UpdateMessageInfoByCid` with
`NonceConflictMsg`, a height and a tipset key, the message is in that state with both. -/
theorem message_updates_break_chain_link :
    tableDemo.chainLinked ∧
    ¬ MessageTable.chainLinked (mysqlMessageRepo.MarkBadMessage none tableDemo 9 "m1").2 ∧
    ¬ MessageTable.chainLinked
      (mysqlMessageRepo.UpdateMessageStateByCid none tableDemo 9 "c" MessageState.FillMsg).2 ∧
    ¬ MessageTable.chainLinked
      (mysqlMessageRepo.UpdateMessageInfoByCid codecDemo none tableDemo 9 "c" (some {}) 7
        MessageState.NonceConflictMsg { cids := [Cid.ofMessage {}] }).2 := by
  unfold MessageTable.chainLinked mysqlMessage.chainLinked
  decide

/-- A row that a statement selects is in the table afterwards in its updated form. -/
theorem MessageTable.UpdateColumns_updated (table : MessageTable)
    (selected : mysqlMessage → Bool) (update : mysqlMessage → mysqlMessage)
    (r : mysqlMessage) (hr : r ∈ table) (hs : selected r = true) :
    update r ∈ (table.UpdateColumns none selected update).2 := by
  unfold MessageTable.UpdateColumns
  exact List.mem_map.mpr ⟨r, hr, by rw [if_pos hs]⟩

/-- When a statement that writes only the state and `updated_at` succeeds and the invariant
holds before and after it, no row it selected entered or left `OnChainMsg`. -/
theorem MessageTable.UpdateColumns_state_conv (table : MessageTable)
    (selected : mysqlMessage → Bool) (state : MessageState) (now : Nat)
    (hinv : table.chainLinked)
    (hafter : MessageTable.chainLinked
      (table.UpdateColumns none selected
        (fun r => { r with State := state, UpdatedAt := now })).2) :
    ∀ r ∈ table, selected r = true →
      (r.State = MessageState.OnChainMsg ↔ state = MessageState.OnChainMsg) := by
  intro r hr hs
  obtain ⟨a1, -⟩ := hafter _ (MessageTable.UpdateColumns_updated table selected
    (fun r => { r with State := state, UpdatedAt := now }) r hr hs)
  obtain ⟨b1, -⟩ := hinv r hr
  exact b1.symm.trans a1

/-- C24, amended: on a table in which every row has height and tipset key exactly when its
state is `OnChainMsg`, the operations that write only the state and `updated_at`
(`UpdateMessageStateByCid`, `UpdateMessageStateByID`, `MarkBadMessage`, `ExpireMessage`)
keep that property when no message they select enters or leaves `OnChainMsg`, and a single
statement that succeeds keeps it only then; `UpdateMessageInfoByCid`, which writes height,
tipset key and state together, keeps it when the state it is given is `OnChainMsg` exactly
when the height is not zero and exactly when the text of the tipset key is not empty, and
when it succeeds on a row it keeps it only then. -/
theorem message_updates_chain_link (codec : RowCodec) (table : MessageTable) (now : Nat)
    (hinv : table.chainLinked) :
    (∀ dbErr cid state,
      ((∀ r ∈ table, r.UnsignedCid = cid →
          (r.State = MessageState.OnChainMsg ↔ state = MessageState.OnChainMsg)) →
        MessageTable.chainLinked
          (mysqlMessageRepo.UpdateMessageStateByCid dbErr table now cid state).2) ∧
      (dbErr = none →
        MessageTable.chainLinked
          (mysqlMessageRepo.UpdateMessageStateByCid dbErr table now cid state).2 →
        ∀ r ∈ table, r.UnsignedCid = cid →
          (r.State = MessageState.OnChainMsg ↔ state = MessageState.OnChainMsg))) ∧
    (∀ dbErr id state,
      ((∀ r ∈ table, r.ID = id →
          (r.State = MessageState.OnChainMsg ↔ state = MessageState.OnChainMsg)) →
        MessageTable.chainLinked
          (mysqlMessageRepo.UpdateMessageStateByID dbErr table now id state).2) ∧
      (dbErr = none →
        MessageTable.chainLinked
          (mysqlMessageRepo.UpdateMessageStateByID dbErr table now id state).2 →
        ∀ r ∈ table, r.ID = id →
          (r.State = MessageState.OnChainMsg ↔ state = MessageState.OnChainMsg))) ∧
    (∀ dbErr id,
      ((∀ r ∈ table, r.ID = id → r.State ≠ MessageState.OnChainMsg) →
        MessageTable.chainLinked (mysqlMessageRepo.MarkBadMessage dbErr table now id).2) ∧
      (dbErr = none →
        MessageTable.chainLinked (mysqlMessageRepo.MarkBadMessage dbErr table now id).2 →
        ∀ r ∈ table, r.ID = id → r.State ≠ MessageState.OnChainMsg)) ∧
    (∀ dbErr (msgs : List Message),
      (∀ r ∈ table, r.ID ∈ msgs.map (fun m => m.ID) → r.State ≠ MessageState.OnChainMsg) →
      MessageTable.chainLinked (mysqlMessageRepo.ExpireMessage dbErr now table msgs).2) ∧
    (∀ dbErr cid receipt (height : Int) state tsKey,
      -9223372036854775808 ≤ height → height < 9223372036854775808 →
      (((height ≠ 0 ↔ state = MessageState.OnChainMsg) →
          (codec.TipSetKeyString tsKey ≠ "" ↔ state = MessageState.OnChainMsg) →
          MessageTable.chainLinked
            (mysqlMessageRepo.UpdateMessageInfoByCid codec dbErr table now cid receipt height
              state tsKey).2) ∧
        (dbErr = none → receipt ≠ none → (∃ r ∈ table, r.UnsignedCid = cid) →
          MessageTable.chainLinked
            (mysqlMessageRepo.UpdateMessageInfoByCid codec dbErr table now cid receipt height
              state tsKey).2 →
          (height ≠ 0 ↔ state = MessageState.OnChainMsg) ∧
          (codec.TipSetKeyString tsKey ≠ "" ↔ state = MessageState.OnChainMsg)))) := by
  refine ⟨?_, ?_, ?_, ?_, ?_⟩
  · intro dbErr cid state
    refine ⟨fun h => ?_, fun hd hafter r hr hc => ?_⟩
    · exact MessageTable.UpdateColumns_state table dbErr _ state now hinv
        (fun r hr hs => h r hr (by simpa using hs))
    · subst hd
      exact MessageTable.UpdateColumns_state_conv table _ state now hinv hafter r hr
        (by simpa using hc)
  · intro dbErr id state
    refine ⟨fun h => ?_, fun hd hafter r hr hc => ?_⟩
    · exact MessageTable.UpdateColumns_state table dbErr _ state now hinv
        (fun r hr hs => h r hr (by simpa using hs))
    · subst hd
      exact MessageTable.UpdateColumns_state_conv table _ state now hinv hafter r hr
        (by simpa using hc)
  · intro dbErr id
    refine ⟨fun h => ?_, fun hd hafter r hr hc hon => ?_⟩
    · exact MessageTable.UpdateColumns_state table dbErr _ MessageState.FailedMsg now hinv
        (fun r hr hs =>
          ⟨fun hc => absurd hc (h r hr (by simpa using hs)), fun hc => by cases hc⟩)
    · subst hd
      have := (MessageTable.UpdateColumns_state_conv table _ MessageState.FailedMsg now hinv
        hafter r hr (by simpa using hc)).mp hon
      cases this
  · intro dbErr msgs h
    exact mysqlMessageRepo.ExpireMessage_chainLinked dbErr now msgs table hinv h
  · intro dbErr cid receipt height state tsKey h0 h1
    refine ⟨fun hh ht => ?_, fun hd hrc hex hafter => ?_⟩
    · unfold mysqlMessageRepo.UpdateMessageInfoByCid
      cases repo.FromMsgReceipt receipt with
      | none => exact hinv
      | some rcp =>
        simp only
        intro r1 hr1
        rcases MessageTable.UpdateColumns_mem _ _ _ _ r1 hr1 with h | ⟨r, hr, hs, heq⟩
        · exact hinv r1 h
        · subst heq
          refine ⟨?_, ht⟩
          simp only
          rw [toInt64_toUint64 height h0 h1]
          exact hh
    · subst hd
      obtain ⟨rc, rfl⟩ := Option.ne_none_iff_exists'.mp hrc
      obtain ⟨r, hr, hc⟩ := hex
      unfold mysqlMessageRepo.UpdateMessageInfoByCid repo.FromMsgReceipt at hafter
      simp only [Option.map_some'] at hafter
      obtain ⟨a1, a2⟩ := hafter _ (MessageTable.UpdateColumns_updated table
        (fun r => r.UnsignedCid == cid) _ r hr (by simpa using hc))
      simp only at a1 a2
      rw [toInt64_toUint64 height h0 h1] at a1
      exact ⟨a1, a2⟩

/-- The table `tableTwoDemo` satisfies the invariant; `MarkBadMessage` on its waiting
message `m2` changes that row and keeps the invariant, and so does
`UpdateMessageInfoByCid` that puts `m2` on chain at the height 7 with a tipset key. -/
theorem message_updates_chain_link_witness :
    tableTwoDemo.chainLinked ∧
    MessageTable.chainLinked (mysqlMessageRepo.MarkBadMessage none tableTwoDemo 9 "m2").2 ∧
    (mysqlMessageRepo.MarkBadMessage none tableTwoDemo 9 "m2").2.map
        (fun r => (r.ID, r.State, r.Height, r.UpdatedAt))
      = [("m1", MessageState.OnChainMsg, 5, 0), ("m2", MessageState.FailedMsg, 0, 9)] ∧
    MessageTable.chainLinked
      (mysqlMessageRepo.UpdateMessageInfoByCid codecDemo none tableTwoDemo 9 "d"
        (some { GasUsed := 3 }) 7 MessageState.OnChainMsg { cids := [Cid.ofMessage {}] }).2 ∧
    (mysqlMessageRepo.UpdateMessageInfoByCid codecDemo none tableTwoDemo 9 "d"
        (some { GasUsed := 3 }) 7 MessageState.OnChainMsg { cids := [Cid.ofMessage {}] }).2.map
        (fun r => (r.ID, r.State, r.Height, r.TipsetKey))
      = [("m1", MessageState.OnChainMsg, 5, "k"), ("m2", MessageState.OnChainMsg, 7, "k")] :=
  have hinv : tableTwoDemo.chainLinked := by
    unfold MessageTable.chainLinked mysqlMessage.chainLinked
    decide
  ⟨hinv,
    ((message_updates_chain_link codecDemo tableTwoDemo 9 hinv).2.2.1 none "m2").1 (by decide),
    by decide,
    ((message_updates_chain_link codecDemo tableTwoDemo 9 hinv).2.2.2.2 none "d"
      (some { GasUsed := 3 }) 7 MessageState.OnChainMsg { cids := [Cid.ofMessage {}] }
      (by decide) (by decide)).1 (by decide) (by decide),
    by decide⟩
end Messager
